import Mathlib

/-!
# InformaticaUtilGo, package `expression`: parser and evaluator

A shallow embedding of `src/expression/parser.go` and `src/expression/functions.go`.

Conventions of the embedding:

* Go `string` values are Lean `String`s (valid UTF-8 text); the standard-library string
  functions the package calls (`strings.ReplaceAll`, `strings.HasPrefix`, `strings.TrimLeft`,
  `strings.TrimRight`) are written out on the character lists.
* A Go function returning `(value, error)` returns a `Res`: `ok`, `error` with the message, or
  `panic` when the Go runtime would panic (index out of range, failed type assertion).
  `outOfFuel` is an artefact of the embedding of the recursive structural pass only.
* `[]interface{}` holds either a `string` or a `Node`; that is the type `Arg`.
* The float64 operations of `strconv`, `fmt` and `math` are the fields of `Float64Lib`.
* The lexer (`lexmachine`) is not embedded: `parse` and `Evaluate` take the outcome of
  `scanInput(input)` as their first argument.
-/

namespace Expression

/-! ## Results of Go calls -/

/-- Outcome of a Go call that returns `(value, error)`. -/
inductive Res (α : Type) where
  | ok (a : α)
  | error (msg : String)
  | panic (msg : String)
  | outOfFuel
  deriving Repr, DecidableEq

/-- Sequencing of two calls: the first failure is the failure of the whole. -/
def Res.bind {α β : Type} : Res α → (α → Res β) → Res β
  | .ok a, f => f a
  | .error e, _ => .error e
  | .panic p, _ => .panic p
  | .outOfFuel, _ => .outOfFuel

/-- The call returned a non-nil `error` value. -/
def Res.isError {α : Type} : Res α → Bool
  | .error _ => true
  | _ => false

/-- The call returned with a nil `error`. -/
def Res.isOk {α : Type} : Res α → Bool
  | .ok _ => true
  | _ => false

/-- The call did not return: the Go runtime panicked. -/
def Res.isPanic {α : Type} : Res α → Bool
  | .panic _ => true
  | _ => false

/-! ## Data model (`parser.go` lines 136-147) -/

mutual
/-- `type Node struct { Exp string; Args []interface{} }`. -/
inductive Node where
  | mk (Exp : String) (Args : List Arg)
/-- An element of `Node.Args` (an `interface{}`): a `string` or a `Node`. -/
inductive Arg where
  | str (s : String)
  | node (n : Node)
end

/-- Field `Exp` of a `Node`. -/
def Node.Exp : Node → String
  | .mk e _ => e

/-- Field `Args` of a `Node`. -/
def Node.Args : Node → List Arg
  | .mk _ a => a

/-- `type Variable struct { N string; T string; V string }`: name, type, value. -/
structure Variable where
  N : String
  T : String
  V : String
  deriving Repr, DecidableEq

mutual
/-- Decidable equality of nodes. -/
def Node.decEq : (a b : Node) → Decidable (a = b)
  | .mk e1 a1, .mk e2 a2 =>
    if he : e1 = e2 then
      match Arg.decEqList a1 a2 with
      | isTrue ha => isTrue (by rw [he, ha])
      | isFalse ha => isFalse (fun h => ha (by cases h; rfl))
    else isFalse (fun h => he (by cases h; rfl))
/-- Decidable equality of arguments. -/
def Arg.decEq : (a b : Arg) → Decidable (a = b)
  | .str s, .str t =>
    if h : s = t then isTrue (by rw [h]) else isFalse (fun h2 => h (by cases h2; rfl))
  | .node m, .node n =>
    match Node.decEq m n with
    | isTrue h => isTrue (by rw [h])
    | isFalse h => isFalse (fun h2 => h (by cases h2; rfl))
  | .str _, .node _ => isFalse (fun h => by cases h)
  | .node _, .str _ => isFalse (fun h => by cases h)
/-- Decidable equality of argument lists. -/
def Arg.decEqList : (a b : List Arg) → Decidable (a = b)
  | [], [] => isTrue rfl
  | [], _ :: _ => isFalse (fun h => by cases h)
  | _ :: _, [] => isFalse (fun h => by cases h)
  | x :: xs, y :: ys =>
    match Arg.decEq x y with
    | isTrue h1 =>
      match Arg.decEqList xs ys with
      | isTrue h2 => isTrue (by rw [h1, h2])
      | isFalse h2 => isFalse (fun h => h2 (by cases h; rfl))
    | isFalse h1 => isFalse (fun h => h1 (by cases h; rfl))
end

instance : DecidableEq Node := Node.decEq

instance : DecidableEq Arg := Arg.decEq

/-- The leaf check of `evaluateNode`: `Exp` is `NUMBER`, `STRING` or `NULL`. -/
def isLeafTag (exp : String) : Bool :=
  exp == "NUMBER" || exp == "STRING" || exp == "NULL"

/-! ## Text of `%v` and `%+v` for nodes (used in error messages) -/

mutual
/-- Text of a `Node` under `%v` (plus = false) or `%+v` (plus = true). -/
def fmtNode (plus : Bool) : Node → String
  | .mk e as =>
    "\x7b" ++ (if plus then "Exp:" else "") ++ e ++ " " ++ (if plus then "Args:" else "")
      ++ "[" ++ fmtArgs plus as ++ "]\x7d"
/-- Text of an `interface{}` value under `%v` / `%+v`. -/
def fmtArg (plus : Bool) : Arg → String
  | .str s => s
  | .node n => fmtNode plus n
/-- Text of the elements of a slice, separated by blanks. -/
def fmtArgs (plus : Bool) : List Arg → String
  | [] => ""
  | [a] => fmtArg plus a
  | a :: b :: rest => fmtArg plus a ++ " " ++ fmtArgs plus (b :: rest)
end

/-- Text of a `[]Node` under `%+v`. -/
def fmtNodes (plus : Bool) (ns : List Node) : String :=
  "[" ++ fmtArgs plus (ns.map Arg.node) ++ "]"

/-! ## Standard-library string functions used by the package -/

/-- `strings.HasPrefix(s, pre)`. -/
def HasPrefix (s pre : String) : Bool :=
  pre.toList.isPrefixOf s.toList

/-- Scanning loop of `strings.Replace` for a non-empty `old`: with `skip = 0` the text is
searched for `old` at the current position; a match writes `new` and skips the rest of the
match, so matches are the leftmost non-overlapping ones and written text is not searched. -/
def replaceLoop (old new : List Char) : Nat → List Char → List Char
  | _, [] => []
  | skip + 1, _ :: cs => replaceLoop old new skip cs
  | 0, c :: cs =>
    if old.isPrefixOf (c :: cs) then new ++ replaceLoop old new (old.length - 1) cs
    else c :: replaceLoop old new 0 cs

/-- `strings.ReplaceAll(s, old, new)`: `s` with all non-overlapping instances of `old`
replaced by `new`; an empty `old` matches before every character and at the end. -/
def ReplaceAll (s old new : String) : String :=
  if old = new then s
  else if old.toList = [] then
    String.mk (new.toList ++ s.toList.flatMap (fun c => c :: new.toList))
  else String.mk (replaceLoop old.toList new.toList 0 s.toList)

/-- `strings.TrimLeft(s, cutset)`: `s` without its leading characters contained in `cutset`. -/
def TrimLeft (s cutset : String) : String :=
  String.mk (s.toList.dropWhile (fun c => cutset.toList.contains c))

/-- `strings.TrimRight(s, cutset)`: `s` without its trailing characters contained in
`cutset`. -/
def TrimRight (s cutset : String) : String :=
  String.mk (s.toList.reverse.dropWhile (fun c => cutset.toList.contains c)).reverse

/-- `string(rune(i))` for an `int` i: the conversion to `rune` keeps the low 32 bits as a
signed number, and the conversion to `string` gives the UTF-8 text of a valid code point and
U+FFFD for any other number. -/
def runeString (i : Int) : String :=
  let r : Int := (i + 2147483648) % 4294967296 - 2147483648
  if 0 ≤ r ∧ Nat.isValidChar r.toNat then String.singleton (Char.ofNat r.toNat)
  else String.singleton (Char.ofNat 65533)

/-! ## float64 operations of the standard library -/

/-- The float64 operations the package calls, as an interface: `strconv.ParseFloat(s, 64)`
(value, or the text of the error), `fmt.Sprintf("%f", f)`, `math.Abs(f)` and the conversion
`int(f)`. -/
structure Float64Lib where
  F : Type
  ParseFloat : String → Except String F
  Sprintf_f : F → String
  Abs : F → F
  toInt : F → Int

/-- `reformatFloat` (`parser.go` lines 495-504): a number rewritten as a float in string
format, e.g. 2 => 2.000000. -/
def reformatFloat (L : Float64Lib) (i : String) : Res String :=
  match L.ParseFloat i with
  | .error e => .error e
  | .ok f => .ok (L.Sprintf_f f)

/-! ## The float64 operations of Go, over exact fractions

`strconv.ParseFloat` follows `atof.go` of Go 1.13 and later (decimal and hexadecimal numbers,
underscores, infinities and NaN); its result and that of `%f` are the correctly rounded ones,
computed here on exact fractions. -/

/-- A float64 value: not-a-number, an infinity, or the finite number `± m * 2 ^ e`. -/
inductive F64 where
  | nan
  | inf (neg : Bool)
  | fin (neg : Bool) (m : Nat) (e : Int)
  deriving Repr, DecidableEq

/-- The quotient `n / d` rounded to the nearest integer, ties to even. -/
def roundHalfEven (n d : Nat) : Nat :=
  let q := n / d
  let r := n % d
  if 2 * r > d ∨ (2 * r = d ∧ q % 2 = 1) then q + 1 else q

/-- The loop of `log2`, on at most `fuel` halvings. -/
def log2Loop : Nat → Nat → Nat
  | 0, _ => 0
  | fuel + 1, n => if n < 2 then 0 else log2Loop fuel (n / 2) + 1

/-- The position of the highest bit of `n`: the largest `k` with `2 ^ k ≤ n` (0 for 0). -/
def log2 (n : Nat) : Nat := log2Loop n n

/-- The float64 nearest to `± num / den` (ties to even, subnormals included); none when the
rounded value is beyond the largest finite float64. -/
def roundToF64 (neg : Bool) (num den : Nat) : Option F64 :=
  if num = 0 then some (.fin neg 0 0)
  else
    let lg : Int := (log2 num : Int) - (log2 den : Int)
    let ge : Bool := if 0 ≤ lg then decide (den * 2 ^ lg.toNat ≤ num)
      else decide (den ≤ num * 2 ^ (-lg).toNat)
    let ex : Int := max (if ge then lg else lg - 1) (-1022)
    let q : Int := ex - 52
    let m : Nat := if 0 ≤ q then roundHalfEven num (den * 2 ^ q.toNat)
      else roundHalfEven (num * 2 ^ (-q).toNat) den
    if 0 ≤ q ∧ 2 ^ 1024 ≤ m * 2 ^ q.toNat then none else some (.fin neg m q)

/-- Go's `lower(c)`: `c | ('x' - 'X')`. -/
def lower (c : Char) : Char := Char.ofNat (c.toNat ||| 32)

/-- Value of a decimal digit character. -/
def digitVal (c : Char) : Nat := c.toNat - 48

/-- `commonPrefixLenIgnoreCase(s, pre)` of `strconv`; `pre` is in lower case. -/
def commonPrefixLenIgnoreCase : List Char → List Char → Nat
  | c :: s, p :: pre =>
    let c2 := if 'A' ≤ c ∧ c ≤ 'Z' then Char.ofNat (c.toNat + 32) else c
    if c2 = p then commonPrefixLenIgnoreCase s pre + 1 else 0
  | _, _ => 0

/-- `special(s)` of `strconv`: the value of a leading infinity or NaN and the number of
characters it takes. -/
def special (s : List Char) : Option (F64 × Nat) :=
  let infLen (t : List Char) : Option Nat :=
    let n := commonPrefixLenIgnoreCase t "infinity".toList
    let n := if 3 < n ∧ n < 8 then 3 else n
    if n = 3 ∨ n = 8 then some n else none
  match s with
  | [] => none
  | c :: t =>
    if c = '+' then (infLen t).map fun n => (.inf false, n + 1)
    else if c = '-' then (infLen t).map fun n => (.inf true, n + 1)
    else if c = 'i' ∨ c = 'I' then (infLen s).map fun n => (.inf false, n)
    else if c = 'n' ∨ c = 'N' then
      if commonPrefixLenIgnoreCase s "nan".toList = 3 then some (.nan, 3) else none
    else none

/-- State of the mantissa loop of `readFloat`: the digits read so far as a number, how many of
them stand after the point, and the flags of the source. -/
structure Mant where
  value : Nat := 0
  fracDigits : Nat := 0
  sawdot : Bool := false
  sawdigits : Bool := false
  underscores : Bool := false
  deriving Repr

/-- The mantissa loop of `readFloat` in base 10 or 16: the state at the first character that
does not belong to the mantissa, and the rest of the text from that character. -/
def readMantissa (hex : Bool) : List Char → Mant → Mant × List Char
  | [], st => (st, [])
  | c :: rest, st =>
    if c = '_' then readMantissa hex rest { st with underscores := true }
    else if c = '.' then
      if st.sawdot then (st, c :: rest) else readMantissa hex rest { st with sawdot := true }
    else if '0' ≤ c ∧ c ≤ '9' then
      readMantissa hex rest { st with
        sawdigits := true
        value := st.value * (if hex then 16 else 10) + digitVal c
        fracDigits := if st.sawdot then st.fracDigits + 1 else st.fracDigits }
    else if hex ∧ 'a' ≤ lower c ∧ lower c ≤ 'f' then
      readMantissa hex rest { st with
        sawdigits := true
        value := st.value * 16 + ((lower c).toNat - 97 + 10)
        fracDigits := if st.sawdot then st.fracDigits + 1 else st.fracDigits }
    else (st, c :: rest)

/-- The digit loop of the exponent of `readFloat`: the exponent stops growing once it has
reached 10000. -/
def readExpDigits : List Char → Nat → Bool → Nat × Bool × List Char
  | [], e, us => (e, us, [])
  | c :: rest, e, us =>
    if c = '_' then readExpDigits rest e true
    else if '0' ≤ c ∧ c ≤ '9' then
      readExpDigits rest (if e < 10000 then e * 10 + digitVal c else e) us
    else (e, us, c :: rest)

/-- The loop of `underscoreOK` with the last kind of character seen: `'0'` for a digit or base
prefix, `'_'` for an underscore, `'!'` for anything else, `'^'` at the beginning. -/
def underscoreLoop (hex : Bool) : List Char → Char → Bool
  | [], saw => saw ≠ '_'
  | c :: rest, saw =>
    if ('0' ≤ c ∧ c ≤ '9') ∨ (hex ∧ 'a' ≤ lower c ∧ lower c ≤ 'f') then underscoreLoop hex rest '0'
    else if c = '_' then (if saw ≠ '0' then false else underscoreLoop hex rest '_')
    else if saw = '_' then false
    else underscoreLoop hex rest '!'

/-- `underscoreOK(s)` of `strconv`: underscores stand only between digits or between a base
prefix and a digit. -/
def underscoreOK (s : List Char) : Bool :=
  let s := match s with
    | c :: t => if c = '-' ∨ c = '+' then t else s
    | [] => s
  match s with
  | c0 :: c1 :: t =>
    if c0 = '0' ∧ (lower c1 = 'b' ∨ lower c1 = 'o' ∨ lower c1 = 'x') then
      underscoreLoop (lower c1 = 'x') t '0'
    else underscoreLoop false s '^'
  | _ => underscoreLoop false s '^'

/-- What `readFloat` reads from a text it accepts: the sign, the base, the mantissa digits as a
number, the count of digits after the point and the signed exponent. -/
structure ReadFloat where
  neg : Bool
  hex : Bool
  mant : Nat
  fracDigits : Nat
  exp : Int
  deriving Repr

/-- `readFloat(s)` of `strconv` together with the check of `ParseFloat` that the whole text was
read: none for a text that is not a decimal or hexadecimal floating-point number. -/
def readFloat (s : List Char) : Option ReadFloat :=
  match s with
  | [] => none
  | c :: t =>
    let neg := decide (c = '-')
    let body := if c = '+' ∨ c = '-' then t else s
    let hex : Bool := match body with
      | c0 :: c1 :: _ :: _ => decide (c0 = '0' ∧ lower c1 = 'x')
      | _ => false
    let digits := if hex then body.drop 2 else body
    let (st, rest) := readMantissa hex digits {}
    if ¬ st.sawdigits then none
    else
      let finish (exp : Int) (us : Bool) (rest : List Char) : Option ReadFloat :=
        if rest ≠ [] then none
        else if us ∧ ¬ underscoreOK s then none
        else some ⟨neg, hex, st.value, st.fracDigits, exp⟩
      match rest with
      | e :: rest1 =>
        if lower e = (if hex then 'p' else 'e') then
          match rest1 with
          | [] => none
          | sg :: rest2 =>
            let esign : Int := if sg = '-' then -1 else 1
            let ds := if sg = '+' ∨ sg = '-' then rest2 else rest1
            match ds with
            | [] => none
            | d :: _ =>
              if '0' ≤ d ∧ d ≤ '9' then
                let (ev, us, rest3) := readExpDigits ds 0 st.underscores
                finish (esign * ev) us rest3
              else none
        else if hex then none
        else finish 0 st.underscores rest
      | [] => if hex then none else finish 0 st.underscores []

/-- The exact value read by `readFloat` as a fraction `num / den`. -/
def ReadFloat.fraction (r : ReadFloat) : Nat × Nat :=
  if r.hex then
    let e2 : Int := r.exp - 4 * r.fracDigits
    if 0 ≤ e2 then (r.mant * 2 ^ e2.toNat, 1) else (r.mant, 2 ^ (-e2).toNat)
  else
    let e10 : Int := r.exp - r.fracDigits
    if 0 ≤ e10 then (r.mant * 10 ^ e10.toNat, 1) else (r.mant, 10 ^ (-e10).toNat)

/-- Text of the error of `strconv.ParseFloat` for the text `s` (quoted as Go quotes a text of
printable characters without quote or backslash). -/
def numErrorMsg (s why : String) : String :=
  "strconv.ParseFloat: parsing \"" ++ s ++ "\": " ++ why

/-- `strconv.ParseFloat(s, 64)`: the float64 nearest to the number written in `s`. -/
def goParseFloat (s : String) : Except String F64 :=
  match special s.toList with
  | some (f, n) => if n = s.length then .ok f else .error (numErrorMsg s "invalid syntax")
  | none =>
    match readFloat s.toList with
    | none => .error (numErrorMsg s "invalid syntax")
    | some r =>
      match roundToF64 r.neg r.fraction.1 r.fraction.2 with
      | some f => .ok f
      | none => .error (numErrorMsg s "value out of range")

/-- Six decimal digits of a number below 10^6, with leading zeros. -/
def pad6 (n : Nat) : String :=
  let ds := (Nat.toDigits 10 n)
  String.mk (List.replicate (6 - ds.length) '0' ++ ds)

/-- `fmt.Sprintf("%f", f)`: fixed-point text with six digits after the point, the exact value
rounded to nearest, ties to even. -/
def goSprintf_f : F64 → String
  | .nan => "NaN"
  | .inf false => "+Inf"
  | .inf true => "-Inf"
  | .fin neg m e =>
    let r : Nat := if 0 ≤ e then m * 2 ^ e.toNat * 1000000
      else roundHalfEven (m * 1000000) (2 ^ (-e).toNat)
    (if neg then "-" else "") ++ String.mk (Nat.toDigits 10 (r / 1000000)) ++ "."
      ++ pad6 (r % 1000000)

/-- `math.Abs(f)`. -/
def goAbs : F64 → F64
  | .nan => .nan
  | .inf _ => .inf false
  | .fin _ m e => .fin false m e

/-- The conversion `int(f)` on a 64-bit platform: the value truncated toward zero; for a value
outside the range of `int` the result is implementation-dependent and taken here as the
smallest `int`, as on amd64. -/
def goToInt : F64 → Int
  | .nan => -9223372036854775808
  | .inf _ => -9223372036854775808
  | .fin neg m e =>
    let t : Nat := if 0 ≤ e then m * 2 ^ e.toNat else m / 2 ^ (-e).toNat
    let v : Int := if neg then -(t : Int) else (t : Int)
    if -9223372036854775808 ≤ v ∧ v ≤ 9223372036854775807 then v else -9223372036854775808

/-- The float64 operations of Go's standard library (`strconv`, `fmt`, `math`). -/
def goFloat64 : Float64Lib where
  F := F64
  ParseFloat := goParseFloat
  Sprintf_f := goSprintf_f
  Abs := goAbs
  toInt := goToInt

/-! ## Function implementations (`functions.go` lines 81-192) -/

/-- The expression `n.Args[0].(string)`: panics on an empty `Args` and on a `Node` element. -/
def argString (n : Node) : Res String :=
  match n.Args with
  | [] => .panic "index out of range [0] with length 0"
  | .str s :: _ => .ok s
  | .node _ :: _ => .panic "interface conversion: interface \x7b\x7d is expression.Node, not string"

/-- The node `NULL("NULL")` the functions return for a NULL argument. -/
def nullNode : Node := .mk "NULL" [.str "NULL"]

/-- Message of the arity error of function `name` called with `n` arguments. -/
def arityMsg (n : Nat) (name : String) : String :=
  "incorrect number of arguments, " ++ toString n ++ ", to " ++ name

/-- `func abs(args ...Node) (result Node, err error)`. -/
def abs (L : Float64Lib) (args : List Node) : Res Node :=
  match args with
  | [a] =>
    if a.Exp = "NULL" then .ok nullNode
    else (argString a).bind fun s =>
      match L.ParseFloat s with
      | .error e => .error e
      | .ok num => .ok (.mk "NUMBER" [.str (L.Sprintf_f (L.Abs num))])
  | _ => .error (arityMsg args.length "ABS")

/-- `func chr(args ...Node) (result Node, err error)`. -/
def chr (L : Float64Lib) (args : List Node) : Res Node :=
  match args with
  | [a] =>
    if a.Exp = "NULL" then .ok nullNode
    else (argString a).bind fun s =>
      match L.ParseFloat s with
      | .error e => .error e
      | .ok f => .ok (.mk "STRING" [.str (runeString (L.toInt f))])
  | _ => .error (arityMsg args.length "CHR")

/-- `func concat(args ...Node) (result Node, err error)`. -/
def concat (args : List Node) : Res Node :=
  match args with
  | [a, b] =>
    if a.Exp = "NULL" then (argString b).bind fun s => .ok (.mk "STRING" [.str s])
    else if b.Exp = "NULL" then (argString a).bind fun s => .ok (.mk "STRING" [.str s])
    else (argString a).bind fun s => (argString b).bind fun t => .ok (.mk "STRING" [.str (s ++ t)])
  | _ => .error (arityMsg args.length "CONCAT")

/-- `func ltrim(args ...Node) (result Node, err error)`. -/
def ltrim (args : List Node) : Res Node :=
  match args with
  | [a] => (argString a).bind fun s => .ok (.mk "STRING" [.str (TrimLeft s " ")])
  | [a, b] =>
    if a.Exp = "NULL" ∨ b.Exp = "NULL" then .ok nullNode
    else (argString a).bind fun s => (argString b).bind fun t =>
      .ok (.mk "STRING" [.str (TrimLeft s t)])
  | _ => .error (arityMsg args.length "LTRIM")

/-- `func rtrim(args ...Node) (result Node, err error)`; the arity message of the source
names LTRIM. -/
def rtrim (args : List Node) : Res Node :=
  match args with
  | [a] => (argString a).bind fun s => .ok (.mk "STRING" [.str (TrimRight s " ")])
  | [a, b] =>
    if a.Exp = "NULL" ∨ b.Exp = "NULL" then .ok nullNode
    else (argString a).bind fun s => (argString b).bind fun t =>
      .ok (.mk "STRING" [.str (TrimRight s t)])
  | _ => .error (arityMsg args.length "LTRIM")

/-! ## Evaluator (`functions.go` lines 11-79) -/

/-- The registry `fns` built by `init`: function name to Go implementation. -/
def fns (L : Float64Lib) (name : String) : Option (List Node → Res Node) :=
  if name = "ABS" then some (abs L)
  else if name = "CHR" then some (chr L)
  else if name = "CONCAT" then some concat
  else if name = "LTRIM" then some ltrim
  else if name = "RTRIM" then some rtrim
  else none

/-- Message of `evaluateNode` for a tag that is not a key of `fns`. -/
def unknownFunctionMsg (exp : String) : String :=
  "the function " ++ exp ++ " either is invalid or hasn't been implemented by this library"

/-- Message of `evaluateNode` for an argument that is not a `Node`; the source formats the zero
`Node` left by the failed type assertion. -/
def expectedNodeMsg : String :=
  "expected Node but got 'expression.Node'\n\x7bExp: Args:[]\x7d"

mutual
/-- `func evaluateNode(node Node) (result Node, err error)`. -/
def evaluateNode (L : Float64Lib) : Node → Res Node
  | .mk exp args =>
    match fns L exp with
    | none => .error (unknownFunctionMsg exp)
    | some function =>
      match evaluateArgs L args with
      | .ok vs => function vs
      | .error e => .error e
      | .panic p => .panic p
      | .outOfFuel => .outOfFuel
/-- The loop `for i, arg := range node.Args` of `evaluateNode`: the arguments after the
loop. -/
def evaluateArgs (L : Float64Lib) : List Arg → Res (List Node)
  | [] => .ok []
  | .str _ :: _ => .error expectedNodeMsg
  | .node n :: rest =>
    if isLeafTag n.Exp then
      match evaluateArgs L rest with
      | .ok vs => .ok (n :: vs)
      | .error e => .error e
      | .panic p => .panic p
      | .outOfFuel => .outOfFuel
    else
      match evaluateNode L n with
      | .ok v =>
        match evaluateArgs L rest with
        | .ok vs => .ok (v :: vs)
        | .error e => .error e
        | .panic p => .panic p
        | .outOfFuel => .outOfFuel
      | .error e => .error e
      | .panic p => .panic p
      | .outOfFuel => .outOfFuel
end

/-! ## Token tables (`lexer.go` lines 66-135) -/

/-- `Literals`: tokens representing literal strings. -/
def Literals : List String :=
  ["(", ")", "+", "-", "NOT", "*", "/", "%", "||", "<", "<=", ">", ">=", "=", "<>", "!=", "^=",
   "AND", "OR", ","]

/-- `Keywords` tokens. -/
def Keywords : List String :=
  [":EXT", ":INFA", ":LKP", ":MCR", ":SD", ":SEQ", ":SP", ":TD", "AND", "DD_DELETE",
   "DD_INSERT", "DD_REJECT", "DD_UPDATE", "FALSE", "NOT", "NULL", "OR", "PROC_RESULT",
   "SESSTARTTIME", "SPOUTPUT", "SYSDATE", "TRUE", "WORKFLOWSTARTTIME", "ABORTED", "DISABLED",
   "FAILED", "NOTSTARTED", "STARTED", "STOPPED", "SUCCEEDED"]

/-- `Tokens`: the four general classes, then the literals, then the keywords. -/
def Tokens : List String :=
  ["PARAM", "STRING", "NUMBER", "IDENT"] ++ Literals ++ Keywords

/-- The loop filling `TokenIds` over a table whose first index is `i`: a later entry of the
same name overwrites an earlier one. -/
def lastIndex (name : String) : List String → Nat → Option Nat → Option Nat
  | [], _, found => found
  | t :: ts, i, found => lastIndex name ts (i + 1) (if t = name then some i else found)

/-- `TokenIds[name]`: the map from token name to id; a missing key reads as 0. -/
def TokenIds (name : String) : Nat :=
  (lastIndex name Tokens 0 none).getD 0

/-- A `*lexmachine.Token` as far as the parser reads it: the numeric type (field `Type`) and the value, which
the token actions of the lexer always set to a string. -/
structure Token where
  TypeId : Nat
  Value : String
  deriving Repr, DecidableEq

/-- `tokenTypeName`: the string `Tokens[token.Type]`; none where Go would panic on the
index. -/
def tokenTypeName (token : Token) : Option String :=
  Tokens[token.TypeId]?

/-- The token the lexer action `token(name)` builds for the matched text. -/
def mkToken (name text : String) : Token :=
  ⟨TokenIds name, text⟩

/-! ## Parser (`parser.go`) -/

/-- Keys of the map `functions`: all Informatica function names. -/
def functions : List String :=
  ["ABORT", "ABS", "ADD_TO_DATE", "AES_DECRYPT", "AES_ENCRYPT", "ASCII", "AVG",
   "BINARY_COMPARE", "BINARY_CONCAT", "BINARY_LENGTH", "BINARY_SECTION", "CEIL", "CHOOSE",
   "CHR", "CHRCODE", "COMPRESS", "CONCAT", "CONVERT_BASE", "COS", "COSH", "COUNT", "CRC32",
   "CUME", "DATE_COMPARE", "DATE_DIFF", "DEC_BASE64", "DEC_HEX", "DECODE", "DECOMPRESS",
   "EBCDIC_ISO88591", "ENC_BASE64", "ENC_HEX", "ERROR", "EXP", "FIRST", "FLOOR", "FV",
   "GET_DATE_PART", "GREATEST", "IIF", "IN", "INDEXOF", "INITCAP", "INSTR", "ISNULL",
   "IS_DATE", "IS_NUMBER", "IS_SPACES", "LAG", "LAST", "LAST_DAY", "LEAD", "LEAST", "LENGTH",
   "LN", "LOG", "LOOKUP", "LOWER", "LPAD", "LTRIM", "MAKE_DATE_TIME", "MAX", "MD5", "MEDIAN",
   "METAPHONE", "MIN", "MOD", "MOVINGAVG", "MOVINGSUM", "NPER", "PERCENTILE", "PMT", "POWER",
   "PV", "RAND", "RATE", "REG_EXTRACT", "REG_MATCH", "REG_REPLACE", "REPLACECHR",
   "REPLACESTR", "REVERSE", "ROUND", "RPAD", "RTRIM", "SETCOUNTVARIABLE", "SET_DATE_PART",
   "SETMAXVARIABLE", "SETMINVARIABLE", "SETVARIABLE", "SHA256", "SIGN", "SIN", "SINH",
   "SOUNDEX", "SQRT", "STDDEV", "SUBSTR", "SUM", "SYSTIMESTAMP", "TAN", "TANH", "TIME_RANGE",
   "TO_BIGINT", "TO_CHAR", "TO_DATE", "TO_DECIMAL", "TO_FLOAT", "TO_INTEGER", "TRUNC",
   "UPPER", "VARIANCE"]

/-- `isFunction`: the identifier is a key of `functions`. -/
def isFunction (ident : String) : Bool :=
  functions.contains ident

/-- `isLiteral`: the identifier is one of `Literals`. -/
def isLiteral (ident : String) : Bool :=
  Literals.contains ident

/-- The loop over `vars` of the `STRING` case (`parser.go` lines 259-263): every variable
whose name begins with `$` is replaced by its value in the text, in the order of `vars`. -/
def substituteParams : String → List Variable → String
  | value, [] => value
  | value, v :: vs =>
    substituteParams (if HasPrefix v.N "$" then ReplaceAll value v.N v.V else value) vs

/-- The loop over `vars` of the `IDENT` case (`parser.go` lines 225-242): the first variable
whose name is the identifier. -/
def lookupVariable (value : String) : List Variable → Option Variable
  | [] => none
  | v :: vs => if value = v.N then some v else lookupVariable value vs

/-- Message of the parser for an identifier that is neither a function nor a variable. -/
def notFoundMsg (value : String) : String :=
  "the identifier '" ++ value ++ "' was not found"

/-- The node the `IDENT` case builds for the matching variable `v` (lines 227-238). -/
def variableNode (L : Float64Lib) (v : Variable) : Res Node :=
  if v.T = "NUMBER" then
    (reformatFloat L v.V).bind fun f => .ok (.mk v.T [.str f])
  else .ok (.mk v.T [.str v.V])

/-- Go's panic text for an index outside a slice. -/
def indexPanic (i : Int) (len : Nat) : String :=
  if i < 0 then "index out of range [" ++ toString i ++ "]"
  else "index out of range [" ++ toString i ++ "] with length " ++ toString len

/-- One folding loop of `parseExpression` (e.g. lines 283-305) for the operator set `ops`,
with the part of `buffer` still to read, the number of elements already read and `bufferNew`.
An operator node takes the last element of `bufferNew` and the next element of `buffer` as
its two arguments and replaces the former; anything else is appended. -/
def foldLoop (ops : List String) : List Arg → Nat → List Arg → Res (List Arg)
  | [], _, bufferNew => .ok bufferNew
  | .str s :: rest, pos, bufferNew => foldLoop ops rest (pos + 1) (bufferNew ++ [.str s])
  | .node n :: rest, pos, bufferNew =>
    if ops.contains n.Exp then
      match bufferNew.getLast? with
      | none => .panic (indexPanic (-1) 0)
      | some left =>
        match rest with
        | [] => .panic (indexPanic (pos + 1) (pos + 1))
        | right :: rest2 =>
          foldLoop ops rest2 (pos + 2) (bufferNew.dropLast ++ [.node (.mk n.Exp [left, right])])
    else foldLoop ops rest (pos + 1) (bufferNew ++ [.node n])

/-- One folding pass over a whole buffer. -/
def foldPass (ops : List String) (buffer : List Arg) : Res (List Arg) :=
  foldLoop ops buffer 0 []

/-- The operator sets of the seven folding passes, in the order of the source. -/
def passes : List (List String) :=
  [["*", "/", "%"], ["+", "-"], ["||"], ["<", "<=", ">", ">="], ["=", "<>", "!=", "^="],
   ["AND"], ["OR"]]

/-- The folding passes `ps` run one after the other, each on the buffer of the one before. -/
def foldPasses : List (List String) → List Arg → Res (List Arg)
  | [], buffer => .ok buffer
  | ops :: ps, buffer => (foldPass ops buffer).bind (foldPasses ps)

/-- Message of the final check of `parseExpression` (line 487); it formats `bufferNew[0]`. -/
def expectedNodeParseMsg (first : Arg) : String :=
  match first with
  | .str s => "exptected a Node but got: string\n+" ++ s
  | .node n => "exptected a Node but got: expression.Node\n+" ++ fmtNode false n

/-- The final check of `parseExpression` (lines 483-490): every element of the last buffer is
a `Node`. The first argument is `bufferNew[0]`. -/
def validateNodes (first : Arg) : List Arg → Res (List Node)
  | [] => .ok []
  | .node n :: rest => (validateNodes first rest).bind fun ns => .ok (n :: ns)
  | .str _ :: _ => .error (expectedNodeParseMsg first)

/-- Lines 280-492 of `parseExpression`: the seven folding passes on the buffer of the
structural pass, then the final check. -/
def foldAll (buffer : List Arg) : Res (List Node) :=
  (foldPasses passes buffer).bind fun bufferNew =>
    validateNodes (bufferNew.headD (.str "")) bufferNew

/-- The end of `parseExpression` applied to the outcome of its first loop: the end position is
that of the first loop, the nodes are those of `foldAll`. -/
def finishExpression (r : Res (List Arg × Nat)) : Res (List Node × Nat) :=
  r.bind fun p => (foldAll p.1).bind fun output => .ok (output, p.2)

/-- The first loop of `parseExpression` (label `paren`, lines 187-278) from position `pos`
with the buffer built so far; it returns the buffer and the end position. A nested call of
`parseExpression` is `finishExpression` of the loop started on an empty buffer. Each token
read uses one unit of `fuel`. -/
def parenLoop (L : Float64Lib) (tokens : List Token) (vars : List Variable) :
    Nat → Nat → List Arg → Res (List Arg × Nat)
  | fuel, pos, buffer =>
    match tokens[pos]? with
    | none => .ok (buffer, pos)
    | some token =>
      match fuel with
      | 0 => .outOfFuel
      | fuel + 1 =>
        match tokenTypeName token with
        | none => .panic (indexPanic token.TypeId Tokens.length)
        | some tokenType =>
          let value := token.Value
          if tokenType = "," then parenLoop L tokens vars fuel (pos + 1) buffer
          else if tokenType = ")" then .ok (buffer, pos)
          else if tokenType = "(" then
            match finishExpression (parenLoop L tokens vars fuel (pos + 1) []) with
            | .ok (nodes, endPos) =>
              parenLoop L tokens vars fuel (endPos + 1) (buffer ++ nodes.map Arg.node)
            | .error e => .error e
            | .panic p => .panic p
            | .outOfFuel => .outOfFuel
          else if tokenType = "IDENT" then
            if isFunction value then
              match tokens[pos + 1]? with
              | none => .panic (indexPanic (pos + 1) tokens.length)
              | some next =>
                if next.Value = "(" then
                  match finishExpression (parenLoop L tokens vars fuel (pos + 2) []) with
                  | .ok (iNodes, endPos) =>
                    parenLoop L tokens vars fuel (endPos + 1)
                      (buffer ++ [.node (.mk value (iNodes.map Arg.node))])
                  | .error e => .error e
                  | .panic p => .panic p
                  | .outOfFuel => .outOfFuel
                else .error ("expected '(' after " ++ value)
            else
              match lookupVariable value vars with
              | none => .error (notFoundMsg value)
              | some v =>
                match variableNode L v with
                | .ok node => parenLoop L tokens vars fuel (pos + 1) (buffer ++ [.node node])
                | .error e => .error e
                | .panic p => .panic p
                | .outOfFuel => .outOfFuel
          else if tokenType = "NUMBER" then
            match reformatFloat L value with
            | .ok f =>
              parenLoop L tokens vars fuel (pos + 1) (buffer ++ [.node (.mk tokenType [.str f])])
            | .error e => .error e
            | .panic p => .panic p
            | .outOfFuel => .outOfFuel
          else if tokenType = "STRING" then
            parenLoop L tokens vars fuel (pos + 1)
              (buffer ++ [.node (.mk tokenType [.str (substituteParams value vars)])])
          else
            parenLoop L tokens vars fuel (pos + 1) (buffer ++ [.node (.mk tokenType [.str value])])

/-- `func parseExpression(tokens, vars, pos) (output []Node, endPos int, err error)`. -/
def parseExpression (L : Float64Lib) (tokens : List Token) (vars : List Variable)
    (fuel pos : Nat) : Res (List Node × Nat) :=
  finishExpression (parenLoop L tokens vars fuel pos [])

/-- Lines 157-176 of `parse`, on the tokens of the input. -/
def parseTokens (L : Float64Lib) (tokens : List Token) (vars : List Variable) : Res Node :=
  match parseExpression L tokens vars tokens.length 0 with
  | .ok (nodes, endPos) =>
    if nodes.length > 1 then
      .error ("couldn't flatten down to one node:\n" ++ fmtNodes true nodes)
    else if (endPos : Int) < (tokens.length : Int) - 1 then
      .error ("Parsing tokens ended at " ++ toString endPos ++ ", but expected "
        ++ toString ((tokens.length : Int) - 1))
    else
      match nodes with
      | [] => .panic (indexPanic 0 0)
      | node :: _ => .ok node
  | .error e => .error e
  | .panic p => .panic p
  | .outOfFuel => .outOfFuel

/-- `func parse(input []byte, vars []Variable) (node Node, err error)`; `scanned` is the
outcome of `scanInput(input)`. -/
def parse (L : Float64Lib) (scanned : Res (List Token)) (vars : List Variable) : Res Node :=
  match scanned with
  | .ok tokens => parseTokens L tokens vars
  | .error e => .error e
  | .panic p => .panic p
  | .outOfFuel => .outOfFuel

/-- `func Evaluate(input string, vars []Variable) (result string, err error)`; `scanned` is
the outcome of `scanInput(input)`. -/
def Evaluate (L : Float64Lib) (scanned : Res (List Token)) (vars : List Variable) :
    Res String :=
  (parse L scanned vars).bind fun node =>
    (evaluateNode L node).bind fun result => argString result

/-! ## Notions used to state the properties -/

/-- The placeholder the default case of the structural pass builds for an operator token: the
tag is the token type and the single argument the token text, both the operator symbol. -/
def opNode (op : String) : Node := .mk op [.str op]

/-- The number (from 0) of the folding pass whose operator set contains `op`. -/
def passIndex (op : String) : Option Nat :=
  passes.findIdx? (fun ops => ops.contains op)

/-- The tag is one of the sixteen operator symbols of the folding passes. -/
def isOperator (exp : String) : Bool :=
  passes.any (fun ops => ops.contains exp)

/-- For each folding pass in turn, whether its operator set contains the tag. -/
def passProfile (exp : String) : List Bool :=
  passes.map (fun ops => ops.contains exp)

/-- The names registered in `fns`. -/
def registered : List String := ["ABS", "CHR", "CONCAT", "LTRIM", "RTRIM"]

/-- A reduced node: tagged NUMBER, STRING or NULL, with exactly one argument, a string. -/
def isLeaf (n : Node) : Prop :=
  isLeafTag n.Exp = true ∧ ∃ s : String, n.Args = [.str s]

/-- Reference reduction of one argument, in the words of the specification: a leaf argument
passes through, any other argument is evaluated. -/
def specReduceArg (L : Float64Lib) (a : Node) : Res Node :=
  if isLeafTag a.Exp then .ok a else evaluateNode L a

/-- The failure of a call that did not return a value, at another result type. -/
def Res.failure {α β : Type} : Res α → Res β
  | .ok _ => .outOfFuel
  | .error e => .error e
  | .panic p => .panic p
  | .outOfFuel => .outOfFuel

/-- The value of a call that returned one. -/
def Res.value? {α : Type} : Res α → Option α
  | .ok a => some a
  | _ => none

/-- Reference definition of the post-order reduction of `f(a1, ..., an)`, in the words of the
specification: the arguments are reduced from left to right; the failure of the leftmost
failing argument is the outcome, and otherwise the outcome is that of the registered callable
on the reduced arguments. -/
def specEvaluate (L : Float64Lib) (f : List Node → Res Node) (args : List Node) : Res Node :=
  let reduced := args.map (specReduceArg L)
  match reduced.find? (fun r => !r.isOk) with
  | some failed => failed.failure
  | none => f (reduced.filterMap Res.value?)

/-- Reference definition of the parameter substitution in a string literal, in the words of
the specification: the left fold, over the variables whose name begins with `$` in supplied
order, of replacing all occurrences of the name by the value. -/
def specSubstitute (s : String) (vs : List Variable) : String :=
  (vs.filter fun v => HasPrefix v.N "$").foldl (fun acc v => ReplaceAll acc v.N v.V) s

/-- Reference definition of the leaf substituted for a variable, in the words of the
specification: the tag is the declared type; the payload is the canonicalized value for the
type NUMBER and the raw value otherwise. -/
def specVariableLeaf (L : Float64Lib) (v : Variable) : Res Node :=
  if v.T = "NUMBER" then
    match reformatFloat L v.V with
    | .ok canonical => .ok (.mk "NUMBER" [.str canonical])
    | .error e => .error e
    | .panic p => .panic p
    | .outOfFuel => .outOfFuel
  else .ok (.mk v.T [.str v.V])

/-- The text `pat` occurs in the text `s`. -/
def occursIn (pat s : String) : Bool :=
  s.toList.tails.any fun t => pat.toList.isPrefixOf t

mutual
/-- Leaf invariant of a tree: every node tagged NUMBER, STRING or NULL has exactly one
argument, a string, and the payload of a node tagged NUMBER satisfies `P`. -/
def Node.leavesOK (P : String → Prop) : Node → Prop
  | .mk e args =>
    (isLeafTag e = true → ∃ s : String, args = [.str s] ∧ (e = "NUMBER" → P s))
      ∧ Arg.leavesOKList P args
/-- Leaf invariant of an argument: a string, or a node with the invariant. -/
def Arg.leavesOK (P : String → Prop) : Arg → Prop
  | .str _ => True
  | .node n => Node.leavesOK P n
/-- Leaf invariant of every argument of a list. -/
def Arg.leavesOKList (P : String → Prop) : List Arg → Prop
  | [] => True
  | a :: as => Arg.leavesOK P a ∧ Arg.leavesOKList P as
end

/-- The text is a result of `reformatFloat`. -/
def isCanonical (L : Float64Lib) (p : String) : Prop :=
  ∃ s : String, reformatFloat L s = .ok p

/-- The character is a decimal digit. -/
def isDigitChar (c : Char) : Bool := decide ('0' ≤ c ∧ c ≤ '9')

/-- A fixed-point string with exactly six digits after the decimal point, in the words of the
specification: an optional minus sign, one digit or more, a point, six digits. -/
def isFixed6 (p : String) : Bool :=
  let body := if p.toList.head? = some '-' then p.toList.tail else p.toList
  match body.dropWhile isDigitChar with
  | '.' :: fr => !(body.takeWhile isDigitChar).isEmpty && fr.length == 6 && fr.all isDigitChar
  | _ => false

/-- The number written by a list of decimal digits that follows the digits of `acc`. -/
def decVal : List Char → Nat → Nat
  | [], acc => acc
  | c :: cs, acc => decVal cs (acc * 10 + digitVal c)

/-- The number of millionths that `%f` prints for `m * 2 ^ e`. -/
def millionths (m : Nat) (e : Int) : Nat :=
  if 0 ≤ e then m * 2 ^ e.toNat * 1000000
  else roundHalfEven (m * 1000000) (2 ^ (-e).toNat)

/-- The characters of the fixed-point text of `r` millionths, without sign. -/
def fixedChars (r : Nat) : List Char :=
  Nat.toDigits 10 (r / 1000000) ++ '.' :: (pad6 (r % 1000000)).toList

/-- The natural number `r` is the fraction `x` rounded to the nearest integer, ties to even. -/
def IsRHE (x : ℚ) (r : Nat) : Prop :=
  |x - r| < 1 / 2 ∨ (|x - r| = 1 / 2 ∧ r % 2 = 0)

/-- The values of the float64 format: a finite value is `m * 2 ^ e` with at most 53 bits of
`m` above the exponent `e`, no exponent below that of the subnormals, and a size below
`2 ^ 1024`. -/
def F64.representable : F64 → Prop
  | .fin _ m e => m ≤ 2 ^ 53 ∧ -1074 ≤ e ∧ (m : ℚ) * (2 : ℚ) ^ e < (2 : ℚ) ^ (1024 : Int)
  | _ => True

/-- The payload of a NUMBER leaf: the result of `reformatFloat` on a text `s`, a six-decimal
fixed-point string unless `s` spells not-a-number or an infinity, for which it is one of
`NaN`, `+Inf` and `-Inf`. -/
def numberPayload (p : String) : Prop :=
  ∃ s : String, reformatFloat goFloat64 s = .ok p
    ∧ (if (special s.toList).isSome then p = "NaN" ∨ p = "+Inf" ∨ p = "-Inf"
       else isFixed6 p = true)

/-! ## The string action of the lexer (`lexer.go` lines 161-172)

The text is read by characters: the quote is one byte in UTF-8 and no byte of another
character is equal to it, so a position of the model is the number of characters before the
byte position of the source. -/

/-- A `machines.Match` as far as the string action reads it. -/
structure Match where
  TC : Nat
  StartLine : Nat
  StartColumn : Nat
  deriving Repr, DecidableEq

/-- Message of the string action for a string that is not closed. -/
def unclosedStringMsg (m : Match) : String :=
  "unclosed string starting at " ++ toString m.TC ++ ", (" ++ toString m.StartLine ++ ", "
    ++ toString m.StartColumn ++ ")"

/-- The loop `for tc := scan.TC; tc < len(scan.Text); tc++` of the string action, on the text
from position `tc` in a text of `len` characters: the first position that holds a quote and
is not the last position of the text. -/
def stringLoop : List Char → Nat → Nat → Option Nat
  | [], _, _ => none
  | c :: rest, tc, len =>
    if c = Char.ofNat 39 ∧ tc + 1 < len then some tc else stringLoop rest (tc + 1) len

/-- The action of the pattern of the opening quote, called with `scan.TC` just past the quote:
the STRING token of the text from `scan.TC` to the position the loop finds, and the new
`scan.TC` past that position. -/
def stringAction (text : List Char) (TC : Nat) (m : Match) : Res (Token × Nat) :=
  match stringLoop (text.drop TC) TC text.length with
  | some tc => .ok (⟨TokenIds "STRING", String.mk ((text.drop TC).take (tc - TC))⟩, tc + 1)
  | none => .error (unclosedStringMsg m)

/-! ## Notions used to state the folding of a whole expression -/

/-- The part `p1 o2 ... on` of a buffer after its first operand: for each pair of an operator
symbol and an operand, the placeholder of the operator and the operand. -/
def pairsBuffer : List (String × Node) → List Arg
  | [] => []
  | q :: rest => .node (opNode q.1) :: .node q.2 :: pairsBuffer rest

/-- The buffer `o1 p1 o2 ... on`: an operand, then operators and operands in turn. -/
def altBuffer (o : Node) (rest : List (String × Node)) : List Arg :=
  .node o :: pairsBuffer rest

mutual
/-- In-order traversal of a folded tree: a node tagged with an operator symbol gives the
traversal of its left argument, its placeholder, and the traversal of its right argument; any
other node is an atom. -/
def Node.inorder : Node → List Arg
  | .mk e args => if isOperator e then Arg.inorderList e args else [.node (.mk e args)]
/-- In-order traversal of an argument. -/
def Arg.inorder : Arg → List Arg
  | .str s => [.str s]
  | .node n => Node.inorder n
/-- In-order traversal of the arguments of a node tagged `e`, with the placeholder of `e`
between them. -/
def Arg.inorderList (e : String) : List Arg → List Arg
  | [] => []
  | a :: as =>
    match as with
    | [] => Arg.inorder a
    | _ :: _ => Arg.inorder a ++ .node (opNode e) :: Arg.inorderList e as
end

mutual
/-- Every node of the tree that is tagged with an operator symbol has exactly two arguments,
both nodes. -/
def Node.binaryOps : Node → Bool
  | .mk e args => if isOperator e then args.length == 2 && Arg.binaryOpsList args else true
/-- The argument is a node with `Node.binaryOps`. -/
def Arg.binaryOps : Arg → Bool
  | .str _ => false
  | .node n => Node.binaryOps n
/-- Every argument of the list is a node with `Node.binaryOps`. -/
def Arg.binaryOpsList : List Arg → Bool
  | [] => true
  | a :: as => Arg.binaryOps a && Arg.binaryOpsList as
end

/-- One folding pass on the sequence of an operand and pairs of operator and operand: an
operator of the pass takes the operand built so far and the next operand as its arguments. -/
def foldAlt (ops : List String) : Node → List (String × Node) → Node × List (String × Node)
  | cur, [] => (cur, [])
  | cur, q :: rest =>
    if ops.contains q.1 then foldAlt ops (.mk q.1 [.node cur, .node q.2]) rest
    else (cur, (q.1, (foldAlt ops q.2 rest).1) :: (foldAlt ops q.2 rest).2)

/-- In-order traversal of the pairs of operator and operand after the first operand. -/
def pairsInorder : List (String × Node) → List Arg
  | [] => []
  | q :: rest => .node (opNode q.1) :: (q.2.inorder ++ pairsInorder rest)

/-- The leaf the structural pass builds for a literal token: NUMBER with the canonical text
of its number, STRING with the parameters replaced in its text, and the keyword NULL with its
text; none for any other token and for a NUMBER token whose text is not accepted. -/
def literalLeaf (L : Float64Lib) (vars : List Variable) (t : Token) : Option Node :=
  if tokenTypeName t = some "NUMBER" then
    match reformatFloat L t.Value with
    | .ok f => some (.mk "NUMBER" [.str f])
    | _ => none
  else if tokenTypeName t = some "STRING" then
    some (.mk "STRING" [.str (substituteParams t.Value vars)])
  else if tokenTypeName t = some "NULL" then some (.mk "NULL" [.str t.Value])
  else none

/-- The outcome `r2` follows the outcome `r1`: it is the same value when `r1` is a value, the
same error when `r1` is an error, and a failure (an error or a panic) when `r1` is a panic;
nothing is asked when `r1` ran out of fuel. -/
def Res.follows {α : Type} (r1 r2 : Res α) : Prop :=
  match r1 with
  | .ok a => r2 = .ok a
  | .error e => r2 = .error e
  | .panic _ => (r2.isError || r2.isPanic) = true
  | .outOfFuel => True

/-! ## Theorems -/

@[simp] theorem Node.Exp_mk (e : String) (as : List Arg) : (Node.mk e as).Exp = e := rfl

@[simp] theorem Node.Args_mk (e : String) (as : List Arg) : (Node.mk e as).Args = as := rfl

/-! ### The folding passes on short buffers -/

theorem passIndex_cases (op : String) (i : Nat) (h : passIndex op = some i) :
    (op, i) ∈ [("*", 0), ("/", 0), ("%", 0), ("+", 1), ("-", 1), ("||", 2), ("<", 3), ("<=", 3),
      (">", 3), (">=", 3), ("=", 4), ("<>", 4), ("!=", 4), ("^=", 4), ("AND", 5), ("OR", 6)] := by
  simp only [passIndex, passes, List.findIdx?_cons, List.findIdx?_nil] at h
  simp only [List.contains_eq_any_beq, List.any_cons, List.any_nil, Bool.or_false,
    Bool.or_eq_true, beq_iff_eq] at h
  split_ifs at h with h1 h2 h3 h4 h5 h6 h7 <;> simp at h <;> subst h
  · rcases h1 with rfl | rfl | rfl <;> simp
  · rcases h2 with rfl | rfl <;> simp
  · rcases h3 with rfl <;> simp
  · rcases h4 with rfl | rfl | rfl | rfl <;> simp
  · rcases h5 with rfl | rfl | rfl | rfl <;> simp
  · rcases h6 with rfl <;> simp
  · rcases h7 with rfl <;> simp

theorem passProfile_of_passIndex (op : String) (i : Nat) (h : passIndex op = some i) :
    (i = 0 ∧ passProfile op = [true, false, false, false, false, false, false])
    ∨ (i = 1 ∧ passProfile op = [false, true, false, false, false, false, false])
    ∨ (i = 2 ∧ passProfile op = [false, false, true, false, false, false, false])
    ∨ (i = 3 ∧ passProfile op = [false, false, false, true, false, false, false])
    ∨ (i = 4 ∧ passProfile op = [false, false, false, false, true, false, false])
    ∨ (i = 5 ∧ passProfile op = [false, false, false, false, false, true, false])
    ∨ (i = 6 ∧ passProfile op = [false, false, false, false, false, false, true]) := by
  have h1 := passIndex_cases op i h
  simp only [List.mem_cons, Prod.mk.injEq, List.mem_nil_iff, or_false] at h1
  rcases h1 with ⟨rfl, rfl⟩ | ⟨rfl, rfl⟩ | ⟨rfl, rfl⟩ | ⟨rfl, rfl⟩ | ⟨rfl, rfl⟩ | ⟨rfl, rfl⟩
    | ⟨rfl, rfl⟩ | ⟨rfl, rfl⟩ | ⟨rfl, rfl⟩ | ⟨rfl, rfl⟩ | ⟨rfl, rfl⟩ | ⟨rfl, rfl⟩ | ⟨rfl, rfl⟩
    | ⟨rfl, rfl⟩ | ⟨rfl, rfl⟩ | ⟨rfl, rfl⟩ <;> decide

theorem passProfile_of_not_operator (e : String) (h : isOperator e = false) :
    passProfile e = [false, false, false, false, false, false, false] := by
  simp only [isOperator, passes, List.any_cons, List.any_nil, Bool.or_false,
    Bool.or_eq_false_iff] at h
  obtain ⟨h1, h2, h3, h4, h5, h6, h7⟩ := h
  simp only [passProfile, passes, List.map_cons, List.map_nil, h1, h2, h3, h4, h5, h6, h7]

theorem foldLoop_keep (ops : List String) (n : Node) (rest : List Arg) (pos : Nat)
    (acc : List Arg) (h : ops.contains n.Exp = false) :
    foldLoop ops (.node n :: rest) pos acc = foldLoop ops rest (pos + 1) (acc ++ [.node n]) := by
  simp only [foldLoop, h, Bool.false_eq_true, if_false]

theorem foldLoop_fold (ops : List String) (n : Node) (l r : Arg) (rest : List Arg) (pos : Nat)
    (acc : List Arg) (h : ops.contains n.Exp = true) :
    foldLoop ops (.node n :: r :: rest) pos (acc ++ [l])
      = foldLoop ops rest (pos + 2) (acc ++ [.node (.mk n.Exp [l, r])]) := by
  simp only [foldLoop, h, if_true, List.getLast?_append, List.getLast?_singleton,
    List.dropLast_concat, Option.or]

theorem foldLoop_nil (ops : List String) (pos : Nat) (acc : List Arg) :
    foldLoop ops [] pos acc = .ok acc := by
  simp only [foldLoop]

theorem foldPass_keep1 (ops : List String) (n1 : Node) (h1 : ops.contains n1.Exp = false) :
    foldPass ops [.node n1] = .ok [.node n1] := by
  rw [foldPass, foldLoop_keep _ _ _ _ _ h1, foldLoop_nil]; rfl

theorem foldPass_keep3 (ops : List String) (n1 n2 n3 : Node)
    (h1 : ops.contains n1.Exp = false) (h2 : ops.contains n2.Exp = false)
    (h3 : ops.contains n3.Exp = false) :
    foldPass ops [.node n1, .node n2, .node n3] = .ok [.node n1, .node n2, .node n3] := by
  rw [foldPass, foldLoop_keep _ _ _ _ _ h1, foldLoop_keep _ _ _ _ _ h2,
    foldLoop_keep _ _ _ _ _ h3, foldLoop_nil]; rfl

theorem foldPass_keep5 (ops : List String) (n1 n2 n3 n4 n5 : Node)
    (h1 : ops.contains n1.Exp = false) (h2 : ops.contains n2.Exp = false)
    (h3 : ops.contains n3.Exp = false) (h4 : ops.contains n4.Exp = false)
    (h5 : ops.contains n5.Exp = false) :
    foldPass ops [.node n1, .node n2, .node n3, .node n4, .node n5]
      = .ok [.node n1, .node n2, .node n3, .node n4, .node n5] := by
  rw [foldPass, foldLoop_keep _ _ _ _ _ h1, foldLoop_keep _ _ _ _ _ h2,
    foldLoop_keep _ _ _ _ _ h3, foldLoop_keep _ _ _ _ _ h4, foldLoop_keep _ _ _ _ _ h5,
    foldLoop_nil]; rfl

theorem foldPass_fold3 (ops : List String) (n1 n2 n3 : Node)
    (h1 : ops.contains n1.Exp = false) (h2 : ops.contains n2.Exp = true) :
    foldPass ops [.node n1, .node n2, .node n3]
      = .ok [.node (.mk n2.Exp [.node n1, .node n3])] := by
  rw [foldPass, foldLoop_keep _ _ _ _ _ h1, foldLoop_fold _ _ _ _ _ _ _ h2, foldLoop_nil]; rfl

theorem foldPass_fold5_right (ops : List String) (n1 n2 n3 n4 n5 : Node)
    (h1 : ops.contains n1.Exp = false) (h2 : ops.contains n2.Exp = false)
    (h3 : ops.contains n3.Exp = false) (h4 : ops.contains n4.Exp = true) :
    foldPass ops [.node n1, .node n2, .node n3, .node n4, .node n5]
      = .ok [.node n1, .node n2, .node (.mk n4.Exp [.node n3, .node n5])] := by
  rw [foldPass, foldLoop_keep _ _ _ _ _ h1, foldLoop_keep _ _ _ _ _ h2,
    foldLoop_keep _ _ _ _ _ h3, foldLoop_fold _ _ _ _ _ _ _ h4, foldLoop_nil]; rfl

theorem foldPass_fold5_left (ops : List String) (n1 n2 n3 n4 n5 : Node)
    (h1 : ops.contains n1.Exp = false) (h2 : ops.contains n2.Exp = true)
    (h4 : ops.contains n4.Exp = false) (h5 : ops.contains n5.Exp = false) :
    foldPass ops [.node n1, .node n2, .node n3, .node n4, .node n5]
      = .ok [.node (.mk n2.Exp [.node n1, .node n3]), .node n4, .node n5] := by
  rw [foldPass, foldLoop_keep _ _ _ _ _ h1, foldLoop_fold _ _ _ _ _ _ _ h2,
    foldLoop_keep _ _ _ _ _ h4, foldLoop_keep _ _ _ _ _ h5, foldLoop_nil]; rfl

theorem foldPass_fold5_both (ops : List String) (n1 n2 n3 n4 n5 : Node)
    (h1 : ops.contains n1.Exp = false) (h2 : ops.contains n2.Exp = true)
    (h4 : ops.contains n4.Exp = true) :
    foldPass ops [.node n1, .node n2, .node n3, .node n4, .node n5]
      = .ok [.node (.mk n4.Exp [.node (.mk n2.Exp [.node n1, .node n3]), .node n5])] := by
  rw [foldPass, foldLoop_keep _ _ _ _ _ h1, foldLoop_fold _ _ _ _ _ _ _ h2,
    foldLoop_fold _ _ _ _ _ _ _ h4, foldLoop_nil]; rfl

/-- A single node whose tag is no operator symbol goes through the seven folding passes and
the final check unchanged. -/
theorem foldAll_single (n : Node) (h : isOperator n.Exp = false) :
    foldAll [.node n] = .ok [n] := by
  have pn := passProfile_of_not_operator _ h
  simp only [passProfile, passes, List.map_cons, List.map_nil, List.cons.injEq, and_true] at pn
  obtain ⟨a1, a2, a3, a4, a5, a6, a7⟩ := pn
  simp only [foldAll, foldPasses, passes, Res.bind, validateNodes, foldPass_keep1,
    a1, a2, a3, a4, a5, a6, a7, List.headD_cons]

/-! ### C1, C2: precedence and associativity of the folding passes -/

/-- C1. Precedence by pass order: for operand nodes a, b, c whose tags are no operator symbols
and binary operators hi, lo with hi in an earlier folding pass than lo, the folding passes turn
the buffer `a lo b hi c` into the single node lo(a, hi(b, c)) and the buffer `a hi b lo c` into
the single node lo(hi(a, b), c). -/
theorem precedence_by_pass_order (a b c : Node) (hi lo : String) (i j : Nat)
    (ha : isOperator a.Exp = false) (hb : isOperator b.Exp = false)
    (hc : isOperator c.Exp = false)
    (hhi : passIndex hi = some i) (hlo : passIndex lo = some j) (hij : i < j) :
    foldAll [.node a, .node (opNode lo), .node b, .node (opNode hi), .node c]
        = .ok [.mk lo [.node a, .node (.mk hi [.node b, .node c])]]
      ∧ foldAll [.node a, .node (opNode hi), .node b, .node (opNode lo), .node c]
        = .ok [.mk lo [.node (.mk hi [.node a, .node b]), .node c]] := by
  have pa := passProfile_of_not_operator _ ha
  have pb := passProfile_of_not_operator _ hb
  have pc := passProfile_of_not_operator _ hc
  simp only [passProfile, passes, List.map_cons, List.map_nil, List.cons.injEq,
    and_true] at pa pb pc
  obtain ⟨a1, a2, a3, a4, a5, a6, a7⟩ := pa
  obtain ⟨b1, b2, b3, b4, b5, b6, b7⟩ := pb
  obtain ⟨c1, c2, c3, c4, c5, c6, c7⟩ := pc
  rcases passProfile_of_passIndex hi i hhi with ⟨rfl, ph⟩ | ⟨rfl, ph⟩ | ⟨rfl, ph⟩ | ⟨rfl, ph⟩
    | ⟨rfl, ph⟩ | ⟨rfl, ph⟩ | ⟨rfl, ph⟩ <;>
  rcases passProfile_of_passIndex lo j hlo with ⟨rfl, pl⟩ | ⟨rfl, pl⟩ | ⟨rfl, pl⟩ | ⟨rfl, pl⟩
    | ⟨rfl, pl⟩ | ⟨rfl, pl⟩ | ⟨rfl, pl⟩ <;>
  first
  | (exfalso; omega)
  | (simp only [passProfile, passes, List.map_cons, List.map_nil, List.cons.injEq,
       and_true] at ph pl
     obtain ⟨h1, h2, h3, h4, h5, h6, h7⟩ := ph
     obtain ⟨l1, l2, l3, l4, l5, l6, l7⟩ := pl
     simp only [foldAll, foldPasses, passes, Res.bind, validateNodes, opNode,
       foldPass_keep1, foldPass_keep3, foldPass_keep5, foldPass_fold3, foldPass_fold5_right,
       foldPass_fold5_left, Node.Exp_mk, a1, a2, a3, a4, a5, a6, a7, b1, b2, b3, b4, b5, b6,
       b7, c1, c2, c3, c4, c5, c6, c7, h1, h2, h3, h4, h5, h6, h7, l1, l2, l3, l4, l5, l6, l7,
       List.headD_cons, and_self])

/-- C1, at `1 + 2 * 3` and `1 * 2 + 3`. -/
theorem precedence_by_pass_order_witness :
    foldAll [.node (.mk "NUMBER" [.str "1.000000"]), .node (opNode "+"),
        .node (.mk "NUMBER" [.str "2.000000"]), .node (opNode "*"),
        .node (.mk "NUMBER" [.str "3.000000"])]
      = .ok [.mk "+" [.node (.mk "NUMBER" [.str "1.000000"]),
          .node (.mk "*" [.node (.mk "NUMBER" [.str "2.000000"]),
            .node (.mk "NUMBER" [.str "3.000000"])])]]
    ∧ foldAll [.node (.mk "NUMBER" [.str "1.000000"]), .node (opNode "*"),
        .node (.mk "NUMBER" [.str "2.000000"]), .node (opNode "+"),
        .node (.mk "NUMBER" [.str "3.000000"])]
      = .ok [.mk "+" [.node (.mk "*" [.node (.mk "NUMBER" [.str "1.000000"]),
          .node (.mk "NUMBER" [.str "2.000000"])]),
          .node (.mk "NUMBER" [.str "3.000000"])]] :=
  precedence_by_pass_order (.mk "NUMBER" [.str "1.000000"]) (.mk "NUMBER" [.str "2.000000"])
    (.mk "NUMBER" [.str "3.000000"]) "*" "+" 0 1 (by decide) (by decide) (by decide)
    (by decide) (by decide) (by decide)

/-- C2. Left-associativity: for operand nodes a, b, c whose tags are no operator symbols and
binary operators op1, op2 of the same folding pass, the folding passes turn the buffer
`a op1 b op2 c` into the single node op2(op1(a, b), c). -/
theorem left_associativity (a b c : Node) (op1 op2 : String) (i : Nat)
    (ha : isOperator a.Exp = false) (hb : isOperator b.Exp = false)
    (hc : isOperator c.Exp = false)
    (h1 : passIndex op1 = some i) (h2 : passIndex op2 = some i) :
    foldAll [.node a, .node (opNode op1), .node b, .node (opNode op2), .node c]
      = .ok [.mk op2 [.node (.mk op1 [.node a, .node b]), .node c]] := by
  have pa := passProfile_of_not_operator _ ha
  have pb := passProfile_of_not_operator _ hb
  have pc := passProfile_of_not_operator _ hc
  simp only [passProfile, passes, List.map_cons, List.map_nil, List.cons.injEq,
    and_true] at pa pb pc
  obtain ⟨a1, a2, a3, a4, a5, a6, a7⟩ := pa
  obtain ⟨b1, b2, b3, b4, b5, b6, b7⟩ := pb
  obtain ⟨c1, c2, c3, c4, c5, c6, c7⟩ := pc
  rcases passProfile_of_passIndex op1 i h1 with ⟨rfl, ph⟩ | ⟨rfl, ph⟩ | ⟨rfl, ph⟩ | ⟨rfl, ph⟩
    | ⟨rfl, ph⟩ | ⟨rfl, ph⟩ | ⟨rfl, ph⟩ <;>
  rcases passProfile_of_passIndex op2 _ h2 with ⟨hk, pl⟩ | ⟨hk, pl⟩ | ⟨hk, pl⟩ | ⟨hk, pl⟩
    | ⟨hk, pl⟩ | ⟨hk, pl⟩ | ⟨hk, pl⟩ <;>
  first
  | (exfalso; omega)
  | (simp only [passProfile, passes, List.map_cons, List.map_nil, List.cons.injEq,
       and_true] at ph pl
     obtain ⟨h1, h2, h3, h4, h5, h6, h7⟩ := ph
     obtain ⟨l1, l2, l3, l4, l5, l6, l7⟩ := pl
     simp only [foldAll, foldPasses, passes, Res.bind, validateNodes, opNode,
       foldPass_keep1, foldPass_keep5, foldPass_fold5_both, Node.Exp_mk,
       a1, a2, a3, a4, a5, a6, a7, b1, b2, b3, b4, b5, b6,
       b7, c1, c2, c3, c4, c5, c6, c7, h1, h2, h3, h4, h5, h6, h7, l1, l2, l3, l4, l5, l6, l7,
       List.headD_cons])

/-- C2, at `1 + 2 - 3`. -/
theorem left_associativity_witness :
    foldAll [.node (.mk "NUMBER" [.str "1.000000"]), .node (opNode "+"),
        .node (.mk "NUMBER" [.str "2.000000"]), .node (opNode "-"),
        .node (.mk "NUMBER" [.str "3.000000"])]
      = .ok [.mk "-" [.node (.mk "+" [.node (.mk "NUMBER" [.str "1.000000"]),
          .node (.mk "NUMBER" [.str "2.000000"])]),
          .node (.mk "NUMBER" [.str "3.000000"])]] :=
  left_associativity (.mk "NUMBER" [.str "1.000000"]) (.mk "NUMBER" [.str "2.000000"])
    (.mk "NUMBER" [.str "3.000000"]) "+" "-" 1 (by decide) (by decide) (by decide)
    (by decide) (by decide)

/-! ### C3: a parenthesized operand in the outer folding passes -/

theorem foldPass_panic_first (ops : List String) (n : Node) (rest : List Arg)
    (h : ops.contains n.Exp = true) :
    foldPass ops (.node n :: rest) = .panic (indexPanic (-1) 0) := by
  simp only [foldPass, foldLoop, h, if_true, List.getLast?_nil]

theorem foldPass_panic_last3 (ops : List String) (n1 n2 n3 : Node)
    (h1 : ops.contains n1.Exp = false) (h2 : ops.contains n2.Exp = false)
    (h3 : ops.contains n3.Exp = true) :
    foldPass ops [.node n1, .node n2, .node n3] = .panic (indexPanic 3 3) := by
  rw [foldPass, foldLoop_keep _ _ _ _ _ h1, foldLoop_keep _ _ _ _ _ h2]
  simp only [foldLoop, h3, if_true, List.getLast?_append, List.getLast?_singleton, Option.or]
  rfl

/-- The folding passes of an outer call on `(x op1 y) op2 c`, where the nested call has
returned the node op1(x, y): the result is op2(op1(x, y), c) when op2 belongs to an earlier
pass than op1; otherwise the pass of op1 comes first, reads the node op1(x, y) as a
placeholder and panics, there being nothing to its left. -/
theorem foldAll_grouped_left (x y : Arg) (c : Node) (op1 op2 : String) (i j : Nat)
    (hc : isOperator c.Exp = false)
    (h1 : passIndex op1 = some i) (h2 : passIndex op2 = some j) :
    foldAll [.node (.mk op1 [x, y]), .node (opNode op2), .node c]
      = if j < i then .ok [.mk op2 [.node (.mk op1 [x, y]), .node c]]
        else .panic (indexPanic (-1) 0) := by
  have pc := passProfile_of_not_operator _ hc
  simp only [passProfile, passes, List.map_cons, List.map_nil, List.cons.injEq,
    and_true] at pc
  obtain ⟨c1, c2, c3, c4, c5, c6, c7⟩ := pc
  rcases passProfile_of_passIndex op1 i h1 with ⟨rfl, ph⟩ | ⟨rfl, ph⟩ | ⟨rfl, ph⟩ | ⟨rfl, ph⟩
    | ⟨rfl, ph⟩ | ⟨rfl, ph⟩ | ⟨rfl, ph⟩ <;>
  rcases passProfile_of_passIndex op2 j h2 with ⟨rfl, pl⟩ | ⟨rfl, pl⟩ | ⟨rfl, pl⟩ | ⟨rfl, pl⟩
    | ⟨rfl, pl⟩ | ⟨rfl, pl⟩ | ⟨rfl, pl⟩ <;>
  (simp only [passProfile, passes, List.map_cons, List.map_nil, List.cons.injEq,
     and_true] at ph pl
   obtain ⟨h1, h2, h3, h4, h5, h6, h7⟩ := ph
   obtain ⟨l1, l2, l3, l4, l5, l6, l7⟩ := pl
   simp only [foldAll, foldPasses, passes, Res.bind, validateNodes, opNode,
     foldPass_keep1, foldPass_keep3, foldPass_fold3, foldPass_panic_first, Node.Exp_mk,
     c1, c2, c3, c4, c5, c6, c7, h1, h2, h3, h4, h5, h6, h7, l1, l2, l3, l4, l5, l6, l7,
     List.headD_cons, Nat.lt_irrefl, if_false, if_true, Nat.reduceLT])

/-- The folding passes of an outer call on `a op2 (x op1 y)`, where the nested call has
returned the node op1(x, y): the result is op2(a, op1(x, y)) when op2 belongs to the same or
an earlier pass than op1; otherwise the pass of op1 comes first, reads the node op1(x, y) as
a placeholder and panics, there being nothing to its right. -/
theorem foldAll_grouped_right (a : Node) (x y : Arg) (op1 op2 : String) (i j : Nat)
    (ha : isOperator a.Exp = false)
    (h1 : passIndex op1 = some i) (h2 : passIndex op2 = some j) :
    foldAll [.node a, .node (opNode op2), .node (.mk op1 [x, y])]
      = if j ≤ i then .ok [.mk op2 [.node a, .node (.mk op1 [x, y])]]
        else .panic (indexPanic 3 3) := by
  have pa := passProfile_of_not_operator _ ha
  simp only [passProfile, passes, List.map_cons, List.map_nil, List.cons.injEq,
    and_true] at pa
  obtain ⟨a1, a2, a3, a4, a5, a6, a7⟩ := pa
  rcases passProfile_of_passIndex op1 i h1 with ⟨rfl, ph⟩ | ⟨rfl, ph⟩ | ⟨rfl, ph⟩ | ⟨rfl, ph⟩
    | ⟨rfl, ph⟩ | ⟨rfl, ph⟩ | ⟨rfl, ph⟩ <;>
  rcases passProfile_of_passIndex op2 j h2 with ⟨rfl, pl⟩ | ⟨rfl, pl⟩ | ⟨rfl, pl⟩ | ⟨rfl, pl⟩
    | ⟨rfl, pl⟩ | ⟨rfl, pl⟩ | ⟨rfl, pl⟩ <;>
  (simp only [passProfile, passes, List.map_cons, List.map_nil, List.cons.injEq,
     and_true] at ph pl
   obtain ⟨h1, h2, h3, h4, h5, h6, h7⟩ := ph
   obtain ⟨l1, l2, l3, l4, l5, l6, l7⟩ := pl
   simp only [foldAll, foldPasses, passes, Res.bind, validateNodes, opNode,
     foldPass_keep1, foldPass_keep3, foldPass_fold3, foldPass_panic_last3, Node.Exp_mk,
     a1, a2, a3, a4, a5, a6, a7, h1, h2, h3, h4, h5, h6, h7, l1, l2, l3, l4, l5, l6, l7,
     List.headD_cons, Nat.le_refl, if_false, if_true, Nat.reduceLeDiff])

/-- C3. The parser on `(1 * 2) + 3` and on `1 + (2 * 3)`: the node `*`(1, 2) that the nested
call returns is read as an operator placeholder by the `*` pass of the outer call, which
panics on the missing left operand in the first input and on the missing right operand in the
second; with the operators exchanged, `(1 + 2) * 3` parses to `*`(`+`(1, 2), 3). -/
theorem parenthesized_operand_panics :
    parseTokens goFloat64 [mkToken "(" "(", mkToken "NUMBER" "1", mkToken "*" "*",
        mkToken "NUMBER" "2", mkToken ")" ")", mkToken "+" "+", mkToken "NUMBER" "3"] []
      = .panic "index out of range [-1]"
    ∧ parseTokens goFloat64 [mkToken "NUMBER" "1", mkToken "+" "+", mkToken "(" "(",
        mkToken "NUMBER" "2", mkToken "*" "*", mkToken "NUMBER" "3", mkToken ")" ")"] []
      = .panic "index out of range [3] with length 3"
    ∧ parseTokens goFloat64 [mkToken "(" "(", mkToken "NUMBER" "1", mkToken "+" "+",
        mkToken "NUMBER" "2", mkToken ")" ")", mkToken "*" "*", mkToken "NUMBER" "3"] []
      = .ok (.mk "*" [.node (.mk "+" [.node (.mk "NUMBER" [.str "1.000000"]),
          .node (.mk "NUMBER" [.str "2.000000"])]), .node (.mk "NUMBER" [.str "3.000000"])]) := by
  refine ⟨?_, ?_, ?_⟩ <;> decide!

/-! ### C4, C5: tags outside the registry -/

theorem fns_eq_none (L : Float64Lib) (exp : String) (h : exp ∉ registered) :
    fns L exp = none := by
  simp only [registered, List.mem_cons, List.mem_nil_iff, or_false, not_or] at h
  obtain ⟨h1, h2, h3, h4, h5⟩ := h
  simp only [fns, h1, h2, h3, h4, h5, if_false]

theorem evaluateNode_unregistered (L : Float64Lib) (exp : String) (args : List Arg)
    (h : exp ∉ registered) :
    evaluateNode L (.mk exp args) = .error (unknownFunctionMsg exp) := by
  rw [evaluateNode, fns_eq_none L exp h]

/-- C4. `evaluateNode` on a node tagged NUMBER, STRING or NULL, whatever its arguments: the tag
is no key of `fns`, so the result is the unknown-function error and not the node; `Evaluate` of
`1`, which parses to the leaf NUMBER("1.000000"), returns that error. -/
theorem evaluateNode_leaf_is_error (L : Float64Lib) (args : List Arg) :
    evaluateNode L (.mk "NUMBER" args) = .error (unknownFunctionMsg "NUMBER")
    ∧ evaluateNode L (.mk "STRING" args) = .error (unknownFunctionMsg "STRING")
    ∧ evaluateNode L (.mk "NULL" args) = .error (unknownFunctionMsg "NULL")
    ∧ parse goFloat64 (.ok [mkToken "NUMBER" "1"]) [] = .ok (.mk "NUMBER" [.str "1.000000"])
    ∧ Evaluate goFloat64 (.ok [mkToken "NUMBER" "1"]) []
      = .error "the function NUMBER either is invalid or hasn't been implemented by this library" := by
  refine ⟨?_, ?_, ?_, ?_, ?_⟩
  · exact evaluateNode_unregistered L _ args (by decide)
  · exact evaluateNode_unregistered L _ args (by decide)
  · exact evaluateNode_unregistered L _ args (by decide)
  · decide!
  · decide!

/-- C5. Unknown tag fails evaluation: for a node whose tag is none of the five registered
names, `evaluateNode` returns the unknown-function error whatever the arguments are (the tag
may be an operator, an un-implemented function name, or anything else); `Evaluate` of `1 + 2`
returns that error for the tag `+`. -/
theorem unknown_tag_fails (L : Float64Lib) (exp : String) (args : List Arg)
    (h : exp ∉ registered) :
    evaluateNode L (.mk exp args) = .error (unknownFunctionMsg exp)
    ∧ (evaluateNode L (.mk exp args)).isError = true
    ∧ Evaluate goFloat64
        (.ok [mkToken "NUMBER" "1", mkToken "+" "+", mkToken "NUMBER" "2"]) []
      = .error (unknownFunctionMsg "+") := by
  refine ⟨evaluateNode_unregistered L exp args h, ?_, ?_⟩
  · rw [evaluateNode_unregistered L exp args h]; rfl
  · decide!

/-- C5, at the node IIF(NUMBER("1.000000")) of an un-implemented function. -/
theorem unknown_tag_fails_witness :
    evaluateNode goFloat64 (.mk "IIF" [.node (.mk "NUMBER" [.str "1.000000"])])
      = .error (unknownFunctionMsg "IIF")
    ∧ (evaluateNode goFloat64 (.mk "IIF" [.node (.mk "NUMBER" [.str "1.000000"])])).isError
      = true
    ∧ Evaluate goFloat64
        (.ok [mkToken "NUMBER" "1", mkToken "+" "+", mkToken "NUMBER" "2"]) []
      = .error (unknownFunctionMsg "+") :=
  unknown_tag_fails goFloat64 "IIF" [.node (.mk "NUMBER" [.str "1.000000"])] (by decide)

/-! ### C6: post-order reduction -/

theorem evaluateArgs_node (L : Float64Lib) (n : Node) (rest : List Arg) :
    evaluateArgs L (.node n :: rest)
      = (specReduceArg L n).bind fun v => (evaluateArgs L rest).bind fun vs => .ok (v :: vs) := by
  rw [evaluateArgs, specReduceArg]
  by_cases hl : isLeafTag n.Exp = true
  · simp only [hl, if_true, Res.bind]
    cases evaluateArgs L rest <;> rfl
  · simp only [hl, if_false, Bool.false_eq_true]
    cases evaluateNode L n with
    | ok v => simp only [Res.bind]; cases evaluateArgs L rest <;> rfl
    | error e => rfl
    | panic p => rfl
    | outOfFuel => rfl

theorem find_failed_cons_ok {α : Type} (v : α) (rs : List (Res α)) :
    (Res.ok v :: rs).find? (fun r => !r.isOk) = rs.find? (fun r => !r.isOk) := by
  rw [List.find?_cons]; rfl

theorem find_failed_cons_failed {α : Type} (r : Res α) (rs : List (Res α))
    (h : r.isOk = false) :
    (r :: rs).find? (fun r => !r.isOk) = some r := by
  rw [List.find?_cons]; simp only [h, Bool.not_false]

/-- The argument loop of `evaluateNode` against the reference reduction of the arguments. -/
theorem evaluateArgs_spec (L : Float64Lib) (args : List Node) :
    evaluateArgs L (args.map Arg.node)
      = match (args.map (specReduceArg L)).find? (fun r => !r.isOk) with
        | some failed => failed.failure
        | none => .ok ((args.map (specReduceArg L)).filterMap Res.value?) := by
  induction args with
  | nil => rw [List.map_nil, evaluateArgs]; rfl
  | cons a rest ih =>
    rw [List.map_cons, evaluateArgs_node, ih, List.map_cons]
    cases h : specReduceArg L a with
    | ok v =>
      rw [find_failed_cons_ok, List.filterMap_cons_some (f := Res.value?) (a := Res.ok v) (b := v) rfl]
      cases hf : (rest.map (specReduceArg L)).find? (fun r => !r.isOk) with
      | none => rfl
      | some failed =>
        have hne := List.find?_some hf
        cases failed with
        | ok x => simp [Res.isOk] at hne
        | error e => rfl
        | panic p => rfl
        | outOfFuel => rfl
    | error e => rw [find_failed_cons_failed (Res.error e) _ rfl]; rfl
    | panic p => rw [find_failed_cons_failed (Res.panic p) _ rfl]; rfl
    | outOfFuel => rw [find_failed_cons_failed Res.outOfFuel _ rfl]; rfl

/-- C6. Post-order reduction: for a node with a registered tag (callable f) and node arguments
a1..an, `evaluateNode` equals the reference definition: f on the arguments reduced from left
to right, a leaf argument passing through and any other being evaluated; the failure of the
leftmost failing argument is returned unchanged without f, and so is what f returns. -/
theorem post_order_reduction (L : Float64Lib) (exp : String) (f : List Node → Res Node)
    (args : List Node) (hf : fns L exp = some f) :
    evaluateNode L (.mk exp (args.map Arg.node)) = specEvaluate L f args := by
  rw [evaluateNode, hf, specEvaluate]
  simp only [evaluateArgs_spec]
  cases (args.map (specReduceArg L)).find? (fun r => !r.isOk) with
  | none => rfl
  | some failed => cases failed <;> rfl

/-- C6, at CONCAT(LTRIM(' a'), 'b') and at CONCAT(IIF(), 'b'), whose first argument fails. -/
theorem post_order_reduction_witness :
    evaluateNode goFloat64 (.mk "CONCAT" ([.mk "LTRIM" [.node (.mk "STRING" [.str " a"])],
        .mk "STRING" [.str "b"]].map Arg.node))
      = specEvaluate goFloat64 concat [.mk "LTRIM" [.node (.mk "STRING" [.str " a"])],
        .mk "STRING" [.str "b"]]
    ∧ specEvaluate goFloat64 concat [.mk "LTRIM" [.node (.mk "STRING" [.str " a"])],
        .mk "STRING" [.str "b"]] = .ok (.mk "STRING" [.str "ab"])
    ∧ specEvaluate goFloat64 concat [.mk "IIF" [], .mk "STRING" [.str "b"]]
      = .error (unknownFunctionMsg "IIF") :=
  ⟨post_order_reduction goFloat64 "CONCAT" concat
    [.mk "LTRIM" [.node (.mk "STRING" [.str " a"])], .mk "STRING" [.str "b"]] rfl,
    by decide!, by decide!⟩

/-! ### C7: the result of an evaluation is a leaf -/

theorem isLeaf_nullNode : isLeaf nullNode :=
  ⟨by decide, "NULL", rfl⟩

theorem isLeaf_string (s : String) : isLeaf (.mk "STRING" [.str s]) :=
  ⟨rfl, s, rfl⟩

theorem isLeaf_number (s : String) : isLeaf (.mk "NUMBER" [.str s]) :=
  ⟨rfl, s, rfl⟩

theorem abs_ok_isLeaf (L : Float64Lib) (args : List Node) (r : Node)
    (h : abs L args = .ok r) : isLeaf r := by
  unfold abs at h
  split at h
  · split_ifs at h
    · cases h; exact isLeaf_nullNode
    · cases ha : argString ‹Node› <;> simp only [ha, Res.bind] at h <;> try cases h
      split at h <;> cases h
      exact isLeaf_number _
  · cases h

theorem chr_ok_isLeaf (L : Float64Lib) (args : List Node) (r : Node)
    (h : chr L args = .ok r) : isLeaf r := by
  unfold chr at h
  split at h
  · split_ifs at h
    · cases h; exact isLeaf_nullNode
    · cases ha : argString ‹Node› <;> simp only [ha, Res.bind] at h <;> try cases h
      split at h <;> cases h
      exact isLeaf_string _
  · cases h

theorem bind_string_isLeaf (x : Res String) (g : String → String) (r : Node)
    (h : (x.bind fun s => .ok (.mk "STRING" [.str (g s)])) = .ok r) : isLeaf r := by
  cases x <;> simp only [Res.bind] at h <;> cases h
  exact isLeaf_string _

theorem bind2_string_isLeaf (x y : Res String) (g : String → String → String) (r : Node)
    (h : (x.bind fun s => y.bind fun t => .ok (.mk "STRING" [.str (g s t)])) = .ok r) :
    isLeaf r := by
  cases x <;> simp only [Res.bind] at h <;> try cases h
  cases y <;> simp only [Res.bind] at h <;> cases h
  exact isLeaf_string _

theorem concat_ok_isLeaf (args : List Node) (r : Node)
    (h : concat args = .ok r) : isLeaf r := by
  unfold concat at h
  split at h
  · split_ifs at h
    · exact bind_string_isLeaf _ id r h
    · exact bind_string_isLeaf _ id r h
    · exact bind2_string_isLeaf _ _ (fun s t => s ++ t) r h
  · cases h

theorem ltrim_ok_isLeaf (args : List Node) (r : Node)
    (h : ltrim args = .ok r) : isLeaf r := by
  unfold ltrim at h
  split at h
  · exact bind_string_isLeaf _ (fun s => TrimLeft s " ") r h
  · split_ifs at h
    · cases h; exact isLeaf_nullNode
    · exact bind2_string_isLeaf _ _ (fun s t => TrimLeft s t) r h
  · cases h

theorem rtrim_ok_isLeaf (args : List Node) (r : Node)
    (h : rtrim args = .ok r) : isLeaf r := by
  unfold rtrim at h
  split at h
  · exact bind_string_isLeaf _ (fun s => TrimRight s " ") r h
  · split_ifs at h
    · cases h; exact isLeaf_nullNode
    · exact bind2_string_isLeaf _ _ (fun s t => TrimRight s t) r h
  · cases h

/-- Every callable of the registry returns a leaf when it returns without error. -/
theorem fns_ok_isLeaf (L : Float64Lib) (exp : String) (f : List Node → Res Node)
    (hf : fns L exp = some f) (vs : List Node) (r : Node) (h : f vs = .ok r) : isLeaf r := by
  unfold fns at hf
  split_ifs at hf <;> cases hf
  · exact abs_ok_isLeaf L vs r h
  · exact chr_ok_isLeaf L vs r h
  · exact concat_ok_isLeaf vs r h
  · exact ltrim_ok_isLeaf vs r h
  · exact rtrim_ok_isLeaf vs r h

theorem evaluateNode_ok_isLeaf (L : Float64Lib) (n r : Node)
    (h : evaluateNode L n = .ok r) : isLeaf r := by
  cases n with
  | mk exp args =>
    rw [evaluateNode] at h
    cases hf : fns L exp with
    | none => simp only [hf] at h; cases h
    | some f =>
      simp only [hf] at h
      cases ha : evaluateArgs L args with
      | ok vs => simp only [ha] at h; exact fns_ok_isLeaf L exp f hf vs r h
      | error e => simp only [ha] at h; cases h
      | panic p => simp only [ha] at h; cases h
      | outOfFuel => simp only [ha] at h; cases h

/-- C7. The final reduction is a leaf: when `evaluateNode` returns a node without error, the
node is tagged NUMBER, STRING or NULL and has exactly one argument, a string; hence when the
parse and the evaluation of `Evaluate` succeed, the extraction `node.Args[0].(string)` does not
panic and `Evaluate` returns that string. -/
theorem final_reduction_is_leaf (L : Float64Lib) (n r : Node)
    (h : evaluateNode L n = .ok r) :
    isLeaf r ∧ ∀ (scanned : Res (List Token)) (vars : List Variable),
      parse L scanned vars = .ok n →
        ∃ s : String, r.Args = [.str s] ∧ Evaluate L scanned vars = .ok s := by
  have hl := evaluateNode_ok_isLeaf L n r h
  refine ⟨hl, fun scanned vars hp => ?_⟩
  obtain ⟨_, s, hs⟩ := hl
  refine ⟨s, hs, ?_⟩
  simp only [Evaluate, hp, h, Res.bind, argString, hs]

/-- C7, at ABS(NUMBER("-250.000000")). -/
theorem final_reduction_is_leaf_witness :
    isLeaf (.mk "NUMBER" [.str "250.000000"])
    ∧ ∀ (scanned : Res (List Token)) (vars : List Variable),
      parse goFloat64 scanned vars = .ok (.mk "ABS" [.node (.mk "NUMBER" [.str "-250.000000"])]) →
        ∃ s : String, (Node.mk "NUMBER" [.str "250.000000"]).Args = [.str s]
          ∧ Evaluate goFloat64 scanned vars = .ok s :=
  final_reduction_is_leaf goFloat64 (.mk "ABS" [.node (.mk "NUMBER" [.str "-250.000000"])])
    (.mk "NUMBER" [.str "250.000000"]) (by decide!)

/-! ### C8: substitution of a variable for an identifier -/

theorem lookupVariable_eq_find (value : String) (vars : List Variable) :
    lookupVariable value vars = vars.find? (fun v => decide (v.N = value)) := by
  induction vars with
  | nil => rfl
  | cons v vs ih =>
    rw [lookupVariable, List.find?_cons]
    by_cases h : value = v.N
    · simp [h]
    · have h2 : ¬ v.N = value := fun e => h e.symm
      simp [h, h2, ih]

theorem variableNode_eq_spec (L : Float64Lib) (v : Variable) :
    variableNode L v = specVariableLeaf L v := by
  unfold variableNode specVariableLeaf
  by_cases h : v.T = "NUMBER"
  · simp only [h, if_true]
    cases reformatFloat L v.V <;> rfl
  · simp only [h, if_false]

theorem parenLoop_end (L : Float64Lib) (tokens : List Token) (vars : List Variable)
    (fuel pos : Nat) (buffer : List Arg) (h : tokens[pos]? = none) :
    parenLoop L tokens vars fuel pos buffer = .ok (buffer, pos) := by
  cases fuel <;> simp only [parenLoop, h]

theorem parenLoop_ident_variable (L : Float64Lib) (tokens : List Token) (vars : List Variable)
    (fuel pos : Nat) (buffer : List Arg) (token : Token)
    (ht : tokens[pos]? = some token) (hty : tokenTypeName token = some "IDENT")
    (hf : isFunction token.Value = false) :
    parenLoop L tokens vars (fuel + 1) pos buffer
      = match lookupVariable token.Value vars with
        | none => .error (notFoundMsg token.Value)
        | some v => (variableNode L v).bind fun node =>
            parenLoop L tokens vars fuel (pos + 1) (buffer ++ [.node node]) := by
  rw [parenLoop]
  simp only [ht, hty, hf]
  simp only [show ("IDENT" = ",") = False from by decide, show ("IDENT" = ")") = False from by decide,
    show ("IDENT" = "(") = False from by decide, if_false, if_true, Bool.false_eq_true]
  cases lookupVariable token.Value vars with
  | none => rfl
  | some v =>
    dsimp only
    cases variableNode L v <;> rfl

theorem foldPass_single (ops : List String) (n : Node) :
    foldPass ops [.node n]
      = if ops.contains n.Exp then .panic (indexPanic (-1) 0) else .ok [.node n] := by
  by_cases h : ops.contains n.Exp = true
  · simp only [foldPass, foldLoop, h, if_true, List.getLast?_nil]
  · simp only [Bool.not_eq_true] at h
    rw [foldPass_keep1 ops n h]; simp only [h, Bool.false_eq_true, if_false]

theorem foldPasses_single (ps : List (List String)) (n : Node) :
    foldPasses ps [.node n] = .ok [.node n]
      ∨ foldPasses ps [.node n] = .panic (indexPanic (-1) 0) := by
  induction ps with
  | nil => left; rfl
  | cons ops ps ih =>
    rw [foldPasses, foldPass_single]
    by_cases h : ops.contains n.Exp = true
    · right; simp only [h, if_true, Res.bind]
    · simp only [h, if_false, Res.bind]; exact ih

/-- The folding passes and the final check on a buffer of one node: the node itself, or the
panic of a pass that reads the node as an operator without a left operand. -/
theorem foldAll_single_cases (n : Node) :
    foldAll [.node n] = .ok [n] ∨ foldAll [.node n] = .panic (indexPanic (-1) 0) := by
  unfold foldAll
  rcases foldPasses_single passes n with h | h
  · left; rw [h]; rfl
  · right; rw [h]; rfl

theorem parseTokens_single_node (L : Float64Lib) (token : Token) (vars : List Variable)
    (n : Node)
    (h : parenLoop L [token] vars 1 0 [] = .ok ([.node n], 1)) :
    (foldAll [.node n] = .ok [n] → parseTokens L [token] vars = .ok n)
    ∧ (parseTokens L [token] vars).isError = false := by
  have hp : parseTokens L [token] vars
      = match foldAll [.node n] with
        | .ok nodes =>
          if nodes.length > 1 then
            .error ("couldn't flatten down to one node:\n" ++ fmtNodes true nodes)
          else
            match nodes with
            | [] => .panic (indexPanic 0 0)
            | node :: _ => .ok node
        | .error e => .error e
        | .panic p => .panic p
        | .outOfFuel => .outOfFuel := by
    simp only [parseTokens, parseExpression, List.length_singleton, h, finishExpression, Res.bind]
    cases foldAll [.node n] with
    | ok nodes => simp
    | error e => rfl
    | panic p => rfl
    | outOfFuel => rfl
  constructor
  · intro hfold
    rw [hp, hfold]; simp
  · rw [hp]
    rcases foldAll_single_cases n with h1 | h1 <;> rw [h1] <;> simp [Res.isError]

/-- C8. Variable substitution of an identifier: at an IDENT token whose text is no function
name the structural pass fails with the not-found error when no supplied variable has that
name, and otherwise appends the leaf of the first variable of that name (tag = declared type,
payload = canonicalized value for NUMBER, raw value otherwise) and goes on with the next token;
the parse of that token alone is that leaf (for a declared type that is no operator symbol),
and it returns an error if and only if no variable has the name, given that a NUMBER value is
numeric. -/
theorem variable_substitution (L : Float64Lib) (tokens : List Token) (vars : List Variable)
    (fuel pos : Nat) (buffer : List Arg) (token : Token)
    (ht : tokens[pos]? = some token) (hty : tokenTypeName token = some "IDENT")
    (hf : isFunction token.Value = false) :
    parenLoop L tokens vars (fuel + 1) pos buffer
      = (match vars.find? (fun v => decide (v.N = token.Value)) with
        | none => .error (notFoundMsg token.Value)
        | some v => (specVariableLeaf L v).bind fun leaf =>
            parenLoop L tokens vars fuel (pos + 1) (buffer ++ [.node leaf]))
    ∧ (∀ v, vars.find? (fun v => decide (v.N = token.Value)) = some v →
        isOperator v.T = false → parseTokens L [token] vars = specVariableLeaf L v)
    ∧ ((∀ v, vars.find? (fun v => decide (v.N = token.Value)) = some v →
          v.T = "NUMBER" → (reformatFloat L v.V).isOk = true) →
        ((parseTokens L [token] vars).isError = true
          ↔ vars.find? (fun v => decide (v.N = token.Value)) = none)) := by
  have hstep : ∀ (toks : List Token) (f p : Nat) (buf : List Arg), toks[p]? = some token →
      parenLoop L toks vars (f + 1) p buf
        = (match vars.find? (fun v => decide (v.N = token.Value)) with
          | none => .error (notFoundMsg token.Value)
          | some v => (specVariableLeaf L v).bind fun leaf =>
              parenLoop L toks vars f (p + 1) (buf ++ [.node leaf])) := by
    intro toks f p buf h
    rw [parenLoop_ident_variable L toks vars f p buf token h hty hf, lookupVariable_eq_find]
    cases vars.find? (fun v => decide (v.N = token.Value)) with
    | none => rfl
    | some v => simp only [variableNode_eq_spec]
  have h1 := hstep [token] 0 0 [] rfl
  refine ⟨hstep tokens fuel pos buffer ht, ?_, ?_⟩
  · intro v hv hop
    rw [hv] at h1
    simp only [Nat.zero_add] at h1
    cases hleaf : specVariableLeaf L v with
    | ok leaf =>
      have htag : leaf.Exp = v.T := by
        unfold specVariableLeaf at hleaf
        split_ifs at hleaf with hT
        · cases hr : reformatFloat L v.V <;> simp only [hr] at hleaf <;> cases hleaf
          exact hT.symm
        · cases hleaf; rfl
      rw [hleaf] at h1
      simp only [Res.bind, List.nil_append] at h1
      rw [parenLoop_end L [token] vars 0 1 _ rfl] at h1
      exact (parseTokens_single_node L token vars leaf h1).1
        (foldAll_single leaf (by rw [htag]; exact hop))
    | error e =>
      rw [hleaf] at h1
      simp only [parseTokens, parseExpression, List.length_singleton, h1, finishExpression,
        Res.bind]
    | panic p =>
      rw [hleaf] at h1
      simp only [parseTokens, parseExpression, List.length_singleton, h1, finishExpression,
        Res.bind]
    | outOfFuel =>
      rw [hleaf] at h1
      simp only [parseTokens, parseExpression, List.length_singleton, h1, finishExpression,
        Res.bind]
  · intro hnum
    cases hfind : vars.find? (fun v => decide (v.N = token.Value)) with
    | none =>
      rw [hfind] at h1
      simp only [Nat.zero_add] at h1
      simp only [parseTokens, parseExpression, List.length_singleton, h1, finishExpression,
        Res.bind, Res.isError]
    | some v =>
      rw [hfind] at h1
      simp only [Nat.zero_add] at h1
      have hok : ∃ leaf, specVariableLeaf L v = .ok leaf := by
        unfold specVariableLeaf
        split_ifs with hT
        · have := hnum v hfind hT
          cases hr : reformatFloat L v.V <;> simp only [hr, Res.isOk] at this <;>
            first | exact ⟨_, rfl⟩ | cases this
        · exact ⟨_, rfl⟩
      obtain ⟨leaf, hleaf⟩ := hok
      rw [hleaf] at h1
      simp only [Res.bind, List.nil_append] at h1
      rw [parenLoop_end L [token] vars 0 1 _ rfl] at h1
      have := (parseTokens_single_node L token vars leaf h1).2
      simp [this]

/-- C8, at the identifier `in_AMT` with the variable in_AMT: NUMBER "2". -/
theorem variable_substitution_witness :
    parenLoop goFloat64 [mkToken "IDENT" "in_AMT"] [⟨"in_AMT", "NUMBER", "2"⟩] 1 0 []
      = (match [(⟨"in_AMT", "NUMBER", "2"⟩ : Variable)].find?
            (fun v => decide (v.N = (mkToken "IDENT" "in_AMT").Value)) with
        | none => .error (notFoundMsg (mkToken "IDENT" "in_AMT").Value)
        | some v => (specVariableLeaf goFloat64 v).bind fun leaf =>
            parenLoop goFloat64 [mkToken "IDENT" "in_AMT"] [⟨"in_AMT", "NUMBER", "2"⟩] 0 1
              ([] ++ [.node leaf]))
    ∧ parseTokens goFloat64 [mkToken "IDENT" "in_AMT"] [⟨"in_AMT", "NUMBER", "2"⟩]
      = .ok (.mk "NUMBER" [.str "2.000000"])
    ∧ (parseTokens goFloat64 [mkToken "IDENT" "in_AMT"] []).isError = true :=
  ⟨(variable_substitution goFloat64 [mkToken "IDENT" "in_AMT"] [⟨"in_AMT", "NUMBER", "2"⟩]
      0 0 [] (mkToken "IDENT" "in_AMT") rfl (by decide) (by decide)).1,
    by decide!, by decide!⟩

/-! ### C9, C10: parameters in a string literal -/

theorem substituteParams_eq_spec (s : String) (vs : List Variable) :
    substituteParams s vs = specSubstitute s vs := by
  unfold specSubstitute
  induction vs generalizing s with
  | nil => rfl
  | cons v vs ih =>
    rw [substituteParams, ih, List.filter_cons]
    by_cases h : HasPrefix v.N "$" = true
    · simp only [h, if_true, List.foldl_cons]
    · simp only [h, if_false, Bool.false_eq_true]

theorem specSubstitute_no_params (s : String) (vs : List Variable)
    (h : ∀ v ∈ vs, HasPrefix v.N "$" = false) : specSubstitute s vs = s := by
  unfold specSubstitute
  have : vs.filter (fun v => HasPrefix v.N "$") = [] := by
    rw [List.filter_eq_nil_iff]
    intro v hv
    simp only [h v hv, Bool.false_eq_true, not_false_eq_true]
  rw [this]; rfl

theorem specSubstitute_skip (s : String) (vs ws : List Variable) (v : Variable)
    (h : HasPrefix v.N "$" = false) :
    specSubstitute s (vs ++ v :: ws) = specSubstitute s (vs ++ ws) := by
  unfold specSubstitute
  simp only [List.filter_append, List.filter_cons, h, Bool.false_eq_true, if_false]

theorem parenLoop_string (L : Float64Lib) (tokens : List Token) (vars : List Variable)
    (fuel pos : Nat) (buffer : List Arg) (token : Token)
    (ht : tokens[pos]? = some token) (hty : tokenTypeName token = some "STRING") :
    parenLoop L tokens vars (fuel + 1) pos buffer
      = parenLoop L tokens vars fuel (pos + 1)
          (buffer ++ [.node (.mk "STRING" [.str (substituteParams token.Value vars)])]) := by
  rw [parenLoop]
  simp only [ht, hty]
  simp only [show ("STRING" = ",") = False from by decide,
    show ("STRING" = ")") = False from by decide, show ("STRING" = "(") = False from by decide,
    show ("STRING" = "IDENT") = False from by decide,
    show ("STRING" = "NUMBER") = False from by decide, if_false, if_true]

/-- C9. Parameter substitution inside a string literal: at a STRING token with text s the
structural pass appends the leaf STRING(p) where p is the left fold over the supplied
variables whose name begins with `$`, in supplied order, of replacing all occurrences of the
name by the value, starting from s; that leaf is the parse of the token alone; a variable
whose name does not begin with `$` can be dropped from the list, and with no `$`-variable
the payload is s. -/
theorem parameter_substitution (L : Float64Lib) (tokens : List Token) (vars : List Variable)
    (fuel pos : Nat) (buffer : List Arg) (token : Token)
    (ht : tokens[pos]? = some token) (hty : tokenTypeName token = some "STRING") :
    parenLoop L tokens vars (fuel + 1) pos buffer
      = parenLoop L tokens vars fuel (pos + 1)
          (buffer ++ [.node (.mk "STRING" [.str (specSubstitute token.Value vars)])])
    ∧ parseTokens L [token] vars = .ok (.mk "STRING" [.str (specSubstitute token.Value vars)])
    ∧ (∀ (vs ws : List Variable) (v : Variable), HasPrefix v.N "$" = false →
        specSubstitute token.Value (vs ++ v :: ws) = specSubstitute token.Value (vs ++ ws))
    ∧ ((∀ v ∈ vars, HasPrefix v.N "$" = false) → specSubstitute token.Value vars = token.Value) := by
  refine ⟨?_, ?_, ?_, ?_⟩
  · rw [parenLoop_string L tokens vars fuel pos buffer token ht hty, substituteParams_eq_spec]
  · have h1 := parenLoop_string L [token] vars 0 0 [] token rfl hty
    rw [parenLoop_end L [token] vars 0 1 _ rfl, substituteParams_eq_spec] at h1
    exact (parseTokens_single_node L token vars _ h1).1 (foldAll_single _ (show isOperator "STRING" = false by decide))
  · intro vs ws v h
    exact specSubstitute_skip token.Value vs ws v h
  · exact specSubstitute_no_params token.Value vars

/-- C9, at the literal `'$x and $y and $x'` with the variables $x, in_AMT and $y. -/
theorem parameter_substitution_witness :
    parseTokens goFloat64 [mkToken "STRING" "$x and $y and $x"]
        [⟨"$x", "STRING", "1"⟩, ⟨"in_AMT", "NUMBER", "2"⟩, ⟨"$y", "STRING", "$x"⟩]
      = .ok (.mk "STRING" [.str (specSubstitute (mkToken "STRING" "$x and $y and $x").Value
          [⟨"$x", "STRING", "1"⟩, ⟨"in_AMT", "NUMBER", "2"⟩, ⟨"$y", "STRING", "$x"⟩])])
    ∧ specSubstitute "$x and $y and $x"
        [⟨"$x", "STRING", "1"⟩, ⟨"in_AMT", "NUMBER", "2"⟩, ⟨"$y", "STRING", "$x"⟩]
      = "1 and $x and 1" :=
  ⟨(parameter_substitution goFloat64 [mkToken "STRING" "$x and $y and $x"]
      [⟨"$x", "STRING", "1"⟩, ⟨"in_AMT", "NUMBER", "2"⟩, ⟨"$y", "STRING", "$x"⟩] 0 0 []
      (mkToken "STRING" "$x and $y and $x") rfl (by decide)).2.1, by decide!⟩

theorem replaceLoop_skip_all (old new : List Char) (cs : List Char) (k : Nat)
    (h : cs.length ≤ k) : replaceLoop old new k cs = [] := by
  induction cs generalizing k with
  | nil => cases k <;> rfl
  | cons c cs ih =>
    cases k with
    | zero => simp at h
    | succ k =>
      rw [replaceLoop]
      exact ih k (by simpa using h)

theorem HasPrefix_dollar_ne_nil (s : String) (h : HasPrefix s "$" = true) : s.toList ≠ [] := by
  intro hs
  unfold HasPrefix at h
  rw [hs] at h
  exact absurd h (by decide)

/-- Replacing a non-empty text in itself gives the replacement. -/
theorem ReplaceAll_self (x y : String) (hx : x.toList ≠ []) : ReplaceAll x x y = y := by
  unfold ReplaceAll
  by_cases hxy : x = y
  · simp only [hxy, if_true]
  · simp only [hxy, if_false, hx]
    cases hc : x.toList with
    | nil => exact absurd hc hx
    | cons c cs =>
      have hpre : (c :: cs).isPrefixOf (c :: cs) = true := by
        rw [List.isPrefixOf_iff_prefix]
      rw [replaceLoop]
      simp only [hpre, if_true, List.length_cons, Nat.add_sub_cancel]
      rw [replaceLoop_skip_all _ _ cs cs.length (le_refl _), List.append_nil]
      rfl

/-- C10, as stated, fails: with the variables $a = "$b" and $b = "x" in this order and the
literal `'$a'`, the name `$b` occurs in the text only inside the value inserted for $a, and it
does not remain: the payload is "x". -/
theorem inserted_text_rescanned_counterexample :
    occursIn "$b" "$a" = false
    ∧ occursIn "$b" (ReplaceAll "$a" "$a" "$b") = true
    ∧ occursIn "$b" (substituteParams "$a" [⟨"$a", "STRING", "$b"⟩, ⟨"$b", "STRING", "x"⟩])
      = false
    ∧ parseTokens goFloat64 [mkToken "STRING" "$a"]
        [⟨"$a", "STRING", "$b"⟩, ⟨"$b", "STRING", "x"⟩] = .ok (.mk "STRING" [.str "x"]) := by
  refine ⟨?_, ?_, ?_, ?_⟩ <;> decide!

/-- C10, amended. The `$`-variables are substituted one after the other, each in the whole
text left by the one before: for `$`-variables v1 before v2 the payload of a text s is
ReplaceAll(ReplaceAll(s, v1.N, v1.V), v2.N, v2.V), so the text inserted for v1 is subject to
the substitution of v2; when the value of v1 is the name of v2, the text that consists of the
name of v1 gets the value of v2 as its payload. -/
theorem inserted_text_is_rescanned (v1 v2 : Variable)
    (h1 : HasPrefix v1.N "$" = true) (h2 : HasPrefix v2.N "$" = true) :
    (∀ s : String, substituteParams s [v1, v2]
        = ReplaceAll (ReplaceAll s v1.N v1.V) v2.N v2.V)
    ∧ (v1.V = v2.N → substituteParams v1.N [v1, v2] = v2.V) := by
  have hall : ∀ s : String, substituteParams s [v1, v2]
      = ReplaceAll (ReplaceAll s v1.N v1.V) v2.N v2.V := by
    intro s
    simp only [substituteParams, h1, h2, if_true]
  refine ⟨hall, fun hv => ?_⟩
  rw [hall, ReplaceAll_self v1.N v1.V (HasPrefix_dollar_ne_nil _ h1), hv,
    ReplaceAll_self v2.N v2.V (HasPrefix_dollar_ne_nil _ h2)]

/-- C10 amended, at the variables $a = "$b" and $b = "x". -/
theorem inserted_text_is_rescanned_witness :
    (∀ s : String, substituteParams s [⟨"$a", "STRING", "$b"⟩, ⟨"$b", "STRING", "x"⟩]
        = ReplaceAll (ReplaceAll s "$a" "$b") "$b" "x")
    ∧ ("$b" = "$b" → substituteParams "$a" [⟨"$a", "STRING", "$b"⟩, ⟨"$b", "STRING", "x"⟩]
        = "x") :=
  inserted_text_is_rescanned ⟨"$a", "STRING", "$b"⟩ ⟨"$b", "STRING", "x"⟩ (by decide)
    (by decide)

/-! ### The fuel of the structural pass is enough -/

theorem foldLoop_ne_outOfFuel (ops : List String) (n : Nat) :
    ∀ (buf : List Arg) (pos : Nat) (acc : List Arg), buf.length ≤ n →
      foldLoop ops buf pos acc ≠ .outOfFuel := by
  induction n with
  | zero =>
    intro buf pos acc h
    have : buf = [] := List.length_eq_zero.mp (Nat.le_zero.mp h)
    subst this
    rw [foldLoop]; exact fun h => by cases h
  | succ n ih =>
    intro buf pos acc h
    cases buf with
    | nil => rw [foldLoop]; exact fun h => by cases h
    | cons x rest =>
      have hrest : rest.length ≤ n := by simpa using h
      cases x with
      | str s => rw [foldLoop]; exact ih rest _ _ hrest
      | node m =>
        rw [foldLoop]
        split_ifs
        · cases acc.getLast? with
          | none => exact fun h => by cases h
          | some left =>
            cases rest with
            | nil => exact fun h => by cases h
            | cons right rest2 =>
              exact ih rest2 _ _ (by simp at hrest; omega)
        · exact ih rest _ _ hrest

theorem foldPasses_ne_outOfFuel (ps : List (List String)) (buf : List Arg) :
    foldPasses ps buf ≠ .outOfFuel := by
  induction ps generalizing buf with
  | nil => rw [foldPasses]; exact fun h => by cases h
  | cons ops ps ih =>
    rw [foldPasses, foldPass]
    have h1 := foldLoop_ne_outOfFuel ops buf.length buf 0 [] (le_refl _)
    cases h : foldLoop ops buf 0 [] with
    | ok b => exact ih b
    | error e => exact fun h => by cases h
    | panic p => exact fun h => by cases h
    | outOfFuel => exact absurd h h1

theorem validateNodes_ne_outOfFuel (first : Arg) (buf : List Arg) :
    validateNodes first buf ≠ .outOfFuel := by
  induction buf with
  | nil => rw [validateNodes]; exact fun h => by cases h
  | cons x rest ih =>
    cases x with
    | str s => rw [validateNodes]; exact fun h => by cases h
    | node n =>
      rw [validateNodes]
      cases h : validateNodes first rest with
      | ok b => exact fun h => by cases h
      | error e => exact fun h => by cases h
      | panic p => exact fun h => by cases h
      | outOfFuel => exact absurd h ih

theorem foldAll_ne_outOfFuel (buf : List Arg) : foldAll buf ≠ .outOfFuel := by
  unfold foldAll
  have h1 := foldPasses_ne_outOfFuel passes buf
  cases h : foldPasses passes buf with
  | ok b => exact validateNodes_ne_outOfFuel _ b
  | error e => exact fun h => by cases h
  | panic p => exact fun h => by cases h
  | outOfFuel => exact absurd h h1

theorem finishExpression_ne_outOfFuel (r : Res (List Arg × Nat)) (h : r ≠ .outOfFuel) :
    finishExpression r ≠ .outOfFuel := by
  unfold finishExpression
  cases r with
  | ok p =>
    have h1 := foldAll_ne_outOfFuel p.1
    simp only [Res.bind]
    cases h2 : foldAll p.1 with
    | ok b => exact fun h => by cases h
    | error e => exact fun h => by cases h
    | panic p => exact fun h => by cases h
    | outOfFuel => exact absurd h2 h1
  | error e => exact fun h => by cases h
  | panic p => exact fun h => by cases h
  | outOfFuel => exact absurd rfl h

theorem finishExpression_endPos (r : Res (List Arg × Nat)) (nodes : List Node) (e : Nat)
    (h : finishExpression r = .ok (nodes, e)) : ∃ buffer, r = .ok (buffer, e) := by
  unfold finishExpression at h
  cases r with
  | ok p =>
    simp only [Res.bind] at h
    cases h2 : foldAll p.1 with
    | ok b => rw [h2] at h; cases h; exact ⟨p.1, rfl⟩
    | error e => rw [h2] at h; cases h
    | panic p => rw [h2] at h; cases h
    | outOfFuel => rw [h2] at h; cases h
  | error e => cases h
  | panic p => cases h
  | outOfFuel => cases h

/-- With one unit of fuel for each token from `pos` on, the structural loop does not run out
of fuel, and the end position it returns is not before `pos`. -/
theorem parenLoop_fuel (L : Float64Lib) (tokens : List Token) (vars : List Variable)
    (fuel : Nat) :
    ∀ (pos : Nat) (buffer : List Arg), tokens.length ≤ pos + fuel →
      parenLoop L tokens vars fuel pos buffer ≠ .outOfFuel
      ∧ ∀ b e, parenLoop L tokens vars fuel pos buffer = .ok (b, e) → pos ≤ e := by
  induction fuel with
  | zero =>
    intro pos buffer h
    have hnone : tokens[pos]? = none := List.getElem?_eq_none (by omega)
    rw [parenLoop_end L tokens vars 0 pos buffer hnone]
    exact ⟨(fun h => by cases h), (fun b e h => by cases h; exact le_refl _)⟩
  | succ fuel ih =>
    intro pos buffer h
    cases ht : tokens[pos]? with
    | none =>
      rw [parenLoop_end L tokens vars _ pos buffer ht]
      exact ⟨(fun h => by cases h), (fun b e h => by cases h; exact le_refl _)⟩
    | some token =>
      have step : ∀ buf, parenLoop L tokens vars fuel (pos + 1) buf ≠ .outOfFuel
          ∧ ∀ b e, parenLoop L tokens vars fuel (pos + 1) buf = .ok (b, e) → pos ≤ e := by
        intro buf
        have := ih (pos + 1) buf (by omega)
        exact ⟨this.1, (fun b e hb => by have := this.2 b e hb; omega)⟩
      have nested : ∀ (start : Nat) (mk : List Node → List Arg), pos + 1 ≤ start →
          (match finishExpression (parenLoop L tokens vars fuel start []) with
            | .ok (nodes, endPos) => parenLoop L tokens vars fuel (endPos + 1) (mk nodes)
            | .error e => .error e
            | .panic p => .panic p
            | .outOfFuel => .outOfFuel) ≠ Res.outOfFuel
          ∧ ∀ b e, (match finishExpression (parenLoop L tokens vars fuel start []) with
            | .ok (nodes, endPos) => parenLoop L tokens vars fuel (endPos + 1) (mk nodes)
            | .error e => .error e
            | .panic p => .panic p
            | .outOfFuel => .outOfFuel) = Res.ok (b, e) → pos ≤ e := by
        intro start mk hstart
        have hin := ih start [] (by omega)
        have hfin := finishExpression_ne_outOfFuel _ hin.1
        cases hf : finishExpression (parenLoop L tokens vars fuel start []) with
        | ok p =>
          obtain ⟨nodes, endPos⟩ := p
          obtain ⟨buf0, hbuf0⟩ := finishExpression_endPos _ nodes endPos hf
          have hle := hin.2 buf0 endPos hbuf0
          have := ih (endPos + 1) (mk nodes) (by omega)
          exact ⟨this.1, (fun b e hb => by have := this.2 b e hb; omega)⟩
        | error e => exact ⟨(fun h => by cases h), (fun b e h => by cases h)⟩
        | panic p => exact ⟨(fun h => by cases h), (fun b e h => by cases h)⟩
        | outOfFuel => exact absurd hf hfin
      rw [parenLoop]
      simp only [ht]
      cases tokenTypeName token with
      | none => exact ⟨(fun h => by cases h), (fun b e h => by cases h)⟩
      | some tokenType =>
        dsimp only
        split_ifs
        · exact step _
        · exact ⟨(fun h => by cases h), (fun b e h => by cases h; exact le_refl _)⟩
        · exact nested (pos + 1) _ (le_refl _)
        · cases tokens[pos + 1]? with
          | none => exact ⟨(fun h => by cases h), (fun b e h => by cases h)⟩
          | some next =>
            dsimp only
            split_ifs
            · exact nested (pos + 2) _ (by omega)
            · exact ⟨(fun h => by cases h), (fun b e h => by cases h)⟩
        · cases lookupVariable token.Value vars with
          | none => exact ⟨(fun h => by cases h), (fun b e h => by cases h)⟩
          | some v =>
            dsimp only
            cases hv : variableNode L v with
            | ok node => exact step _
            | error e => exact ⟨(fun h => by cases h), (fun b e h => by cases h)⟩
            | panic p => exact ⟨(fun h => by cases h), (fun b e h => by cases h)⟩
            | outOfFuel =>
              exfalso
              unfold variableNode reformatFloat at hv
              split_ifs at hv
              all_goals
                cases hp : L.ParseFloat v.V <;> simp only [hp, Res.bind] at hv <;> cases hv
        · cases hr : reformatFloat L token.Value with
          | ok f => exact step _
          | error e => exact ⟨(fun h => by cases h), (fun b e h => by cases h)⟩
          | panic p => exact ⟨(fun h => by cases h), (fun b e h => by cases h)⟩
          | outOfFuel =>
            exfalso
            unfold reformatFloat at hr
            cases hp : L.ParseFloat token.Value <;> simp only [hp] at hr <;> cases hr
        · exact step _
        · exact step _

/-- The parser terminates within its fuel: `parse` on a token stream returns a node, an error
or panics. -/
theorem parseTokens_ne_outOfFuel (L : Float64Lib) (tokens : List Token)
    (vars : List Variable) : parseTokens L tokens vars ≠ .outOfFuel := by
  have h1 := (parenLoop_fuel L tokens vars tokens.length 0 [] (by omega)).1
  have h2 := finishExpression_ne_outOfFuel _ h1
  unfold parseTokens parseExpression
  cases h : finishExpression (parenLoop L tokens vars tokens.length 0 []) with
  | ok p =>
    obtain ⟨nodes, endPos⟩ := p
    dsimp only
    split_ifs
    · exact fun h => by cases h
    · exact fun h => by cases h
    · cases nodes <;> exact fun h => by cases h
  | error e => exact fun h => by cases h
  | panic p => exact fun h => by cases h
  | outOfFuel => exact absurd h h2

/-! ### C11-C14: the checks of `parse` and the bounds of the loops -/

/-- C11. `parse` when the folding passes leave no node: on the empty token stream and on a lone
`)` the check `len(nodes) > 1` lets the empty list through and `nodes[0]` panics; two nodes
(`1 2`) give the could-not-flatten error and one node (`1`) is returned. -/
theorem parse_without_node_panics (L : Float64Lib) (vars : List Variable) :
    parseTokens L [] vars = .panic "index out of range [0] with length 0"
    ∧ parseTokens L [mkToken ")" ")"] vars = .panic "index out of range [0] with length 0"
    ∧ parseTokens goFloat64 [mkToken "NUMBER" "1", mkToken "NUMBER" "2"] []
      = .error ("couldn't flatten down to one node:\n"
          ++ "[\x7bExp:NUMBER Args:[1.000000]\x7d \x7bExp:NUMBER Args:[2.000000]\x7d]")
    ∧ parseTokens goFloat64 [mkToken "NUMBER" "1"] [] = .ok (.mk "NUMBER" [.str "1.000000"]) := by
  refine ⟨?_, ?_, ?_, ?_⟩
  · rfl
  · rfl
  · decide!
  · decide!

/-- C12. `parse` on `1 )`: the structural pass stops at the `)` with end position 1 of 2
tokens, the check `endPos < len(tokens)-1` does not fire, and the node NUMBER("1.000000") is
returned without error; with a second token left over (`1 ) 2`) the check fires. -/
theorem parse_accepts_one_trailing_token :
    parseExpression goFloat64 [mkToken "NUMBER" "1", mkToken ")" ")"] [] 2 0
      = .ok ([.mk "NUMBER" [.str "1.000000"]], 1)
    ∧ parseTokens goFloat64 [mkToken "NUMBER" "1", mkToken ")" ")"] []
      = .ok (.mk "NUMBER" [.str "1.000000"])
    ∧ parseTokens goFloat64 [mkToken "NUMBER" "1", mkToken ")" ")", mkToken "NUMBER" "2"] []
      = .error "Parsing tokens ended at 1, but expected 2" := by
  refine ⟨?_, ?_, ?_⟩ <;> decide!

/-- C13. A function name that is the last token: the structural pass reads `tokens[pos+1]`
past the end of the stream and panics, for every float library and variable list; a STRING
token with the text `(` after the name (`ABS'('1)`) is taken for the parenthesis, because the
check compares the token value and not its type; any other next token gives the error. -/
theorem function_name_last_token_panics (L : Float64Lib) (vars : List Variable) :
    parseTokens L [mkToken "IDENT" "ABS"] vars = .panic "index out of range [1] with length 1"
    ∧ parseTokens goFloat64 [mkToken "NUMBER" "1", mkToken "+" "+", mkToken "IDENT" "ABS"] []
      = .panic "index out of range [3] with length 3"
    ∧ parseTokens goFloat64 [mkToken "IDENT" "ABS", mkToken "STRING" "(",
        mkToken "NUMBER" "1", mkToken ")" ")"] []
      = .ok (.mk "ABS" [.node (.mk "NUMBER" [.str "1.000000"])])
    ∧ parseTokens L [mkToken "IDENT" "ABS", mkToken "NUMBER" "1"] vars
      = .error "expected '(' after ABS" := by
  refine ⟨?_, ?_, ?_, ?_⟩
  · rfl
  · decide!
  · decide!
  · rfl

/-- C14. Inputs on which the parser panics instead of returning an error: `+ 1` (the `+` pass
reads `bufferNew[len(bufferNew)-1]` on an empty `bufferNew`), `1 +` (it reads `buffer[pos+1]`
past the end), the empty input (`nodes[0]` on an empty list), and so does `Evaluate`. -/
theorem parser_panics :
    parseTokens goFloat64 [mkToken "+" "+", mkToken "NUMBER" "1"] []
      = .panic "index out of range [-1]"
    ∧ parseTokens goFloat64 [mkToken "NUMBER" "1", mkToken "+" "+"] []
      = .panic "index out of range [2] with length 2"
    ∧ parseTokens goFloat64 [] [] = .panic "index out of range [0] with length 0"
    ∧ Evaluate goFloat64 (.ok [mkToken "+" "+", mkToken "NUMBER" "1"]) []
      = .panic "index out of range [-1]"
    ∧ Evaluate goFloat64 (.ok [mkToken "NUMBER" "1", mkToken "+" "+"]) []
      = .panic "index out of range [2] with length 2"
    ∧ Evaluate goFloat64 (.ok []) [] = .panic "index out of range [0] with length 0" := by
  refine ⟨?_, ?_, ?_, ?_, ?_, ?_⟩ <;> decide!

/-! ### C18-C20: CONCAT, LTRIM and RTRIM -/

theorem argString_of_args (n : Node) (s : String) (h : n.Args = [.str s]) :
    argString n = .ok s := by
  simp only [argString, h]

/-- C18. CONCAT contract: on two arguments with one string payload each, `concat` returns a
STRING leaf; its payload is the second payload when the first argument is tagged NULL, the
first payload when only the second is tagged NULL, and the first payload followed by the
second when neither is. -/
theorem concat_contract (a b : Node) (s t : String)
    (ha : a.Args = [.str s]) (hb : b.Args = [.str t]) :
    (∃ p : String, concat [a, b] = .ok (.mk "STRING" [.str p]))
    ∧ (a.Exp ≠ "NULL" → b.Exp ≠ "NULL" → concat [a, b] = .ok (.mk "STRING" [.str (s ++ t)]))
    ∧ (a.Exp = "NULL" → concat [a, b] = .ok (.mk "STRING" [.str t]))
    ∧ (a.Exp ≠ "NULL" → b.Exp = "NULL" → concat [a, b] = .ok (.mk "STRING" [.str s])) := by
  have h1 := argString_of_args a s ha
  have h2 := argString_of_args b t hb
  refine ⟨?_, ?_, ?_, ?_⟩
  · by_cases hA : a.Exp = "NULL"
    · exact ⟨t, by simp only [concat, hA, if_true, h2, Res.bind]⟩
    · by_cases hB : b.Exp = "NULL"
      · exact ⟨s, by simp only [concat, hA, hB, if_true, if_false, h1, Res.bind]⟩
      · exact ⟨s ++ t, by simp only [concat, hA, hB, if_false, h1, h2, Res.bind]⟩
  · intro hA hB
    simp only [concat, hA, hB, if_false, h1, h2, Res.bind]
  · intro hA
    simp only [concat, hA, if_true, h2, Res.bind]
  · intro hA hB
    simp only [concat, hA, hB, if_true, if_false, h1, Res.bind]

/-- C18, at CONCAT('mike', 'knowles'), with the three evaluations of the tests. -/
theorem concat_contract_witness :
    ((∃ p : String, concat [.mk "STRING" [.str "mike"], .mk "STRING" [.str "knowles"]]
        = .ok (.mk "STRING" [.str p]))
    ∧ (("STRING" : String) ≠ "NULL" → ("STRING" : String) ≠ "NULL" →
        concat [.mk "STRING" [.str "mike"], .mk "STRING" [.str "knowles"]]
          = .ok (.mk "STRING" [.str ("mike" ++ "knowles")]))
    ∧ (("STRING" : String) = "NULL" →
        concat [.mk "STRING" [.str "mike"], .mk "STRING" [.str "knowles"]]
          = .ok (.mk "STRING" [.str "knowles"]))
    ∧ (("STRING" : String) ≠ "NULL" → ("STRING" : String) = "NULL" →
        concat [.mk "STRING" [.str "mike"], .mk "STRING" [.str "knowles"]]
          = .ok (.mk "STRING" [.str "mike"])))
    ∧ Evaluate goFloat64 (.ok [mkToken "IDENT" "CONCAT", mkToken "(" "(",
        mkToken "STRING" "mike", mkToken "," ",", mkToken "STRING" "knowles",
        mkToken ")" ")"]) [] = .ok "mikeknowles"
    ∧ Evaluate goFloat64 (.ok [mkToken "IDENT" "CONCAT", mkToken "(" "(",
        mkToken "NULL" "NULL", mkToken "," ",", mkToken "STRING" "knowles",
        mkToken ")" ")"]) [] = .ok "knowles"
    ∧ Evaluate goFloat64 (.ok [mkToken "IDENT" "CONCAT", mkToken "(" "(",
        mkToken "STRING" "mike", mkToken "," ",", mkToken "NULL" "NULL",
        mkToken ")" ")"]) [] = .ok "mike" :=
  ⟨concat_contract (.mk "STRING" [.str "mike"]) (.mk "STRING" [.str "knowles"])
      "mike" "knowles" rfl rfl, by decide!, by decide!, by decide!⟩

/-- `strings.TrimLeft` removes the longest prefix made of characters of the cutset. -/
theorem TrimLeft_spec (s cutset : String) :
    ∃ pre rest : List Char, s.toList = pre ++ rest
      ∧ (∀ c ∈ pre, c ∈ cutset.toList)
      ∧ (∀ c, rest.head? = some c → c ∉ cutset.toList)
      ∧ TrimLeft s cutset = String.mk rest := by
  refine ⟨s.toList.takeWhile (fun c => cutset.toList.contains c),
    s.toList.dropWhile (fun c => cutset.toList.contains c), ?_, ?_, ?_, rfl⟩
  · exact (List.takeWhile_append_dropWhile _ _).symm
  · intro c hc
    have := List.mem_takeWhile_imp hc
    simpa using this
  · intro c hc
    have := List.head?_dropWhile_not (fun c => cutset.toList.contains c) s.toList
    rw [hc] at this
    simpa using this

/-- `strings.TrimRight` removes the longest suffix made of characters of the cutset. -/
theorem TrimRight_spec (s cutset : String) :
    ∃ rest suf : List Char, s.toList = rest ++ suf
      ∧ (∀ c ∈ suf, c ∈ cutset.toList)
      ∧ (∀ c, rest.getLast? = some c → c ∉ cutset.toList)
      ∧ TrimRight s cutset = String.mk rest := by
  refine ⟨(s.toList.reverse.dropWhile (fun c => cutset.toList.contains c)).reverse,
    (s.toList.reverse.takeWhile (fun c => cutset.toList.contains c)).reverse, ?_, ?_, ?_, rfl⟩
  · rw [← List.reverse_append, List.takeWhile_append_dropWhile, List.reverse_reverse]
  · intro c hc
    have := List.mem_takeWhile_imp (List.mem_reverse.mp hc)
    simpa using this
  · intro c hc
    rw [List.getLast?_reverse] at hc
    have := List.head?_dropWhile_not (fun c => cutset.toList.contains c) s.toList.reverse
    rw [hc] at this
    simpa using this

theorem TrimLeft_unchanged (s cutset : String)
    (h : ∀ c, s.toList.head? = some c → c ∉ cutset.toList) : TrimLeft s cutset = s := by
  unfold TrimLeft
  cases hs : s.toList with
  | nil => simp only [List.dropWhile_nil]; rw [← hs]; rfl
  | cons c cs =>
    have hc := h c (by rw [hs]; rfl)
    have : cutset.toList.contains c = false := by simpa using hc
    rw [List.dropWhile_cons]
    simp only [this, Bool.false_eq_true, if_false]
    rw [← hs]; rfl

theorem TrimRight_unchanged (s cutset : String)
    (h : ∀ c, s.toList.getLast? = some c → c ∉ cutset.toList) : TrimRight s cutset = s := by
  unfold TrimRight
  cases hs : s.toList.reverse with
  | nil =>
    simp only [List.dropWhile_nil, List.reverse_nil]
    have : s.toList = [] := by simpa using hs
    rw [← this]; rfl
  | cons c cs =>
    have hl : s.toList.getLast? = some c := by
      rw [← List.head?_reverse, hs]; rfl
    have hc := h c hl
    have : cutset.toList.contains c = false := by simpa using hc
    rw [List.dropWhile_cons]
    simp only [this, Bool.false_eq_true, if_false]
    rw [← hs, List.reverse_reverse]; rfl

/-- C19. Two-argument LTRIM / RTRIM on arguments with one string payload each: the NULL leaf
when either argument is tagged NULL; otherwise a STRING leaf whose payload is the first
payload without its longest prefix (LTRIM) or longest suffix (RTRIM) made only of characters
of the second payload; the text is unchanged when its first (last) character is not in the
cutset. -/
theorem trim_two_arguments (a b : Node) (s t : String)
    (ha : a.Args = [.str s]) (hb : b.Args = [.str t]) :
    (a.Exp = "NULL" ∨ b.Exp = "NULL" → ltrim [a, b] = .ok nullNode ∧ rtrim [a, b] = .ok nullNode)
    ∧ (¬ (a.Exp = "NULL" ∨ b.Exp = "NULL") →
        (∃ pre rest : List Char, s.toList = pre ++ rest
          ∧ (∀ c ∈ pre, c ∈ t.toList) ∧ (∀ c, rest.head? = some c → c ∉ t.toList)
          ∧ ltrim [a, b] = .ok (.mk "STRING" [.str (String.mk rest)]))
        ∧ (∃ rest suf : List Char, s.toList = rest ++ suf
          ∧ (∀ c ∈ suf, c ∈ t.toList) ∧ (∀ c, rest.getLast? = some c → c ∉ t.toList)
          ∧ rtrim [a, b] = .ok (.mk "STRING" [.str (String.mk rest)]))
        ∧ ((∀ c, s.toList.head? = some c → c ∉ t.toList) →
            ltrim [a, b] = .ok (.mk "STRING" [.str s]))
        ∧ ((∀ c, s.toList.getLast? = some c → c ∉ t.toList) →
            rtrim [a, b] = .ok (.mk "STRING" [.str s]))) := by
  have h1 := argString_of_args a s ha
  have h2 := argString_of_args b t hb
  refine ⟨fun hn => ?_, fun hn => ?_⟩
  · simp only [ltrim, rtrim, hn, if_true, and_self]
  · have hl : ltrim [a, b] = .ok (.mk "STRING" [.str (TrimLeft s t)]) := by
      simp only [ltrim, hn, if_false, h1, h2, Res.bind]
    have hr : rtrim [a, b] = .ok (.mk "STRING" [.str (TrimRight s t)]) := by
      simp only [rtrim, hn, if_false, h1, h2, Res.bind]
    refine ⟨?_, ?_, ?_, ?_⟩
    · obtain ⟨pre, rest, e1, e2, e3, e4⟩ := TrimLeft_spec s t
      exact ⟨pre, rest, e1, e2, e3, by rw [hl, e4]⟩
    · obtain ⟨rest, suf, e1, e2, e3, e4⟩ := TrimRight_spec s t
      exact ⟨rest, suf, e1, e2, e3, by rw [hr, e4]⟩
    · intro h; rw [hl, TrimLeft_unchanged s t h]
    · intro h; rw [hr, TrimRight_unchanged s t h]

/-- C19, at LTRIM('H. Bender', 'S.') and RTRIM('H. Bender', 'S.'), with the evaluation of the
test. -/
theorem trim_two_arguments_witness :
    ltrim [.mk "STRING" [.str "H. Bender"], .mk "STRING" [.str "S."]]
      = .ok (.mk "STRING" [.str "H. Bender"])
    ∧ rtrim [.mk "STRING" [.str "H. Bender"], .mk "STRING" [.str "S."]]
      = .ok (.mk "STRING" [.str "H. Bender"])
    ∧ rtrim [.mk "STRING" [.str "H. Bender"], .mk "STRING" [.str "r.e"]]
      = .ok (.mk "STRING" [.str "H. Bend"])
    ∧ ltrim [.mk "NULL" [.str "NULL"], .mk "STRING" [.str "S."]] = .ok nullNode
    ∧ Evaluate goFloat64 (.ok [mkToken "IDENT" "LTRIM", mkToken "(" "(",
        mkToken "STRING" "H. Bender", mkToken "," ",", mkToken "STRING" "S.",
        mkToken ")" ")"]) [] = .ok "H. Bender" :=
  ⟨((trim_two_arguments (.mk "STRING" [.str "H. Bender"]) (.mk "STRING" [.str "S."])
      "H. Bender" "S." rfl rfl).2 (by decide)).2.2.1 (by decide),
   ((trim_two_arguments (.mk "STRING" [.str "H. Bender"]) (.mk "STRING" [.str "S."])
      "H. Bender" "S." rfl rfl).2 (by decide)).2.2.2 (by decide),
   by decide!, by decide!, by decide!⟩

/-- C20. One-argument LTRIM / RTRIM on an argument with the string payload s: `ltrim` returns
the STRING leaf whose payload is s without its leading blanks, all the rest kept, and `rtrim`
the STRING leaf whose payload is s without its trailing blanks, all the rest kept; on the
leaf NULL("NULL") both return the payload "NULL", which is what `Evaluate` returns for
LTRIM(NULL) and RTRIM(NULL); RTRIM(' a ') is " a". -/
theorem trim_one_argument (a : Node) (s : String) (ha : a.Args = [.str s]) :
    (∃ k : Nat, ∃ rest : List Char, s.toList = List.replicate k ' ' ++ rest
      ∧ rest.head? ≠ some ' '
      ∧ ltrim [a] = .ok (.mk "STRING" [.str (String.mk rest)]))
    ∧ (∃ k : Nat, ∃ rest : List Char, s.toList = rest ++ List.replicate k ' '
      ∧ rest.getLast? ≠ some ' '
      ∧ rtrim [a] = .ok (.mk "STRING" [.str (String.mk rest)]))
    ∧ ltrim [nullNode] = .ok (.mk "STRING" [.str "NULL"])
    ∧ rtrim [nullNode] = .ok (.mk "STRING" [.str "NULL"])
    ∧ Evaluate goFloat64 (.ok [mkToken "IDENT" "LTRIM", mkToken "(" "(",
        mkToken "NULL" "NULL", mkToken ")" ")"]) [] = .ok "NULL"
    ∧ Evaluate goFloat64 (.ok [mkToken "IDENT" "RTRIM", mkToken "(" "(",
        mkToken "NULL" "NULL", mkToken ")" ")"]) [] = .ok "NULL"
    ∧ Evaluate goFloat64 (.ok [mkToken "IDENT" "RTRIM", mkToken "(" "(",
        mkToken "STRING" " a ", mkToken ")" ")"]) [] = .ok " a" := by
  have h1 := argString_of_args a s ha
  have hblank : ∀ l : List Char, (∀ c ∈ l, c ∈ " ".toList) →
      l = List.replicate l.length ' ' := by
    intro l hl
    rw [List.eq_replicate_iff]
    refine ⟨rfl, fun c hc => ?_⟩
    have := hl c hc
    simpa using this
  refine ⟨?_, ?_, ?_, ?_, ?_, ?_, ?_⟩
  · obtain ⟨pre, rest, e1, e2, e3, e4⟩ := TrimLeft_spec s " "
    refine ⟨pre.length, rest, ?_, ?_, ?_⟩
    · rw [← hblank pre e2]; exact e1
    · intro h; exact e3 ' ' h (by decide)
    · simp only [ltrim, h1, Res.bind, e4]
  · obtain ⟨rest, suf, e1, e2, e3, e4⟩ := TrimRight_spec s " "
    refine ⟨suf.length, rest, ?_, ?_, ?_⟩
    · rw [← hblank suf e2]; exact e1
    · intro h; exact e3 ' ' h (by decide)
    · simp only [rtrim, h1, Res.bind, e4]
  · decide!
  · decide!
  · decide!
  · decide!
  · decide!

/-- C20, at the payload "  a b  ". -/
theorem trim_one_argument_witness :
    ltrim [.mk "STRING" [.str "  a b  "]] = .ok (.mk "STRING" [.str "a b  "])
    ∧ rtrim [.mk "STRING" [.str "  a b  "]] = .ok (.mk "STRING" [.str "  a b"])
    ∧ ltrim [nullNode] = .ok (.mk "STRING" [.str "NULL"]) :=
  ⟨by decide!, by decide!,
    (trim_one_argument (.mk "STRING" [.str "  a b  "]) "  a b  " rfl).2.2.1⟩

/-! ### C16: the leaves of a parsed tree -/

theorem leavesOKList_iff (P : String → Prop) (l : List Arg) :
    Arg.leavesOKList P l ↔ ∀ a ∈ l, Arg.leavesOK P a := by
  induction l with
  | nil => simp [Arg.leavesOKList]
  | cons a as ih => simp [Arg.leavesOKList, ih]

theorem leavesOKList_append (P : String → Prop) (l1 l2 : List Arg) :
    Arg.leavesOKList P (l1 ++ l2) ↔ Arg.leavesOKList P l1 ∧ Arg.leavesOKList P l2 := by
  simp only [leavesOKList_iff, List.mem_append]
  constructor
  · intro h; exact ⟨fun a ha => h a (Or.inl ha), fun a ha => h a (Or.inr ha)⟩
  · rintro ⟨h1, h2⟩ a (ha | ha)
    · exact h1 a ha
    · exact h2 a ha

theorem leavesOKList_nodes (P : String → Prop) (ns : List Node) :
    Arg.leavesOKList P (ns.map Arg.node) ↔ ∀ n ∈ ns, Node.leavesOK P n := by
  rw [leavesOKList_iff]
  constructor
  · intro h n hn
    have := h (.node n) (List.mem_map_of_mem _ hn)
    simpa [Arg.leavesOK] using this
  · intro h a ha
    obtain ⟨n, hn, rfl⟩ := List.mem_map.mp ha
    simpa [Arg.leavesOK] using h n hn

theorem leavesOK_mono (P Q : String → Prop) (hPQ : ∀ p, P p → Q p) :
    (∀ n : Node, Node.leavesOK P n → Node.leavesOK Q n) := by
  intro n
  apply Node.rec (motive_1 := fun n => Node.leavesOK P n → Node.leavesOK Q n)
    (motive_2 := fun a => Arg.leavesOK P a → Arg.leavesOK Q a)
    (motive_3 := fun l => Arg.leavesOKList P l → Arg.leavesOKList Q l)
  · intro e args ih h
    simp only [Node.leavesOK] at h ⊢
    refine ⟨fun hl => ?_, ih h.2⟩
    obtain ⟨s, hs, hn⟩ := h.1 hl
    exact ⟨s, hs, fun he => hPQ s (hn he)⟩
  · intro s _; simp only [Arg.leavesOK]
  · intro n ih h; simp only [Arg.leavesOK] at h ⊢; exact ih h
  · intro _; simp only [Arg.leavesOKList]
  · intro a as iha ihas h
    simp only [Arg.leavesOKList] at h ⊢
    exact ⟨iha h.1, ihas h.2⟩

theorem isLeafTag_of_contains_passes (ops : List String) (hops : ops ∈ passes) (e : String)
    (h : ops.contains e = true) : isLeafTag e = false := by
  have hm : e ∈ passes.flatten := by
    rw [List.mem_flatten]
    exact ⟨ops, hops, by simpa using h⟩
  clear h hops
  simp only [passes, List.flatten, List.cons_append, List.nil_append, List.append_nil,
    List.mem_cons, List.mem_nil_iff, or_false] at hm
  rcases hm with h | h | h | h | h | h | h | h | h | h | h | h | h | h | h | h <;>
    (rw [h]; decide)

theorem foldLoop_leavesOK (P : String → Prop) (ops : List String)
    (hops : ∀ e, ops.contains e = true → isLeafTag e = false) (n : Nat) :
    ∀ (buf : List Arg) (pos : Nat) (acc out : List Arg), buf.length ≤ n →
      Arg.leavesOKList P buf → Arg.leavesOKList P acc →
      foldLoop ops buf pos acc = .ok out → Arg.leavesOKList P out := by
  induction n with
  | zero =>
    intro buf pos acc out h _ hacc hr
    have : buf = [] := List.length_eq_zero.mp (Nat.le_zero.mp h)
    subst this
    rw [foldLoop] at hr; cases hr; exact hacc
  | succ n ih =>
    intro buf pos acc out h hbuf hacc hr
    cases buf with
    | nil => rw [foldLoop] at hr; cases hr; exact hacc
    | cons x rest =>
      have hrest : rest.length ≤ n := by simpa using h
      simp only [Arg.leavesOKList] at hbuf
      cases x with
      | str s =>
        rw [foldLoop] at hr
        exact ih rest _ _ out hrest hbuf.2
          ((leavesOKList_append P _ _).2 ⟨hacc, by simp [Arg.leavesOKList, Arg.leavesOK]⟩) hr
      | node m =>
        rw [foldLoop] at hr
        split_ifs at hr with hc
        · cases hl : acc.getLast? with
          | none => rw [hl] at hr; cases hr
          | some left =>
            rw [hl] at hr
            cases rest with
            | nil => cases hr
            | cons right rest2 =>
              simp only [Arg.leavesOKList] at hbuf
              have hleft : Arg.leavesOK P left :=
                (leavesOKList_iff P acc).1 hacc left (List.mem_of_getLast?_eq_some hl)
              have hdrop : Arg.leavesOKList P acc.dropLast :=
                (leavesOKList_iff P _).2 fun a ha =>
                  (leavesOKList_iff P acc).1 hacc a (List.dropLast_subset acc ha)
              refine ih rest2 _ _ out (by simp at hrest; omega) hbuf.2.2
                ((leavesOKList_append P _ _).2 ⟨hdrop, ?_⟩) hr
              simp only [Arg.leavesOKList, Arg.leavesOK, Node.leavesOK, and_true]
              refine ⟨fun hlt => ?_, hleft, hbuf.2.1⟩
              rw [hops m.Exp hc] at hlt; cases hlt
        · exact ih rest _ _ out hrest hbuf.2
            ((leavesOKList_append P _ _).2
              ⟨hacc, by simp only [Arg.leavesOKList, and_true]; exact hbuf.1⟩) hr

theorem foldPasses_leavesOK (P : String → Prop) (ps : List (List String))
    (hps : ∀ ops ∈ ps, ops ∈ passes) (buf out : List Arg)
    (hbuf : Arg.leavesOKList P buf) (hr : foldPasses ps buf = .ok out) :
    Arg.leavesOKList P out := by
  induction ps generalizing buf with
  | nil => rw [foldPasses] at hr; cases hr; exact hbuf
  | cons ops ps ih =>
    rw [foldPasses, foldPass] at hr
    cases h1 : foldLoop ops buf 0 [] with
    | ok b =>
      rw [h1] at hr
      simp only [Res.bind] at hr
      have hb := foldLoop_leavesOK P ops
        (isLeafTag_of_contains_passes ops (hps ops (List.mem_cons_self _ _)))
        buf.length buf 0 [] b (le_refl _) hbuf (by simp [Arg.leavesOKList]) h1
      exact ih (fun o ho => hps o (List.mem_cons_of_mem _ ho)) b hb hr
    | error e => rw [h1] at hr; cases hr
    | panic p => rw [h1] at hr; cases hr
    | outOfFuel => rw [h1] at hr; cases hr

theorem validateNodes_ok (first : Arg) (buf : List Arg) (nodes : List Node)
    (h : validateNodes first buf = .ok nodes) : buf = nodes.map Arg.node := by
  induction buf generalizing nodes with
  | nil => rw [validateNodes] at h; cases h; rfl
  | cons x rest ih =>
    cases x with
    | str s => rw [validateNodes] at h; cases h
    | node n =>
      rw [validateNodes] at h
      cases h2 : validateNodes first rest with
      | ok ns =>
        rw [h2] at h; simp only [Res.bind] at h; cases h
        rw [List.map_cons, ← ih ns h2]
      | error e => rw [h2] at h; cases h
      | panic p => rw [h2] at h; cases h
      | outOfFuel => rw [h2] at h; cases h

theorem foldAll_leavesOK (P : String → Prop) (buf : List Arg) (nodes : List Node)
    (hbuf : Arg.leavesOKList P buf) (hr : foldAll buf = .ok nodes) :
    ∀ n ∈ nodes, Node.leavesOK P n := by
  unfold foldAll at hr
  cases h1 : foldPasses passes buf with
  | ok b =>
    rw [h1] at hr; simp only [Res.bind] at hr
    have hb := foldPasses_leavesOK P passes (fun _ h => h) buf b hbuf h1
    rw [validateNodes_ok _ b nodes hr] at hb
    exact (leavesOKList_nodes P nodes).1 hb
  | error e => rw [h1] at hr; cases hr
  | panic p => rw [h1] at hr; cases hr
  | outOfFuel => rw [h1] at hr; cases hr

theorem finishExpression_leavesOK (P : String → Prop) (r : Res (List Arg × Nat))
    (nodes : List Node) (e : Nat)
    (hr : ∀ b e, r = .ok (b, e) → Arg.leavesOKList P b)
    (h : finishExpression r = .ok (nodes, e)) : ∀ n ∈ nodes, Node.leavesOK P n := by
  unfold finishExpression at h
  cases r with
  | ok p =>
    simp only [Res.bind] at h
    cases h2 : foldAll p.1 with
    | ok b =>
      rw [h2] at h; cases h
      exact foldAll_leavesOK P p.1 _ (hr p.1 p.2 rfl) h2
    | error e => rw [h2] at h; cases h
    | panic p => rw [h2] at h; cases h
    | outOfFuel => rw [h2] at h; cases h
  | error e => cases h
  | panic p => cases h
  | outOfFuel => cases h

theorem variableNode_leavesOK (L : Float64Lib) (v : Variable) (node : Node)
    (h : variableNode L v = .ok node) : Node.leavesOK (isCanonical L) node := by
  unfold variableNode at h
  split_ifs at h with hT
  · cases hr : reformatFloat L v.V with
    | ok f =>
      rw [hr] at h; simp only [Res.bind] at h; cases h
      simp only [Node.leavesOK, Arg.leavesOKList, Arg.leavesOK, and_true]
      exact fun _ => ⟨f, rfl, fun _ => ⟨v.V, hr⟩⟩
    | error e => rw [hr] at h; cases h
    | panic p => rw [hr] at h; cases h
    | outOfFuel => rw [hr] at h; cases h
  · cases h
    simp only [Node.leavesOK, Arg.leavesOKList, Arg.leavesOK, and_true]
    exact fun _ => ⟨v.V, rfl, fun he => absurd he hT⟩

theorem isLeafTag_of_isFunction (value : String) (h : isFunction value = true) :
    isLeafTag value = false := by
  by_contra hl
  simp only [Bool.not_eq_false, isLeafTag, Bool.or_eq_true, beq_iff_eq] at hl
  rcases hl with (rfl | rfl) | rfl <;> exact absurd h (by decide)

/-- The structural loop keeps the leaf invariant of its buffer. -/
theorem parenLoop_leavesOK (L : Float64Lib) (tokens : List Token) (vars : List Variable)
    (fuel : Nat) :
    ∀ (pos : Nat) (buffer b : List Arg) (e : Nat),
      Arg.leavesOKList (isCanonical L) buffer →
      parenLoop L tokens vars fuel pos buffer = .ok (b, e) →
      Arg.leavesOKList (isCanonical L) b := by
  induction fuel with
  | zero =>
    intro pos buffer b e hbuf h
    rw [parenLoop] at h
    cases ht : tokens[pos]? with
    | none => rw [ht] at h; cases h; exact hbuf
    | some token => rw [ht] at h; cases h
  | succ fuel ih =>
    intro pos buffer b e hbuf h
    cases ht : tokens[pos]? with
    | none =>
      rw [parenLoop_end L tokens vars _ pos buffer ht] at h
      cases h; exact hbuf
    | some token =>
      have snoc : ∀ node : Node, Node.leavesOK (isCanonical L) node →
          Arg.leavesOKList (isCanonical L) (buffer ++ [.node node]) := by
        intro node hn
        exact (leavesOKList_append _ _ _).2
          ⟨hbuf, by simp only [Arg.leavesOKList, Arg.leavesOK, and_true]; exact hn⟩
      have nested : ∀ (start : Nat) (nodes : List Node) (endPos : Nat),
          finishExpression (parenLoop L tokens vars fuel start []) = .ok (nodes, endPos) →
          ∀ n ∈ nodes, Node.leavesOK (isCanonical L) n := by
        intro start nodes endPos hf
        exact finishExpression_leavesOK _ _ nodes endPos
          (fun b0 e0 hb0 => ih start [] b0 e0 (by simp [Arg.leavesOKList]) hb0) hf
      rw [parenLoop] at h
      simp only [ht] at h
      cases hty : tokenTypeName token with
      | none => rw [hty] at h; cases h
      | some tokenType =>
        rw [hty] at h
        dsimp only at h
        split_ifs at h with h1 h2 h3 h4 h5 h6 h7
        · exact ih _ _ b e hbuf h
        · cases h; exact hbuf
        · cases hf : finishExpression (parenLoop L tokens vars fuel (pos + 1) []) with
          | ok p =>
            obtain ⟨nodes, endPos⟩ := p
            rw [hf] at h
            refine ih _ _ b e ((leavesOKList_append _ _ _).2 ⟨hbuf, ?_⟩) h
            exact (leavesOKList_nodes _ nodes).2 (nested _ nodes endPos hf)
          | error e => rw [hf] at h; cases h
          | panic p => rw [hf] at h; cases h
          | outOfFuel => rw [hf] at h; cases h
        · cases hn : tokens[pos + 1]? with
          | none => rw [hn] at h; cases h
          | some next =>
            rw [hn] at h
            dsimp only at h
            split_ifs at h with hv
            cases hf : finishExpression (parenLoop L tokens vars fuel (pos + 2) []) with
            | ok p =>
              obtain ⟨nodes, endPos⟩ := p
              rw [hf] at h
              refine ih _ _ b e (snoc _ ?_) h
              simp only [Node.leavesOK]
              refine ⟨fun hl => ?_, (leavesOKList_nodes _ nodes).2 (nested _ nodes endPos hf)⟩
              rw [isLeafTag_of_isFunction _ h5] at hl; cases hl
            | error e => rw [hf] at h; cases h
            | panic p => rw [hf] at h; cases h
            | outOfFuel => rw [hf] at h; cases h
        · cases hl : lookupVariable token.Value vars with
          | none => rw [hl] at h; cases h
          | some v =>
            rw [hl] at h
            dsimp only at h
            cases hv : variableNode L v with
            | ok node =>
              rw [hv] at h
              exact ih _ _ b e (snoc node (variableNode_leavesOK L v node hv)) h
            | error e => rw [hv] at h; cases h
            | panic p => rw [hv] at h; cases h
            | outOfFuel => rw [hv] at h; cases h
        · cases hr : reformatFloat L token.Value with
          | ok f =>
            rw [hr] at h
            refine ih _ _ b e (snoc _ ?_) h
            simp only [Node.leavesOK, Arg.leavesOKList, Arg.leavesOK, and_true]
            exact fun _ => ⟨f, rfl, fun _ => ⟨token.Value, hr⟩⟩
          | error e => rw [hr] at h; cases h
          | panic p => rw [hr] at h; cases h
          | outOfFuel => rw [hr] at h; cases h
        · refine ih _ _ b e (snoc _ ?_) h
          simp only [Node.leavesOK, Arg.leavesOKList, Arg.leavesOK, and_true]
          exact fun _ => ⟨_, rfl, fun he => absurd he (by rw [h7]; decide)⟩
        · refine ih _ _ b e (snoc _ ?_) h
          simp only [Node.leavesOK, Arg.leavesOKList, Arg.leavesOK, and_true]
          exact fun _ => ⟨_, rfl, fun he => absurd he h6⟩

/-- Every tree returned by `parse` has the leaf invariant, with every NUMBER payload a result
of `reformatFloat`. -/
theorem parseTokens_leavesOK (L : Float64Lib) (tokens : List Token) (vars : List Variable)
    (n : Node) (h : parseTokens L tokens vars = .ok n) :
    Node.leavesOK (isCanonical L) n := by
  unfold parseTokens parseExpression at h
  cases hf : finishExpression (parenLoop L tokens vars tokens.length 0 []) with
  | ok p =>
    obtain ⟨nodes, endPos⟩ := p
    rw [hf] at h
    dsimp only at h
    have hall := finishExpression_leavesOK (isCanonical L) _ nodes endPos
      (fun b0 e0 hb0 => parenLoop_leavesOK L tokens vars tokens.length 0 [] b0 e0
        (by simp [Arg.leavesOKList]) hb0) hf
    split_ifs at h
    cases nodes with
    | nil => cases h
    | cons node rest => cases h; exact hall n (List.mem_cons_self _ _)
  | error e => rw [hf] at h; cases h
  | panic p => rw [hf] at h; cases h
  | outOfFuel => rw [hf] at h; cases h

/-! ### The text written by `%f` -/

theorem digitChar_digit (k : Nat) (hk : k < 10) :
    isDigitChar (Nat.digitChar k) = true ∧ digitVal (Nat.digitChar k) = k := by
  interval_cases k <;> exact ⟨by decide, by decide⟩

theorem isDigitChar_ne (c : Char) (h : isDigitChar c = true) :
    c ≠ '_' ∧ c ≠ '.' ∧ c ≠ '-' ∧ c ≠ '+' := by
  refine ⟨?_, ?_, ?_, ?_⟩ <;> (rintro rfl; revert h; decide)

theorem toDigitsCore_digits (fuel : Nat) : ∀ (n : Nat) (ds : List Char),
    (∀ c ∈ ds, isDigitChar c = true) →
    ∀ c ∈ Nat.toDigitsCore 10 fuel n ds, isDigitChar c = true := by
  induction fuel with
  | zero => intro n ds h; simpa [Nat.toDigitsCore] using h
  | succ fuel ih =>
    intro n ds h
    have hd : ∀ c ∈ Nat.digitChar (n % 10) :: ds, isDigitChar c = true := by
      intro c hc
      rcases List.mem_cons.mp hc with rfl | hc
      · exact (digitChar_digit _ (Nat.mod_lt _ (by decide))).1
      · exact h c hc
    simp only [Nat.toDigitsCore]
    split_ifs
    · exact hd
    · exact ih _ _ hd

theorem decVal_acc (ds : List Char) : ∀ acc : Nat,
    decVal ds acc = acc * 10 ^ ds.length + decVal ds 0 := by
  induction ds with
  | nil => intro acc; simp [decVal]
  | cons c cs ih =>
    intro acc
    simp only [decVal, List.length_cons, Nat.zero_mul, Nat.zero_add]
    rw [ih (acc * 10 + digitVal c), ih (digitVal c)]
    ring

theorem decVal_append (a b : List Char) (acc : Nat) :
    decVal (a ++ b) acc = decVal b (decVal a acc) := by
  induction a generalizing acc with
  | nil => rfl
  | cons c cs ih =>
    rw [List.cons_append, decVal, decVal, ih]

theorem toDigitsCore_val (fuel : Nat) : ∀ (n : Nat) (ds : List Char), n < fuel →
    decVal (Nat.toDigitsCore 10 fuel n ds) 0 = n * 10 ^ ds.length + decVal ds 0 := by
  induction fuel with
  | zero => intro n ds h; omega
  | succ fuel ih =>
    intro n ds h
    have hv := (digitChar_digit (n % 10) (Nat.mod_lt _ (by decide))).2
    simp only [Nat.toDigitsCore]
    split_ifs with h0
    · have hn : n % 10 = n := Nat.mod_eq_of_lt (by omega)
      simp only [decVal, Nat.zero_mul, Nat.zero_add]
      rw [decVal_acc, hv, hn]
    · rw [ih (n / 10) _ (by omega)]
      simp only [decVal, Nat.zero_mul, Nat.zero_add, List.length_cons]
      rw [decVal_acc ds, hv, pow_succ]
      have h10 := Nat.div_add_mod n 10
      calc n / 10 * (10 ^ ds.length * 10) + (n % 10 * 10 ^ ds.length + decVal ds 0)
          = (10 * (n / 10) + n % 10) * 10 ^ ds.length + decVal ds 0 := by ring
        _ = n * 10 ^ ds.length + decVal ds 0 := by rw [h10]

theorem toDigitsCore_ne_nil (fuel n : Nat) (ds : List Char) (h : 0 < fuel) :
    Nat.toDigitsCore 10 fuel n ds ≠ [] := by
  induction fuel generalizing n ds with
  | zero => omega
  | succ fuel ih =>
    simp only [Nat.toDigitsCore]
    split_ifs
    · simp
    · cases fuel with
      | zero => simp [Nat.toDigitsCore]
      | succ k => exact ih _ _ (by omega)

theorem toDigits_digits (n : Nat) : ∀ c ∈ Nat.toDigits 10 n, isDigitChar c = true :=
  toDigitsCore_digits (n + 1) n [] (by simp)

theorem toDigits_val (n : Nat) : decVal (Nat.toDigits 10 n) 0 = n := by
  simp [Nat.toDigits, toDigitsCore_val (n + 1) n [] (by omega), decVal]

theorem toDigits_ne_nil (n : Nat) : Nat.toDigits 10 n ≠ [] :=
  toDigitsCore_ne_nil (n + 1) n [] (by omega)

theorem toDigits_length_le (n : Nat) (h : n < 1000000) : (Nat.toDigits 10 n).length ≤ 6 :=
  Nat.toDigitsCore_length 10 (by decide) (n + 1) n 6 (by simpa using h) (by decide)

theorem pad6_toList (n : Nat) : (pad6 n).toList
    = List.replicate (6 - (Nat.toDigits 10 n).length) '0' ++ Nat.toDigits 10 n := rfl

theorem pad6_spec (n : Nat) (h : n < 1000000) :
    (pad6 n).toList.length = 6 ∧ (∀ c ∈ (pad6 n).toList, isDigitChar c = true)
      ∧ decVal (pad6 n).toList 0 = n := by
  have hl := toDigits_length_le n h
  rw [pad6_toList]
  refine ⟨?_, ?_, ?_⟩
  · simp only [List.length_append, List.length_replicate]; omega
  · intro c hc
    simp only [List.mem_append] at hc
    rcases hc with hc | hc
    · rw [(List.mem_replicate.mp hc).2]; decide
    · exact toDigits_digits n c hc
  · rw [decVal_append]
    have h0 : ∀ k acc, decVal (List.replicate k '0') acc = acc * 10 ^ k := by
      intro k
      induction k with
      | zero => intro acc; simp [decVal]
      | succ k ih =>
        intro acc
        rw [List.replicate_succ, decVal, ih]
        have : digitVal '0' = 0 := by decide
        rw [this, pow_succ]; ring
    rw [h0, Nat.zero_mul, toDigits_val]

theorem isDigitChar_cases (c : Char) (h : isDigitChar c = true) :
    c = '0' ∨ c = '1' ∨ c = '2' ∨ c = '3' ∨ c = '4' ∨ c = '5' ∨ c = '6' ∨ c = '7'
      ∨ c = '8' ∨ c = '9' := by
  simp only [isDigitChar, decide_eq_true_eq] at h
  have h1 : 48 ≤ c.toNat := h.1
  have h2 : c.toNat ≤ 57 := h.2
  have h3 : c = Char.ofNat c.toNat := (Char.ofNat_toNat c).symm
  generalize c.toNat = k at h1 h2 h3
  subst h3
  interval_cases k <;> decide

theorem goSprintf_f_fin (neg : Bool) (m : Nat) (e : Int) :
    goSprintf_f (.fin neg m e)
      = String.mk ((if neg then ['-'] else []) ++ fixedChars (millionths m e)) := by
  apply String.ext
  cases neg <;>
    simp [goSprintf_f, millionths, fixedChars, String.data_append]

theorem takeWhile_digits (l r : List Char) (h : ∀ c ∈ l, isDigitChar c = true) :
    (l ++ '.' :: r).takeWhile isDigitChar = l
      ∧ (l ++ '.' :: r).dropWhile isDigitChar = '.' :: r := by
  induction l with
  | nil => exact ⟨by rw [List.nil_append, List.takeWhile_cons]; rfl,
      by rw [List.nil_append, List.dropWhile_cons]; rfl⟩
  | cons c cs ih =>
    have hc := h c (List.mem_cons_self _ _)
    have ih2 := ih fun d hd => h d (List.mem_cons_of_mem _ hd)
    exact ⟨by rw [List.cons_append, List.takeWhile_cons, hc]; simp [ih2.1],
      by rw [List.cons_append, List.dropWhile_cons, hc]; simp [ih2.2]⟩

theorem fixedChars_head (r : Nat) :
    ∃ d ds, fixedChars r = d :: ds ∧ isDigitChar d = true := by
  unfold fixedChars
  cases h : Nat.toDigits 10 (r / 1000000) with
  | nil => exact absurd h (toDigits_ne_nil _)
  | cons d ds =>
    exact ⟨d, _, rfl, toDigits_digits (r / 1000000) d (by rw [h]; exact List.mem_cons_self _ _)⟩

theorem isFixed6_fixedChars (neg : Bool) (r : Nat) :
    isFixed6 (String.mk ((if neg then ['-'] else []) ++ fixedChars r)) = true := by
  have hp := pad6_spec (r % 1000000) (Nat.mod_lt _ (by decide))
  have ht := takeWhile_digits (Nat.toDigits 10 (r / 1000000)) (pad6 (r % 1000000)).toList
    (toDigits_digits _)
  have hbody : (if (String.mk ((if neg then ['-'] else []) ++ fixedChars r)).toList.head?
      = some '-' then (String.mk ((if neg then ['-'] else []) ++ fixedChars r)).toList.tail
      else (String.mk ((if neg then ['-'] else []) ++ fixedChars r)).toList) = fixedChars r := by
    cases neg
    · obtain ⟨d, ds, hd, hdig⟩ := fixedChars_head r
      have hne := (isDigitChar_ne d hdig).2.2.1
      simp [hd, hne]
    · simp
  unfold isFixed6
  simp only [hbody]
  unfold fixedChars
  rw [ht.1, ht.2]
  simp only [hp.1, Bool.and_eq_true, Bool.not_eq_true', List.isEmpty_eq_false,
    beq_self_eq_true, and_true, List.all_eq_true]
  exact ⟨toDigits_ne_nil _, hp.2.1⟩

theorem readMantissa_digits (ds : List Char) (h : ∀ c ∈ ds, isDigitChar c = true) :
    ∀ (rest : List Char) (st : Mant),
    readMantissa false (ds ++ rest) st
      = readMantissa false rest { st with
          sawdigits := st.sawdigits || !ds.isEmpty
          value := decVal ds st.value
          fracDigits := if st.sawdot then st.fracDigits + ds.length else st.fracDigits } := by
  induction ds with
  | nil => intro rest st; simp [decVal]
  | cons c cs ih =>
    intro rest st
    have hc := h c (List.mem_cons_self _ _)
    have hne := isDigitChar_ne c hc
    have hd : '0' ≤ c ∧ c ≤ '9' := by simpa [isDigitChar] using hc
    rw [List.cons_append, readMantissa]
    simp only [hne.1, hne.2.1, hd, if_false, if_true, and_self, Bool.false_eq_true]
    rw [ih fun d hd => h d (List.mem_cons_of_mem _ hd)]
    congr 1
    cases hs : st.sawdot <;> simp [decVal, Nat.add_assoc, Nat.add_comm 1]

theorem readMantissa_fixedChars (r : Nat) :
    readMantissa false (fixedChars r) {}
      = (⟨r, 6, true, true, false⟩, []) := by
  have hp := pad6_spec (r % 1000000) (Nat.mod_lt _ (by decide))
  unfold fixedChars
  rw [readMantissa_digits _ (toDigits_digits _), readMantissa]
  simp only [Char.reduceEq, if_false, if_true, Bool.false_eq_true]
  have := readMantissa_digits (pad6 (r % 1000000)).toList hp.2.1 [] 
    { value := decVal (Nat.toDigits 10 (r / 1000000)) 0, fracDigits := 0, sawdot := true,
      sawdigits := true, underscores := false }
  rw [List.append_nil] at this
  have hne : (Nat.toDigits 10 (r / 1000000)).isEmpty = false := by
    simpa using toDigits_ne_nil (r / 1000000)
  simp only [hne, Bool.not_false, Bool.or_true, Bool.false_or]
  rw [this, readMantissa]
  simp only [hp.1, if_true, Nat.zero_add, Bool.or_true]
  rw [decVal_acc, hp.1, hp.2.2, toDigits_val]
  have := Nat.div_add_mod r 1000000
  congr 2
  omega

theorem special_fixedChars (neg : Bool) (r : Nat) :
    special ((if neg then ['-'] else []) ++ fixedChars r) = none := by
  obtain ⟨d, ds, hd, hdig⟩ := fixedChars_head r
  rw [hd]
  have hcases := isDigitChar_cases d hdig
  cases neg
  · rcases hcases with h | h | h | h | h | h | h | h | h | h <;> subst h <;>
      simp [special]
  · rcases hcases with h | h | h | h | h | h | h | h | h | h <;> subst h <;>
      simp [special, commonPrefixLenIgnoreCase]

theorem lower_ne_x (c : Char) (h : isDigitChar c = true ∨ c = '.') : lower c ≠ 'x' := by
  rcases h with h | h
  · rcases isDigitChar_cases c h with h | h | h | h | h | h | h | h | h | h <;> subst h <;> decide
  · subst h; decide

theorem fixedChars_mem (r : Nat) (c : Char) (h : c ∈ fixedChars r) :
    isDigitChar c = true ∨ c = '.' := by
  have hp := pad6_spec (r % 1000000) (Nat.mod_lt _ (by decide))
  simp only [fixedChars, List.mem_append, List.mem_cons] at h
  rcases h with h | h | h
  · exact Or.inl (toDigits_digits _ c h)
  · exact Or.inr h
  · exact Or.inl (hp.2.1 c h)

theorem readFloat_fixedChars (neg : Bool) (r : Nat) :
    readFloat ((if neg then ['-'] else []) ++ fixedChars r) = some ⟨neg, false, r, 6, 0⟩ := by
  obtain ⟨d, ds, hd, hdig⟩ := fixedChars_head r
  have hm := readMantissa_fixedChars r
  have hmem := fixedChars_mem r
  have hne := isDigitChar_ne d hdig
  rw [hd] at hm hmem ⊢
  match ds, hm, hmem with
  | [], hm, _ =>
    cases neg
    · simp [readFloat, hne, hm]
    · simp [readFloat, hm]
  | [c1], hm, _ =>
    cases neg
    · simp [readFloat, hne, hm]
    · simp [readFloat, hm]
  | c1 :: c2 :: t, hm, hmem =>
    have h1 := lower_ne_x c1 (hmem c1 (by simp))
    cases neg
    · simp [readFloat, hne, hm, h1]
    · simp [readFloat, hm, h1]

theorem goParseFloat_fixedChars (neg : Bool) (r : Nat) :
    goParseFloat (String.mk ((if neg then ['-'] else []) ++ fixedChars r))
      = match roundToF64 neg r 1000000 with
        | some f => .ok f
        | none => .error (numErrorMsg (String.mk ((if neg then ['-'] else []) ++ fixedChars r))
            "value out of range") := by
  have hs := special_fixedChars neg r
  have hr := readFloat_fixedChars neg r
  unfold goParseFloat
  simp only [String.toList, hs, hr, ReadFloat.fraction]
  rfl

/-! ### Rounding to nearest, ties to even -/

theorem roundHalfEven_isRHE (n d : Nat) (hd : 0 < d) :
    IsRHE ((n : ℚ) / d) (roundHalfEven n d) := by
  have hdq : (0 : ℚ) < d := by exact_mod_cast hd
  have hn : (n : ℚ) = d * (n / d : Nat) + (n % d : Nat) := by
    exact_mod_cast (Nat.div_add_mod n d).symm
  have hx : (n : ℚ) / d = (n / d : Nat) + ((n % d : Nat) : ℚ) / d := by
    rw [hn]; field_simp; ring
  have hrem : ((n % d : Nat) : ℚ) < d := by exact_mod_cast Nat.mod_lt n hd
  have hrem0 : (0 : ℚ) ≤ ((n % d : Nat) : ℚ) / d := by positivity
  have hrem1 : ((n % d : Nat) : ℚ) / d < 1 := by rw [div_lt_one hdq]; exact hrem
  unfold roundHalfEven IsRHE
  simp only
  split_ifs with h
  · rcases h with h | ⟨h, hq⟩
    · left
      have h2 : (d : ℚ) < 2 * ((n % d : Nat) : ℚ) := by exact_mod_cast h
      have h3 : 1 / 2 < ((n % d : Nat) : ℚ) / d := by
        rw [lt_div_iff₀ hdq]; linarith
      rw [hx, Nat.cast_add, Nat.cast_one, abs_lt]
      constructor <;> linarith
    · right
      have h2 : 2 * ((n % d : Nat) : ℚ) = d := by exact_mod_cast h
      have h3 : ((n % d : Nat) : ℚ) / d = 1 / 2 := by
        rw [div_eq_iff hdq.ne']; linarith
      refine ⟨?_, by omega⟩
      rw [hx, h3, Nat.cast_add, Nat.cast_one]
      norm_num
  · push_neg at h
    have h1 : 2 * (n % d) ≤ d := h.1
    have h2 : 2 * ((n % d : Nat) : ℚ) ≤ d := by exact_mod_cast h1
    rcases Nat.lt_or_eq_of_le h1 with h3 | h3
    · left
      have h4 : 2 * ((n % d : Nat) : ℚ) < d := by exact_mod_cast h3
      have h5 : ((n % d : Nat) : ℚ) / d < 1 / 2 := by
        rw [div_lt_iff₀ hdq]; linarith
      rw [hx, abs_lt]
      constructor <;> linarith
    · right
      have h4 : 2 * ((n % d : Nat) : ℚ) = d := by exact_mod_cast h3
      have h5 : ((n % d : Nat) : ℚ) / d = 1 / 2 := by
        rw [div_eq_iff hdq.ne']; linarith
      have h6 := h.2 h3
      refine ⟨?_, by omega⟩
      rw [hx, h5]
      norm_num

theorem IsRHE.abs_le {x : ℚ} {r : Nat} (h : IsRHE x r) : |x - r| ≤ 1 / 2 := by
  rcases h with h | h
  · exact h.le
  · exact h.1.le

theorem IsRHE.nearest {x : ℚ} {r : Nat} (h : IsRHE x r) (j : Nat) : |x - r| ≤ |x - j| := by
  by_cases hj : j = r
  · rw [hj]
  · have h1 : (1 : ℚ) ≤ |(r : ℚ) - j| := by
      have : (1 : ℤ) ≤ |(r : ℤ) - j| := by
        have : (r : ℤ) - j ≠ 0 := by omega
        exact Int.one_le_abs this
      have h2 : ((1 : ℤ) : ℚ) ≤ ((|(r : ℤ) - j| : ℤ) : ℚ) := by exact_mod_cast this
      simpa using h2
    have h2 : |(r : ℚ) - j| ≤ |x - r| + |x - j| := by
      have : (r : ℚ) - j = (x - j) - (x - r) := by ring
      rw [this]
      have := abs_sub (x - j) (x - r)
      linarith
    have := h.abs_le
    linarith

theorem IsRHE.unique {x : ℚ} {r s : Nat} (h : IsRHE x r) (hs : IsRHE x s) : r = s := by
  by_contra hne
  have h1 : (1 : ℚ) ≤ |(r : ℚ) - s| := by
    have : (1 : ℤ) ≤ |(r : ℤ) - s| := by
      have : (r : ℤ) - s ≠ 0 := by omega
      exact Int.one_le_abs this
    have h2 : ((1 : ℤ) : ℚ) ≤ ((|(r : ℤ) - s| : ℤ) : ℚ) := by exact_mod_cast this
    simpa using h2
  have h2 : |(r : ℚ) - s| ≤ |x - r| + |x - s| := by
    have : (r : ℚ) - s = (x - s) - (x - r) := by ring
    rw [this]
    have := abs_sub (x - s) (x - r)
    linarith
  have hr := h.abs_le
  have hsl := hs.abs_le
  have er : |x - r| = 1 / 2 := by linarith
  have es : |x - s| = 1 / 2 := by linarith
  have evr : r % 2 = 0 := by
    rcases h with h | h
    · linarith
    · exact h.2
  have evs : s % 2 = 0 := by
    rcases hs with h | h
    · linarith
    · exact h.2
  -- the two integers are at distance one and both even
  have h3 : |(r : ℚ) - s| ≤ 1 := by linarith
  have h4 : |(r : ℚ) - s| = 1 := le_antisymm h3 h1
  have h5 : |(r : ℤ) - s| = 1 := by
    have : ((|(r : ℤ) - s| : ℤ) : ℚ) = 1 := by simpa using h4
    exact_mod_cast this
  rcases abs_eq (by norm_num : (0 : ℤ) ≤ 1) |>.mp h5 with h6 | h6 <;> omega

theorem IsRHE.of_le {x y : ℚ} {r : Nat} (h : IsRHE x r) (hy : |y - r| ≤ |x - r|) :
    IsRHE y r := by
  rcases h with h | h
  · exact Or.inl (lt_of_le_of_lt hy h)
  · rcases lt_or_eq_of_le (hy.trans h.1.le) with h1 | h1
    · exact Or.inl h1
    · exact Or.inr ⟨h1, h.2⟩

theorem isRHE_natCast (k : Nat) : IsRHE (k : ℚ) k := by
  left; simp

/-! ### The float64 nearest to a fraction -/

theorem log2Loop_spec (fuel : Nat) : ∀ n : Nat, n ≤ fuel → 0 < n →
    2 ^ log2Loop fuel n ≤ n ∧ n < 2 ^ (log2Loop fuel n + 1) := by
  induction fuel with
  | zero => intro n h h0; omega
  | succ fuel ih =>
    intro n h h0
    rw [log2Loop]
    split_ifs with h2
    · simp; omega
    · have := ih (n / 2) (by omega) (by omega)
      rw [pow_succ, pow_succ 2 (log2Loop fuel (n / 2) + 1)]
      omega

theorem log2_spec (n : Nat) (h : 0 < n) : 2 ^ log2 n ≤ n ∧ n < 2 ^ (log2 n + 1) :=
  log2Loop_spec n n (le_refl _) h

theorem zpow_toNat (q : Int) (h : 0 ≤ q) : ((2 ^ q.toNat : Nat) : ℚ) = (2 : ℚ) ^ q := by
  rw [Nat.cast_pow, Nat.cast_ofNat, ← zpow_natCast, Int.toNat_of_nonneg h]

theorem zpow_neg_toNat (q : Int) (h : q ≤ 0) :
    ((2 ^ (-q).toNat : Nat) : ℚ) = ((2 : ℚ) ^ q)⁻¹ := by
  rw [zpow_toNat (-q) (by omega), zpow_neg]

/-- The binade of a positive fraction found by `roundToF64`. -/
theorem binade_spec (num den : Nat) (hn : 0 < num) (hd : 0 < den) :
    let lg : Int := (log2 num : Int) - (log2 den : Int)
    let ge : Bool := if 0 ≤ lg then decide (den * 2 ^ lg.toNat ≤ num)
      else decide (den ≤ num * 2 ^ (-lg).toNat)
    let ex : Int := if ge then lg else lg - 1
    (2 : ℚ) ^ ex ≤ (num : ℚ) / den ∧ (num : ℚ) / den < (2 : ℚ) ^ (ex + 1) := by
  intro lg ge ex
  have hnq : (0 : ℚ) < num := by exact_mod_cast hn
  have hdq : (0 : ℚ) < den := by exact_mod_cast hd
  have h2 : (0 : ℚ) < 2 := by norm_num
  obtain ⟨hn1, hn2⟩ := log2_spec num hn
  obtain ⟨hd1, hd2⟩ := log2_spec den hd
  have hn1q : (2 : ℚ) ^ (log2 num : Int) ≤ num := by
    rw [zpow_natCast]; exact_mod_cast hn1
  have hn2q : (num : ℚ) < (2 : ℚ) ^ ((log2 num : Int) + 1) := by
    rw [← Nat.cast_succ, zpow_natCast]; exact_mod_cast hn2
  have hd1q : (2 : ℚ) ^ (log2 den : Int) ≤ den := by
    rw [zpow_natCast]; exact_mod_cast hd1
  have hd2q : (den : ℚ) < (2 : ℚ) ^ ((log2 den : Int) + 1) := by
    rw [← Nat.cast_succ, zpow_natCast]; exact_mod_cast hd2
  have hlow : (2 : ℚ) ^ (lg - 1) < (num : ℚ) / den := by
    rw [lt_div_iff₀ hdq]
    have e1 : (2 : ℚ) ^ (lg - 1) * (2 : ℚ) ^ ((log2 den : Int) + 1) = (2 : ℚ) ^ (log2 num : Int) := by
      rw [← zpow_add₀ (by norm_num : (2 : ℚ) ≠ 0)]; congr 1; simp only [lg]; ring
    have hp : (0 : ℚ) < (2 : ℚ) ^ (lg - 1) := zpow_pos h2 _
    calc (2 : ℚ) ^ (lg - 1) * den < (2 : ℚ) ^ (lg - 1) * (2 : ℚ) ^ ((log2 den : Int) + 1) :=
          mul_lt_mul_of_pos_left hd2q hp
      _ = (2 : ℚ) ^ (log2 num : Int) := e1
      _ ≤ num := hn1q
  have hhigh : (num : ℚ) / den < (2 : ℚ) ^ (lg + 1) := by
    rw [div_lt_iff₀ hdq]
    have e1 : (2 : ℚ) ^ (lg + 1) * (2 : ℚ) ^ (log2 den : Int) = (2 : ℚ) ^ ((log2 num : Int) + 1) := by
      rw [← zpow_add₀ (by norm_num : (2 : ℚ) ≠ 0)]; congr 1; simp only [lg]; ring
    have hp : (0 : ℚ) < (2 : ℚ) ^ (lg + 1) := zpow_pos h2 _
    calc (num : ℚ) < (2 : ℚ) ^ ((log2 num : Int) + 1) := hn2q
      _ = (2 : ℚ) ^ (lg + 1) * (2 : ℚ) ^ (log2 den : Int) := e1.symm
      _ ≤ (2 : ℚ) ^ (lg + 1) * den := mul_le_mul_of_nonneg_left hd1q hp.le
  have hge : ge = true ↔ (2 : ℚ) ^ lg ≤ (num : ℚ) / den := by
    rw [le_div_iff₀ hdq]
    simp only [ge]
    split_ifs with h0
    · rw [decide_eq_true_eq, ← zpow_toNat lg h0, mul_comm]
      exact ⟨fun h => by exact_mod_cast h, fun h => by exact_mod_cast h⟩
    · rw [decide_eq_true_eq]
      have hp : (0 : ℚ) < (2 : ℚ) ^ lg := zpow_pos h2 _
      have e : ((num * 2 ^ (-lg).toNat : Nat) : ℚ) = num * ((2 : ℚ) ^ lg)⁻¹ := by
        rw [Nat.cast_mul, zpow_neg_toNat lg (by omega)]
      constructor
      · intro h
        have h' : (den : ℚ) ≤ num * ((2 : ℚ) ^ lg)⁻¹ := by rw [← e]; exact_mod_cast h
        rw [← div_eq_mul_inv, le_div_iff₀ hp] at h'
        linarith
      · intro h
        have h' : (den : ℚ) ≤ num * ((2 : ℚ) ^ lg)⁻¹ := by
          rw [← div_eq_mul_inv, le_div_iff₀ hp]; linarith
        rw [← e] at h'
        exact_mod_cast h'
  simp only [ex]
  cases hg : ge
  · have : ¬ (2 : ℚ) ^ lg ≤ (num : ℚ) / den := by rw [← hge, hg]; simp
    simp only [Bool.false_eq_true, if_false, sub_add_cancel]
    exact ⟨hlow.le, lt_of_not_le this⟩
  · simp only [if_true]
    exact ⟨hge.mp hg, hhigh⟩

/-- What `roundToF64` computes for a positive fraction: the multiple `m * 2 ^ q` of the grid of
its binade, nearest to the fraction with ties to even. -/
theorem roundToF64_spec (neg : Bool) (num den : Nat) (hn : 0 < num) (hd : 0 < den) :
    ∃ (m : Nat) (q : Int),
      roundToF64 neg num den
        = (if 0 ≤ q ∧ 2 ^ 1024 ≤ m * 2 ^ q.toNat then none else some (.fin neg m q))
      ∧ -1074 ≤ q
      ∧ IsRHE ((num : ℚ) / den / (2 : ℚ) ^ q) m
      ∧ (num : ℚ) / den < (2 : ℚ) ^ (q + 53)
      ∧ (-1074 < q → (2 : ℚ) ^ (q + 52) ≤ (num : ℚ) / den) := by
  have hb := binade_spec num den hn hd
  have hdq : (0 : ℚ) < den := by exact_mod_cast hd
  have h2 : (0 : ℚ) < 2 := by norm_num
  unfold roundToF64
  rw [if_neg hn.ne']
  extract_lets lg1 ge1 ex1 at hb
  obtain ⟨q, hq⟩ : ∃ q : Int, q = max ex1 (-1022) - 52 := ⟨_, rfl⟩
  refine ⟨if 0 ≤ q then roundHalfEven num (den * 2 ^ q.toNat)
    else roundHalfEven (num * 2 ^ (-q).toNat) den, q, by rw [hq], by omega, ?_, ?_, ?_⟩
  · split_ifs with h0
    · have := roundHalfEven_isRHE num (den * 2 ^ q.toNat) (by positivity)
      rw [Nat.cast_mul, zpow_toNat q h0, ← div_div] at this
      exact this
    · have := roundHalfEven_isRHE (num * 2 ^ (-q).toNat) den hd
      rw [Nat.cast_mul, zpow_neg_toNat q (by omega)] at this
      have e : (num : ℚ) * ((2 : ℚ) ^ q)⁻¹ / den = (num : ℚ) / den / (2 : ℚ) ^ q := by
        rw [div_div, ← div_eq_mul_inv, div_div, mul_comm]
      rw [e] at this
      exact this
  · have h1 : ex1 + 1 ≤ q + 53 := by omega
    exact lt_of_lt_of_le hb.2 (zpow_le_zpow_right₀ (by norm_num) h1)
  · intro hq1
    have h1 : q + 52 = ex1 := by omega
    rw [h1]; exact hb.1

theorem grid_scale (x : ℚ) (q : Int) (j : ℚ) :
    |x - j * (2 : ℚ) ^ q| = |x / (2 : ℚ) ^ q - j| * (2 : ℚ) ^ q := by
  have hp : (0 : ℚ) < (2 : ℚ) ^ q := zpow_pos (by norm_num) _
  rw [← abs_of_pos hp, ← abs_mul, abs_of_pos hp, sub_mul, div_mul_cancel₀ _ hp.ne']

/-- The multiple of the grid chosen by `roundToF64` is at least as near to the fraction as any
value of the float64 format. -/
theorem grid_nearest (x : ℚ) (m : Nat) (q : Int) (hr : IsRHE (x / (2 : ℚ) ^ q) m)
    (hlow : -1074 < q → (2 : ℚ) ^ (q + 52) ≤ x) (k : Nat) (p : Int) (hk : k ≤ 2 ^ 53)
    (hp : -1074 ≤ p) :
    |x - m * (2 : ℚ) ^ q| ≤ |x - k * (2 : ℚ) ^ p| := by
  have h2 : (0 : ℚ) < 2 := by norm_num
  have hq0 : (0 : ℚ) < (2 : ℚ) ^ q := zpow_pos h2 _
  by_cases hpq : q ≤ p
  · have e : (k : ℚ) * (2 : ℚ) ^ p = ((k * 2 ^ (p - q).toNat : Nat) : ℚ) * (2 : ℚ) ^ q := by
      rw [Nat.cast_mul, zpow_toNat (p - q) (by omega), mul_assoc,
        ← zpow_add₀ (by norm_num : (2 : ℚ) ≠ 0)]
      congr 2; ring
    rw [e, grid_scale x q, grid_scale x q]
    exact mul_le_mul_of_nonneg_right (hr.nearest _) hq0.le
  · have hq1 : -1074 < q := by omega
    have hx := hlow hq1
    have hkq : (k : ℚ) ≤ (2 : ℚ) ^ (53 : Int) := by
      rw [zpow_ofNat]; exact_mod_cast hk
    have hg : (k : ℚ) * (2 : ℚ) ^ p ≤ (2 : ℚ) ^ (q + 52) := by
      have h1 : (2 : ℚ) ^ p ≤ (2 : ℚ) ^ (q - 1) := zpow_le_zpow_right₀ (by norm_num) (by omega)
      have h3 : (2 : ℚ) ^ (53 : Int) * (2 : ℚ) ^ (q - 1) = (2 : ℚ) ^ (q + 52) := by
        rw [← zpow_add₀ (by norm_num : (2 : ℚ) ≠ 0)]; congr 1; ring
      calc (k : ℚ) * (2 : ℚ) ^ p ≤ (2 : ℚ) ^ (53 : Int) * (2 : ℚ) ^ (q - 1) :=
            mul_le_mul hkq h1 (zpow_pos h2 _).le (zpow_pos h2 _).le
        _ = (2 : ℚ) ^ (q + 52) := h3
    have e : (2 : ℚ) ^ (q + 52) = ((2 ^ 52 : Nat) : ℚ) * (2 : ℚ) ^ q := by
      rw [zpow_add₀ (by norm_num : (2 : ℚ) ≠ 0), mul_comm]; norm_num
    have h4 : |x - m * (2 : ℚ) ^ q| ≤ |x - (2 : ℚ) ^ (q + 52)| := by
      rw [e, grid_scale x q, grid_scale x q]
      exact mul_le_mul_of_nonneg_right (hr.nearest _) hq0.le
    rw [abs_of_nonneg (by linarith : (0 : ℚ) ≤ x - (2 : ℚ) ^ (q + 52))] at h4
    rw [abs_of_nonneg (by linarith : (0 : ℚ) ≤ x - k * (2 : ℚ) ^ p)]
    linarith

theorem isRHE_le_of_lt (x : ℚ) (m b : Nat) (hr : IsRHE x m) (hx : x < b) : m ≤ b := by
  by_contra h
  have h1 : (b : ℚ) + 1 ≤ m := by exact_mod_cast (by omega : b + 1 ≤ m)
  have := hr.abs_le
  rw [abs_le] at this
  linarith [this.1]

/-- Every result of `roundToF64` is a value of the float64 format, with the sign asked for. -/
theorem roundToF64_representable (neg : Bool) (num den : Nat) (hd : 0 < den) (f : F64)
    (h : roundToF64 neg num den = some f) :
    f.representable ∧ ∃ m e, f = .fin neg m e := by
  have h2 : (0 : ℚ) < 2 := by norm_num
  rcases Nat.eq_zero_or_pos num with h0 | h0
  · subst h0
    simp only [roundToF64, if_true, Option.some.injEq] at h
    subst h
    refine ⟨⟨by norm_num, by norm_num, ?_⟩, 0, 0, rfl⟩
    simp only [Nat.cast_zero, zero_mul]
    exact zpow_pos h2 _
  · obtain ⟨m, q, hrt, hq, hr, hhi, -⟩ := roundToF64_spec neg num den h0 hd
    rw [hrt] at h
    split_ifs at h with hov
    cases h
    have hq0 : (0 : ℚ) < (2 : ℚ) ^ q := zpow_pos h2 _
    have hm : m ≤ 2 ^ 53 := by
      apply isRHE_le_of_lt _ m (2 ^ 53) hr
      rw [div_lt_iff₀ hq0]
      have : (2 : ℚ) ^ (q + 53) = ((2 ^ 53 : Nat) : ℚ) * (2 : ℚ) ^ q := by
        rw [zpow_add₀ (by norm_num : (2 : ℚ) ≠ 0), mul_comm]; norm_num
      rw [← this]; exact hhi
    refine ⟨⟨hm, hq, ?_⟩, m, q, rfl⟩
    by_cases hq1 : 0 ≤ q
    · have hlt : m * 2 ^ q.toNat < 2 ^ 1024 := by
        by_contra hc
        exact hov ⟨hq1, Nat.le_of_not_lt hc⟩
      have : ((m * 2 ^ q.toNat : Nat) : ℚ) < ((2 ^ 1024 : Nat) : ℚ) := Nat.cast_lt.mpr hlt
      rw [Nat.cast_mul, zpow_toNat q hq1, Nat.cast_pow, Nat.cast_ofNat] at this
      rw [zpow_ofNat]; exact this
    · have hmq : (m : ℚ) ≤ (2 : ℚ) ^ (53 : Int) := by
        rw [zpow_ofNat]; exact_mod_cast hm
      have h1 : (2 : ℚ) ^ q ≤ (2 : ℚ) ^ (0 : Int) := zpow_le_zpow_right₀ (by norm_num) (by omega)
      have h3 : (2 : ℚ) ^ (53 : Int) * (2 : ℚ) ^ (0 : Int) < (2 : ℚ) ^ (1024 : Int) := by
        rw [zpow_zero, mul_one]
        exact zpow_lt_zpow_right₀ (by norm_num) (by norm_num)
      calc (m : ℚ) * (2 : ℚ) ^ q ≤ (2 : ℚ) ^ (53 : Int) * (2 : ℚ) ^ (0 : Int) :=
            mul_le_mul hmq h1 hq0.le (zpow_pos h2 _).le
        _ < (2 : ℚ) ^ (1024 : Int) := h3

theorem millionths_isRHE (m : Nat) (e : Int) :
    IsRHE ((m : ℚ) * (2 : ℚ) ^ e * 1000000) (millionths m e) := by
  unfold millionths
  split_ifs with h
  · have : (m : ℚ) * (2 : ℚ) ^ e * 1000000 = ((m * 2 ^ e.toNat * 1000000 : Nat) : ℚ) := by
      rw [Nat.cast_mul, Nat.cast_mul, zpow_toNat e h]; norm_num
    rw [this]
    exact isRHE_natCast _
  · have := roundHalfEven_isRHE (m * 1000000) (2 ^ (-e).toNat) (by positivity)
    rw [zpow_neg_toNat e (by omega), Nat.cast_mul, div_inv_eq_mul] at this
    have e2 : (m : ℚ) * (2 : ℚ) ^ e * 1000000 = (m : ℚ) * ((1000000 : Nat) : ℚ) * (2 : ℚ) ^ e := by
      push_cast; ring
    rw [e2]; exact this

/-- The text that `%f` writes for a value of the float64 format is read back by `ParseFloat`
as a value for which `%f` writes the same text. -/
theorem reformat_fin (neg : Bool) (m : Nat) (e : Int)
    (hrep : (F64.fin neg m e).representable) :
    ∃ f, goParseFloat (goSprintf_f (.fin neg m e)) = .ok f
      ∧ goSprintf_f f = goSprintf_f (.fin neg m e) := by
  have h2 : (0 : ℚ) < 2 := by norm_num
  obtain ⟨hm, he, hlt⟩ := hrep
  have hC := millionths_isRHE m e
  rw [goSprintf_f_fin, goParseFloat_fixedChars]
  rcases Nat.eq_zero_or_pos (millionths m e) with h0 | h0
  · rw [h0]
    refine ⟨.fin neg 0 0, by simp [roundToF64], ?_⟩
    rw [goSprintf_f_fin]
    have : millionths 0 0 = 0 := by simp [millionths]
    rw [this]
  · obtain ⟨m1, q1, hrt, hq, hr, -, hlow⟩ :=
      roundToF64_spec neg (millionths m e) 1000000 h0 (by norm_num)
    have hnear := grid_nearest _ m1 q1 hr hlow m e hm he
    have hscale : ∀ y : ℚ, |y * 1000000 - (millionths m e : ℚ)|
        = |((millionths m e : Nat) : ℚ) / ((1000000 : Nat) : ℚ) - y| * 1000000 := by
      intro y
      have : y * 1000000 - (millionths m e : ℚ)
          = -((((millionths m e : Nat) : ℚ) / ((1000000 : Nat) : ℚ) - y) * 1000000) := by
        push_cast; field_simp; ring
      rw [this, abs_neg, abs_mul, abs_of_pos (by norm_num : (0 : ℚ) < 1000000)]
    have hC1 : IsRHE ((m1 : ℚ) * (2 : ℚ) ^ q1 * 1000000) (millionths m e) := by
      apply hC.of_le
      rw [hscale, hscale]
      exact mul_le_mul_of_nonneg_right hnear (by norm_num)
    have hmil : millionths m1 q1 = millionths m e := (millionths_isRHE m1 q1).unique hC1
    have hno : ¬ (0 ≤ q1 ∧ 2 ^ 1024 ≤ m1 * 2 ^ q1.toNat) := by
      rintro ⟨hq0, hov⟩
      have hF1 : (2 : ℚ) ^ (1024 : Int) ≤ (m1 : ℚ) * (2 : ℚ) ^ q1 := by
        have : ((2 ^ 1024 : Nat) : ℚ) ≤ ((m1 * 2 ^ q1.toNat : Nat) : ℚ) := Nat.cast_le.mpr hov
        rw [Nat.cast_mul, zpow_toNat q1 hq0, Nat.cast_pow, Nat.cast_ofNat] at this
        rw [zpow_ofNat]; exact this
      have ha := hC.abs_le
      have hb := hC1.abs_le
      rw [abs_le] at ha hb
      have hdiff : (m1 : ℚ) * (2 : ℚ) ^ q1 - (m : ℚ) * (2 : ℚ) ^ e < 1 := by linarith [ha.1, hb.2]
      by_cases he0 : 0 ≤ e
      · have hN : m * 2 ^ e.toNat < m1 * 2 ^ q1.toNat := by
          have : ((m * 2 ^ e.toNat : Nat) : ℚ) < ((m1 * 2 ^ q1.toNat : Nat) : ℚ) := by
            rw [Nat.cast_mul, Nat.cast_mul, zpow_toNat e he0, zpow_toNat q1 hq0]
            linarith
          exact_mod_cast this
        have : ((m * 2 ^ e.toNat : Nat) : ℚ) + 1 ≤ ((m1 * 2 ^ q1.toNat : Nat) : ℚ) := by
          exact_mod_cast hN
        rw [Nat.cast_mul, Nat.cast_mul, zpow_toNat e he0, zpow_toNat q1 hq0] at this
        linarith
      · have hmq : (m : ℚ) ≤ (2 : ℚ) ^ (53 : Int) := by
          rw [zpow_ofNat]; exact_mod_cast hm
        have h1 : (2 : ℚ) ^ e ≤ (2 : ℚ) ^ (0 : Int) :=
          zpow_le_zpow_right₀ (by norm_num) (by omega)
        have hF : (m : ℚ) * (2 : ℚ) ^ e ≤ (2 : ℚ) ^ (53 : Int) := by
          calc (m : ℚ) * (2 : ℚ) ^ e ≤ (2 : ℚ) ^ (53 : Int) * (2 : ℚ) ^ (0 : Int) :=
                mul_le_mul hmq h1 (zpow_pos h2 _).le (zpow_pos h2 _).le
            _ = (2 : ℚ) ^ (53 : Int) := by rw [zpow_zero, mul_one]
        have h54 : (2 : ℚ) ^ (54 : Int) ≤ (2 : ℚ) ^ (1024 : Int) :=
          zpow_le_zpow_right₀ (by norm_num) (by norm_num)
        have h53 : (2 : ℚ) ^ (54 : Int) = 2 * (2 : ℚ) ^ (53 : Int) := by
          rw [show (54 : Int) = 1 + 53 by norm_num, zpow_add₀ (by norm_num : (2 : ℚ) ≠ 0),
            zpow_one]
        have h1le : (1 : ℚ) ≤ (2 : ℚ) ^ (53 : Int) := one_le_zpow₀ (by norm_num) (by norm_num)
        linarith
    rw [hrt, if_neg hno]
    refine ⟨.fin neg m1 q1, rfl, ?_⟩
    rw [goSprintf_f_fin, hmil]

theorem special_value (l : List Char) (g : F64) (n : Nat) (h : special l = some (g, n)) :
    g = .nan ∨ ∃ b, g = .inf b := by
  unfold special at h
  cases l with
  | nil => cases h
  | cons c t =>
    simp only at h
    split_ifs at h <;> cases h <;> first | exact Or.inr ⟨_, rfl⟩ | exact Or.inl rfl

/-- Every value accepted by `ParseFloat` is a value of the float64 format. -/
theorem goParseFloat_representable (s : String) (f : F64) (h : goParseFloat s = .ok f) :
    f.representable := by
  unfold goParseFloat at h
  cases hs : special s.toList with
  | some p =>
    obtain ⟨g, n⟩ := p
    rw [hs] at h
    simp only at h
    split_ifs at h
    cases h
    rcases special_value _ _ _ hs with rfl | ⟨b, rfl⟩ <;> simp [F64.representable]
  | none =>
    rw [hs] at h
    simp only at h
    cases hr : readFloat s.toList with
    | none => rw [hr] at h; cases h
    | some r =>
      rw [hr] at h
      simp only at h
      cases hf : roundToF64 r.neg r.fraction.1 r.fraction.2 with
      | none => rw [hf] at h; cases h
      | some g =>
        rw [hf] at h
        cases h
        have hden : 0 < r.fraction.2 := by
          simp only [ReadFloat.fraction]
          split_ifs <;> simp
        exact (roundToF64_representable _ _ _ hden _ hf).1

/-! ### The sign of a number text -/

theorem underscoreOK_neg (c : Char) (t : List Char) (h1 : c ≠ '+') (h2 : c ≠ '-') :
    underscoreOK ('-' :: c :: t) = underscoreOK (c :: t) := by
  simp [underscoreOK, h1, h2]

/-- The part of `readFloat` after the mantissa loop uses the sign only in its result. -/
theorem readFloat_sign_aux (neg hex u : Bool) (p : Mant × List Char) :
    (if ¬ p.1.sawdigits then none
    else
      let finish (exp : Int) (us : Bool) (rest : List Char) : Option ReadFloat :=
        if rest ≠ [] then none
        else if us ∧ ¬ u then none
        else some ⟨neg, hex, p.1.value, p.1.fracDigits, exp⟩
      match p.2 with
      | e :: rest1 =>
        if lower e = (if hex then 'p' else 'e') then
          match rest1 with
          | [] => none
          | sg :: rest2 =>
            let esign : Int := if sg = '-' then -1 else 1
            let ds := if sg = '+' ∨ sg = '-' then rest2 else rest1
            match ds with
            | [] => none
            | d :: _ =>
              if '0' ≤ d ∧ d ≤ '9' then
                let (ev, us, rest3) := readExpDigits ds 0 p.1.underscores
                finish (esign * ev) us rest3
              else none
        else if hex then none
        else finish 0 p.1.underscores p.2
      | [] => if hex then none else finish 0 p.1.underscores [])
    = Option.map (fun r : ReadFloat => { r with neg := neg })
    (if ¬ p.1.sawdigits then none
    else
      let finish (exp : Int) (us : Bool) (rest : List Char) : Option ReadFloat :=
        if rest ≠ [] then none
        else if us ∧ ¬ u then none
        else some ⟨false, hex, p.1.value, p.1.fracDigits, exp⟩
      match p.2 with
      | e :: rest1 =>
        if lower e = (if hex then 'p' else 'e') then
          match rest1 with
          | [] => none
          | sg :: rest2 =>
            let esign : Int := if sg = '-' then -1 else 1
            let ds := if sg = '+' ∨ sg = '-' then rest2 else rest1
            match ds with
            | [] => none
            | d :: _ =>
              if '0' ≤ d ∧ d ≤ '9' then
                let (ev, us, rest3) := readExpDigits ds 0 p.1.underscores
                finish (esign * ev) us rest3
              else none
        else if hex then none
        else finish 0 p.1.underscores p.2
      | [] => if hex then none else finish 0 p.1.underscores []) := by
  obtain ⟨st, rest⟩ := p
  simp only
  cases rest with
  | nil => simp only; split_ifs <;> rfl
  | cons e rest1 =>
    cases rest1 with
    | nil => simp only; split_ifs <;> rfl
    | cons sg rest2 =>
      simp only
      generalize (if sg = '+' ∨ sg = '-' then rest2 else sg :: rest2) = ds
      cases ds with
      | nil => simp only; split_ifs <;> rfl
      | cons d ds2 => simp only; split_ifs <;> rfl

/-- A minus sign before a text without sign changes only the sign that `readFloat` reads. -/
theorem readFloat_neg (c : Char) (t : List Char) (h1 : c ≠ '+') (h2 : c ≠ '-') :
    readFloat ('-' :: c :: t)
      = (readFloat (c :: t)).map fun r => { r with neg := true } := by
  have hu := underscoreOK_neg c t h1 h2
  have key : ∀ hex : Bool, _ := fun hex => readFloat_sign_aux true hex (underscoreOK (c :: t))
    (readMantissa hex (if hex then (c :: t).drop 2 else c :: t) {})
  match t, hu, key with
  | [], hu, key =>
    refine Eq.trans ?_ (Eq.trans (key false) ?_)
    · simp only [readFloat, hu, or_true, if_true, decide_True]
    · simp only [readFloat, h1, h2, or_self, if_false, decide_False]
  | [c1], hu, key =>
    refine Eq.trans ?_ (Eq.trans (key false) ?_)
    · simp only [readFloat, hu, or_true, if_true, decide_True]
    · simp only [readFloat, h1, h2, or_self, if_false, decide_False]
  | c1 :: c2 :: t2, hu, key =>
    refine Eq.trans ?_ (Eq.trans (key (decide (c = '0' ∧ lower c1 = 'x'))) ?_)
    · simp only [readFloat, hu, or_true, if_true, decide_True]
    · simp only [readFloat, h1, h2, or_self, if_false, decide_False]

/-- The sign read from a text that does not begin with a minus sign. -/
theorem readFloat_pos (c : Char) (t : List Char) (h1 : c ≠ '+') (h2 : c ≠ '-') (r : ReadFloat)
    (h : readFloat (c :: t) = some r) : r.neg = false := by
  have key : ∀ hex : Bool, _ := fun hex => readFloat_sign_aux false hex (underscoreOK (c :: t))
    (readMantissa hex (if hex then (c :: t).drop 2 else c :: t) {})
  have hself : readFloat (c :: t)
      = (readFloat (c :: t)).map fun r => { r with neg := false } := by
    match t, key with
    | [], key =>
      refine Eq.trans ?_ (Eq.trans (key false) ?_)
      · simp only [readFloat, h1, h2, or_self, if_false, decide_False]
      · simp only [readFloat, h1, h2, or_self, if_false, decide_False]
    | [c1], key =>
      refine Eq.trans ?_ (Eq.trans (key false) ?_)
      · simp only [readFloat, h1, h2, or_self, if_false, decide_False]
      · simp only [readFloat, h1, h2, or_self, if_false, decide_False]
    | c1 :: c2 :: t2, key =>
      refine Eq.trans ?_ (Eq.trans (key (decide (c = '0' ∧ lower c1 = 'x'))) ?_)
      · simp only [readFloat, h1, h2, or_self, if_false, decide_False]
      · simp only [readFloat, h1, h2, or_self, if_false, decide_False]
  rw [h] at hself
  simp only [Option.map_some', Option.some.injEq] at hself
  rw [hself]

theorem roundToF64_sign (neg : Bool) (num den : Nat) :
    roundToF64 neg num den
      = (roundToF64 false num den).map fun f => match f with
        | .fin _ m e => .fin neg m e
        | g => g := by
  unfold roundToF64
  simp only
  split_ifs <;> rfl

theorem commonPrefix_infinity_zero (c : Char) (t : List Char) (h1 : c ≠ 'i') (h2 : c ≠ 'I') :
    commonPrefixLenIgnoreCase (c :: t) ['i', 'n', 'f', 'i', 'n', 'i', 't', 'y'] = 0 := by
  rw [commonPrefixLenIgnoreCase]
  show (if (if 'A' ≤ c ∧ c ≤ 'Z' then Char.ofNat (c.toNat + 32) else c) = 'i' then _ else 0) = 0
  by_cases hu : 'A' ≤ c ∧ c ≤ 'Z'
  · rw [if_pos hu]
    have hne : Char.ofNat (c.toNat + 32) ≠ 'i' := by
      have ha : 65 ≤ c.toNat := hu.1
      have hb : c.toNat ≤ 90 := hu.2
      have hc : c = Char.ofNat c.toNat := (Char.ofNat_toNat c).symm
      generalize c.toNat = k at ha hb hc
      subst hc
      interval_cases k <;> first | decide | exact absurd rfl h2
    rw [if_neg hne]
  · rw [if_neg hu, if_neg h1]

/-- The special values under a minus sign: an infinity becomes the negative one, and nothing
else is special. -/
theorem special_neg (c : Char) (t : List Char) (h1 : c ≠ '+') (h2 : c ≠ '-') :
    special ('-' :: c :: t)
      = match special (c :: t) with
        | some (.inf _, n) => some (.inf true, n + 1)
        | _ => none := by
  by_cases hi : c = 'i' ∨ c = 'I'
  · unfold special
    simp only [h1, h2, hi, if_true, if_false, Char.reduceEq]
    split_ifs <;> rfl
  · have h0 := commonPrefix_infinity_zero c t (fun h => hi (Or.inl h)) (fun h => hi (Or.inr h))
    have hL : special ('-' :: c :: t) = none := by
      unfold special
      simp [h0]
    rw [hL]
    unfold special
    simp only [h1, h2, hi, if_false]
    split_ifs <;> rfl

/-- A minus sign before a number text without sign gives the value of the opposite sign:
`ParseFloat` accepts it and the absolute value is the same. -/
theorem goParseFloat_neg (s : String) (c : Char) (t : List Char) (hs : s.toList = c :: t)
    (h1 : c ≠ '+') (h2 : c ≠ '-') (f : F64) (h : goParseFloat s = .ok f) (hnan : f ≠ .nan) :
    ∃ g, goParseFloat ("-" ++ s) = .ok g ∧ goAbs g = goAbs f := by
  have e1 : ("-" ++ s).toList = '-' :: c :: t := by
    have hs2 : s.data = c :: t := hs
    rw [String.toList, String.data_append, hs2]; rfl
  have e2 : ("-" ++ s).length = s.length + 1 := by
    rw [String.length_append]; exact Nat.add_comm _ _
  unfold goParseFloat at h ⊢
  rw [e1, special_neg c t h1 h2, readFloat_neg c t h1 h2, e2]
  rw [hs] at h
  cases hsp : special (c :: t) with
  | some p =>
    obtain ⟨g, n⟩ := p
    rw [hsp] at h
    simp only at h
    split_ifs at h with hn
    cases h
    rcases special_value _ _ _ hsp with rfl | ⟨b, rfl⟩
    · exact absurd rfl hnan
    · exact ⟨.inf true, by simp [hn], rfl⟩
  | none =>
    rw [hsp] at h
    simp only at h ⊢
    cases hr : readFloat (c :: t) with
    | none => rw [hr] at h; cases h
    | some r =>
      rw [hr] at h
      have hneg := readFloat_pos c t h1 h2 r hr
      simp only [Option.map_some'] at h ⊢
      have hfr : ReadFloat.fraction { r with neg := true } = r.fraction := rfl
      rw [hfr, roundToF64_sign true]
      rw [hneg] at h
      cases hf : roundToF64 false r.fraction.1 r.fraction.2 with
      | none => rw [hf] at h; cases h
      | some f0 =>
        rw [hf] at h
        simp only [Except.ok.injEq] at h
        subst h
        refine ⟨_, rfl, ?_⟩
        cases f0 <;> rfl

theorem goSprintf_f_goAbs_no_minus (f : F64) : '-' ∉ (goSprintf_f (goAbs f)).toList := by
  cases f with
  | nan => decide
  | inf neg => cases neg <;> decide
  | fin neg m e =>
    intro hmem
    have : goAbs (.fin neg m e) = .fin false m e := rfl
    rw [this, goSprintf_f_fin] at hmem
    rcases fixedChars_mem _ _ (by simpa using hmem) with h | h
    · exact (isDigitChar_ne _ h).2.2.1 rfl
    · exact absurd h (by decide)

theorem isFixed6_goSprintf_f (neg : Bool) (m : Nat) (e : Int) :
    isFixed6 (goSprintf_f (.fin neg m e)) = true := by
  rw [goSprintf_f_fin]; exact isFixed6_fixedChars _ _

/-! ### C15: canonicalization is idempotent -/

/-- C15: canonicalization is idempotent: when `reformatFloat`, with the float64 operations of
Go, succeeds on a string `s` with result `c`, it succeeds on `c` and returns `c`. -/
theorem canonicalization_idempotent (s c : String) (h : reformatFloat goFloat64 s = .ok c) :
    reformatFloat goFloat64 c = .ok c := by
  unfold reformatFloat at h ⊢
  cases hp : goFloat64.ParseFloat s with
  | error e => rw [hp] at h; cases h
  | ok f =>
    rw [hp] at h
    simp only [Res.ok.injEq] at h
    have hrep := goParseFloat_representable s f hp
    subst h
    cases f with
    | nan => rfl
    | inf neg => cases neg <;> rfl
    | fin neg m e =>
      obtain ⟨f1, h1, h2⟩ := reformat_fin neg m e hrep
      have h1a : goFloat64.ParseFloat (goFloat64.Sprintf_f (.fin neg m e)) = .ok f1 := h1
      rw [h1a]
      exact congrArg Res.ok h2

/-- C15, at the texts `0.1234565` and `-1.5e-7`. -/
theorem canonicalization_idempotent_witness :
    (reformatFloat goFloat64 "0.1234565" = .ok "0.123456"
      ∧ reformatFloat goFloat64 "0.123456" = .ok "0.123456")
    ∧ reformatFloat goFloat64 "-1.5e-7" = .ok "-0.000000"
    ∧ reformatFloat goFloat64 "-0.000000" = .ok "-0.000000" :=
  ⟨⟨by decide!, canonicalization_idempotent "0.1234565" "0.123456" (by decide!)⟩,
    by decide!, by decide!⟩

/-! ### C16: the leaves of a parsed tree, continued -/

theorem numberPayload_of_isCanonical (p : String) (h : isCanonical goFloat64 p) :
    numberPayload p := by
  obtain ⟨s, hs⟩ := h
  refine ⟨s, hs, ?_⟩
  unfold reformatFloat at hs
  cases hp : goFloat64.ParseFloat s with
  | error e => rw [hp] at hs; cases hs
  | ok f =>
    rw [hp] at hs
    simp only [Res.ok.injEq] at hs
    subst hs
    have hp2 : goParseFloat s = .ok f := hp
    unfold goParseFloat at hp2
    cases hsp : special s.toList with
    | some q =>
      obtain ⟨g, n⟩ := q
      rw [hsp] at hp2
      simp only at hp2
      split_ifs at hp2
      cases hp2
      simp only [Option.isSome_some, if_true]
      rcases special_value _ _ _ hsp with rfl | ⟨b, rfl⟩
      · exact Or.inl rfl
      · cases b
        · exact Or.inr (Or.inl rfl)
        · exact Or.inr (Or.inr rfl)
    | none =>
      rw [hsp] at hp2
      simp only at hp2
      simp only [Option.isSome_none, Bool.false_eq_true, if_false]
      cases hr : readFloat s.toList with
      | none => rw [hr] at hp2; cases hp2
      | some r =>
        rw [hr] at hp2
        simp only at hp2
        cases hf : roundToF64 r.neg r.fraction.1 r.fraction.2 with
        | none => rw [hf] at hp2; cases hp2
        | some g =>
          rw [hf] at hp2
          cases hp2
          have hden : 0 < r.fraction.2 := by
            simp only [ReadFloat.fraction]
            split_ifs <;> simp
          obtain ⟨-, m, e, rfl⟩ := roundToF64_representable _ _ _ hden _ hf
          exact isFixed6_goSprintf_f _ m e

/-- C16, as the claim states it, fails at a variable of declared type NUMBER whose value is
`NaN`: the canonicalizer accepts the value and the NUMBER leaf carries `NaN`, which is not a
fixed-point string. -/
theorem number_leaf_not_fixed_point :
    parse goFloat64 (.ok [mkToken "IDENT" "x"]) [⟨"x", "NUMBER", "NaN"⟩]
      = .ok (.mk "NUMBER" [.str "NaN"])
    ∧ reformatFloat goFloat64 "NaN" = .ok "NaN"
    ∧ isFixed6 "NaN" = false
    ∧ ¬ Node.leavesOK (fun p => isFixed6 p = true) (.mk "NUMBER" [.str "NaN"]) := by
  refine ⟨by decide!, by decide!, by decide!, ?_⟩
  intro h
  simp only [Node.leavesOK] at h
  obtain ⟨s, hs, hp⟩ := h.1 (by decide)
  simp only [List.cons.injEq, Arg.str.injEq, and_true] at hs
  subst hs
  exact absurd (hp trivial) (by decide!)

/-- C16: in every tree returned by a successful parse, every node tagged NUMBER, STRING or
NULL has exactly one argument and it is a string, and every NUMBER leaf carries the result of
the canonicalizer on some text: a fixed-point string with exactly six digits after the decimal
point, or, when the text spells not-a-number or an infinity, one of `NaN`, `+Inf`, `-Inf`. -/
theorem parsed_leaf_invariant (scanned : Res (List Token)) (vars : List Variable) (n : Node)
    (h : parse goFloat64 scanned vars = .ok n) : Node.leavesOK numberPayload n := by
  cases scanned with
  | ok tokens =>
    exact leavesOK_mono _ _ numberPayload_of_isCanonical n
      (parseTokens_leavesOK goFloat64 tokens vars n h)
  | error e => cases h
  | panic p => cases h
  | outOfFuel => cases h

/-- C16, at `2 + x` with the variable `x` of type NUMBER and value `3`. -/
theorem parsed_leaf_invariant_witness :
    parse goFloat64 (.ok [mkToken "NUMBER" "2", mkToken "+" "+", mkToken "IDENT" "x"])
        [⟨"x", "NUMBER", "3"⟩]
      = .ok (.mk "+" [.node (.mk "NUMBER" [.str "2.000000"]),
          .node (.mk "NUMBER" [.str "3.000000"])])
    ∧ Node.leavesOK numberPayload (.mk "+" [.node (.mk "NUMBER" [.str "2.000000"]),
          .node (.mk "NUMBER" [.str "3.000000"])]) :=
  ⟨by decide!, parsed_leaf_invariant
    (.ok [mkToken "NUMBER" "2", mkToken "+" "+", mkToken "IDENT" "x"])
    [⟨"x", "NUMBER", "3"⟩] _ (by decide!)⟩

/-! ### C17: ABS -/

/-- C17: called with the one argument `a` of payload `s`, `abs` returns the NULL leaf when `a`
is tagged NULL, and otherwise, when `s` is read as the number `f`, a NUMBER leaf whose payload
is the canonical text of the absolute value of `f`. With the float64 operations of Go that
payload carries no minus sign, is a six-decimal fixed-point text for a finite `f`, and is also
the payload for the text `s` with a minus sign before it. -/
theorem abs_contract (L : Float64Lib) (a : Node) (s : String) (ha : a.Args = [.str s]) :
    (a.Exp = "NULL" → abs L [a] = .ok nullNode)
    ∧ (a.Exp ≠ "NULL" → ∀ f, L.ParseFloat s = .ok f →
        abs L [a] = .ok (.mk "NUMBER" [.str (L.Sprintf_f (L.Abs f))]))
    ∧ (a.Exp ≠ "NULL" → ∀ f, goParseFloat s = .ok f →
        ∃ p, abs goFloat64 [a] = .ok (.mk "NUMBER" [.str p])
          ∧ '-' ∉ p.toList
          ∧ ((∃ neg m e, f = .fin neg m e) → isFixed6 p = true)
          ∧ (f ≠ .nan → s.toList.head? ≠ some '+' → s.toList.head? ≠ some '-' →
              abs goFloat64 [.mk a.Exp [.str ("-" ++ s)]]
                = .ok (.mk "NUMBER" [.str p]))) := by
  have habs : ∀ (L : Float64Lib) (b : Node) (t : String), b.Args = [.str t] → b.Exp ≠ "NULL" →
      ∀ f, L.ParseFloat t = .ok f →
        abs L [b] = .ok (.mk "NUMBER" [.str (L.Sprintf_f (L.Abs f))]) := by
    intro L b t hb hne f hf
    simp only [abs, hne, if_false, argString, hb, Res.bind, hf]
  refine ⟨fun h => by simp only [abs, h, if_true], habs L a s ha, ?_⟩
  intro hne f hf
  refine ⟨goSprintf_f (goAbs f), habs goFloat64 a s ha hne f hf,
    goSprintf_f_goAbs_no_minus f, ?_, ?_⟩
  · rintro ⟨neg, m, e, rfl⟩
    exact isFixed6_goSprintf_f false m e
  · intro hnan hplus hminus
    cases hl : s.toList with
    | nil =>
      have : goParseFloat s = .error (numErrorMsg s "invalid syntax") := by
        unfold goParseFloat
        rw [hl]; rfl
      rw [this] at hf; cases hf
    | cons c t =>
      rw [hl] at hplus hminus
      have h1 : c ≠ '+' := fun h => hplus (by rw [h]; rfl)
      have h2 : c ≠ '-' := fun h => hminus (by rw [h]; rfl)
      obtain ⟨g, hg, hgabs⟩ := goParseFloat_neg s c t hl h1 h2 f hf hnan
      have := habs goFloat64 (.mk a.Exp [.str ("-" ++ s)]) ("-" ++ s) rfl hne g hg
      rw [this]
      show Res.ok (Node.mk "NUMBER" [.str (goSprintf_f (goAbs g))]) = _
      rw [hgabs]

/-- C17, at ABS(250), with the five evaluations of the test. -/
theorem abs_contract_witness :
    ((("NUMBER" : String) = "NULL" → abs goFloat64 [.mk "NUMBER" [.str "250.000000"]] = .ok nullNode)
    ∧ (("NUMBER" : String) ≠ "NULL" → ∀ f, goFloat64.ParseFloat "250.000000" = .ok f →
        abs goFloat64 [.mk "NUMBER" [.str "250.000000"]]
          = .ok (.mk "NUMBER" [.str (goFloat64.Sprintf_f (goFloat64.Abs f))]))
    ∧ (("NUMBER" : String) ≠ "NULL" → ∀ f, goParseFloat "250.000000" = .ok f →
        ∃ p, abs goFloat64 [.mk "NUMBER" [.str "250.000000"]] = .ok (.mk "NUMBER" [.str p])
          ∧ '-' ∉ p.toList
          ∧ ((∃ neg m e, f = .fin neg m e) → isFixed6 p = true)
          ∧ (f ≠ .nan → "250.000000".toList.head? ≠ some '+' →
              "250.000000".toList.head? ≠ some '-' →
              abs goFloat64 [.mk "NUMBER" [.str ("-" ++ "250.000000")]]
                = .ok (.mk "NUMBER" [.str p]))))
    ∧ Evaluate goFloat64 (.ok [mkToken "IDENT" "ABS", mkToken "(" "(", mkToken "NULL" "NULL",
        mkToken ")" ")"]) [] = .ok "NULL"
    ∧ Evaluate goFloat64 (.ok [mkToken "IDENT" "ABS", mkToken "(" "(", mkToken "NUMBER" "250",
        mkToken ")" ")"]) [] = .ok "250.000000"
    ∧ Evaluate goFloat64 (.ok [mkToken "IDENT" "ABS", mkToken "(" "(", mkToken "NUMBER" "-250",
        mkToken ")" ")"]) [] = .ok "250.000000"
    ∧ Evaluate goFloat64 (.ok [mkToken "IDENT" "ABS", mkToken "(" "(", mkToken "NUMBER" "1.1",
        mkToken ")" ")"]) [] = .ok "1.100000"
    ∧ Evaluate goFloat64 (.ok [mkToken "IDENT" "ABS", mkToken "(" "(", mkToken "NUMBER" "-1.1",
        mkToken ")" ")"]) [] = .ok "1.100000" :=
  ⟨abs_contract goFloat64 (.mk "NUMBER" [.str "250.000000"]) "250.000000" rfl,
    by decide!, by decide!, by decide!, by decide!, by decide!⟩

/-! ### C21: CHR -/

/-- The float64 nearest to a natural number below `2 ^ 53` is the number itself, and `int`
of it is the number. -/
theorem roundToF64_nat (neg : Bool) (n : Nat) (hn : n < 2 ^ 53) :
    ∃ f, roundToF64 neg (n * 1000000) 1000000 = some f ∧ goToInt f = if neg then -(n : Int) else n := by
  have h2 : (0 : ℚ) < 2 := by norm_num
  rcases Nat.eq_zero_or_pos n with h0 | h0
  · subst h0
    refine ⟨.fin neg 0 0, by simp [roundToF64], ?_⟩
    cases neg <;> simp [goToInt]
  · obtain ⟨m, q, hrt, hq, hr, hhi, hlow⟩ :=
      roundToF64_spec neg (n * 1000000) 1000000 (by positivity) (by norm_num)
    have hx : ((n * 1000000 : Nat) : ℚ) / ((1000000 : Nat) : ℚ) = n := by
      push_cast; field_simp
    rw [hx] at hr hhi hlow
    have hnq : (n : ℚ) < (2 : ℚ) ^ (53 : Int) := by
      rw [zpow_ofNat]; exact_mod_cast hn
    have hq0 : q ≤ 0 := by
      by_contra hc
      have h1 := hlow (by omega)
      have h3 : (2 : ℚ) ^ (53 : Int) ≤ (2 : ℚ) ^ (q + 52) :=
        zpow_le_zpow_right₀ (by norm_num) (by omega)
      linarith
    have hN : (n : ℚ) / (2 : ℚ) ^ q = ((n * 2 ^ (-q).toNat : Nat) : ℚ) := by
      rw [Nat.cast_mul, zpow_neg_toNat q hq0, div_eq_mul_inv]
    rw [hN] at hr
    have hm : m = n * 2 ^ (-q).toNat := hr.unique (isRHE_natCast _)
    have hpos : 0 < 2 ^ (-q).toNat := by positivity
    have hno : ¬ (0 ≤ q ∧ 2 ^ 1024 ≤ m * 2 ^ q.toNat) := by
      rintro ⟨hq1, hov⟩
      have hq2 : q = 0 := by omega
      subst hq2
      simp only [hm, neg_zero, Int.toNat_zero, pow_zero, mul_one] at hov
      have : (2 : Nat) ^ 53 ≤ 2 ^ 1024 := Nat.pow_le_pow_right (by norm_num) (by norm_num)
      omega
    rw [if_neg hno] at hrt
    refine ⟨_, hrt, ?_⟩
    have ht : (if 0 ≤ q then m * 2 ^ q.toNat else m / 2 ^ (-q).toNat) = n := by
      split_ifs with hq1
      · have hq2 : q = 0 := by omega
        subst hq2
        simp [hm]
      · rw [hm, Nat.mul_div_cancel _ hpos]
    have hn63 : (n : Int) < 9223372036854775808 := by
      have : (2 : Nat) ^ 53 < 9223372036854775808 := by norm_num
      omega
    simp only [goToInt, ht]
    cases neg
    · simp only [Bool.false_eq_true, if_false]
      rw [if_pos (by constructor <;> omega)]
    · simp only [if_true]
      rw [if_pos (by constructor <;> omega)]

theorem runeString_valid (n : Nat) (h : Nat.isValidChar n) :
    runeString (n : Int) = String.singleton (Char.ofNat n) := by
  have hlt : n < 1114112 := by
    rcases h with h | h
    · omega
    · exact h.2
  have hr : ((n : Int) + 2147483648) % 4294967296 - 2147483648 = n := by omega
  simp only [runeString, hr, Int.toNat_ofNat]
  rw [if_pos ⟨by omega, h⟩]

/-- C21: called with the one argument `a` of payload `s`, `chr` returns the NULL leaf when `a`
is tagged NULL, and otherwise, when `s` is read as the number `f`, a STRING leaf whose payload
is the text of the rune `int(f)`. With the float64 operations of Go, for every valid code
point `n` the canonical payload of the integer `n` gives exactly the one-character string
of `n`. -/
theorem chr_contract (L : Float64Lib) (a : Node) (s : String) (ha : a.Args = [.str s]) :
    (a.Exp = "NULL" → chr L [a] = .ok nullNode)
    ∧ (a.Exp ≠ "NULL" → ∀ f, L.ParseFloat s = .ok f →
        chr L [a] = .ok (.mk "STRING" [.str (runeString (L.toInt f))]))
    ∧ (∀ n : Nat, Nat.isValidChar n →
        chr goFloat64 [.mk "NUMBER" [.str (goSprintf_f (.fin false n 0))]]
          = .ok (.mk "STRING" [.str (String.singleton (Char.ofNat n))])) := by
  refine ⟨fun h => by simp only [chr, h, if_true], ?_, ?_⟩
  · intro hne f hf
    simp only [chr, hne, if_false, argString, ha, Res.bind, hf]
  · intro n hn
    have hlt : n < 2 ^ 53 := by
      have : n < 1114112 := by
        rcases hn with h | h
        · omega
        · exact h.2
      have : (1114112 : Nat) < 2 ^ 53 := by norm_num
      omega
    obtain ⟨f, hf, hint⟩ := roundToF64_nat false n hlt
    have hm : millionths n 0 = n * 1000000 := by simp [millionths]
    have hp : goFloat64.ParseFloat (goSprintf_f (.fin false n 0)) = .ok f := by
      show goParseFloat _ = _
      rw [goSprintf_f_fin, goParseFloat_fixedChars, hm, hf]
    have hne : ¬ (Node.mk "NUMBER" [.str (goSprintf_f (.fin false n 0))]).Exp = "NULL" := by
      simp
    simp only [chr, hne, if_false, argString, Node.Args_mk, Res.bind, hp]
    have hint2 : goFloat64.toInt f = (n : Int) := by
      show goToInt f = _
      rw [hint]; simp
    rw [hint2, runeString_valid n hn]

/-- C21, at CHR(84), with the three evaluations of the test and the truncation of 84.9. -/
theorem chr_contract_witness :
    ((("NUMBER" : String) = "NULL" → chr goFloat64 [.mk "NUMBER" [.str "84.000000"]] = .ok nullNode)
    ∧ (("NUMBER" : String) ≠ "NULL" → ∀ f, goFloat64.ParseFloat "84.000000" = .ok f →
        chr goFloat64 [.mk "NUMBER" [.str "84.000000"]]
          = .ok (.mk "STRING" [.str (runeString (goFloat64.toInt f))]))
    ∧ (∀ n : Nat, Nat.isValidChar n →
        chr goFloat64 [.mk "NUMBER" [.str (goSprintf_f (.fin false n 0))]]
          = .ok (.mk "STRING" [.str (String.singleton (Char.ofNat n))])))
    ∧ goSprintf_f (.fin false 84 0) = "84.000000"
    ∧ Evaluate goFloat64 (.ok [mkToken "IDENT" "CHR", mkToken "(" "(", mkToken "NULL" "NULL",
        mkToken ")" ")"]) [] = .ok "NULL"
    ∧ Evaluate goFloat64 (.ok [mkToken "IDENT" "CHR", mkToken "(" "(", mkToken "NUMBER" "39",
        mkToken ")" ")"]) [] = .ok "'"
    ∧ Evaluate goFloat64 (.ok [mkToken "IDENT" "CHR", mkToken "(" "(", mkToken "NUMBER" "84",
        mkToken ")" ")"]) [] = .ok "T"
    ∧ Evaluate goFloat64 (.ok [mkToken "IDENT" "CHR", mkToken "(" "(", mkToken "NUMBER" "84.9",
        mkToken ")" ")"]) [] = .ok "T"
    ∧ Evaluate goFloat64 (.ok [mkToken "IDENT" "CHR", mkToken "(" "(", mkToken "NUMBER" "-0.5",
        mkToken ")" ")"]) [] = .ok (String.singleton (Char.ofNat 0)) :=
  ⟨chr_contract goFloat64 (.mk "NUMBER" [.str "84.000000"]) "84.000000" rfl,
    by decide!, by decide!, by decide!, by decide!, by decide!, by decide!⟩

/-! ### C22: the arity errors -/

/-- C22: each function called with a number of arguments that is not allowed for it returns
an error whose message holds that number; the message of ABS, CHR, CONCAT and LTRIM names the
function, the message of RTRIM names LTRIM. With an allowed number of arguments CONCAT, LTRIM
and RTRIM return no error. -/
theorem arity_errors (L : Float64Lib) (a b c : Node) (rest : List Node) :
    (abs L [] = .error "incorrect number of arguments, 0, to ABS"
      ∧ abs L (a :: b :: rest) = .error (arityMsg (rest.length + 2) "ABS"))
    ∧ (chr L [] = .error "incorrect number of arguments, 0, to CHR"
      ∧ chr L (a :: b :: rest) = .error (arityMsg (rest.length + 2) "CHR"))
    ∧ (concat [] = .error "incorrect number of arguments, 0, to CONCAT"
      ∧ concat [a] = .error "incorrect number of arguments, 1, to CONCAT"
      ∧ concat (a :: b :: c :: rest) = .error (arityMsg (rest.length + 3) "CONCAT")
      ∧ (concat [a, b]).isError = false)
    ∧ (ltrim [] = .error "incorrect number of arguments, 0, to LTRIM"
      ∧ ltrim (a :: b :: c :: rest) = .error (arityMsg (rest.length + 3) "LTRIM")
      ∧ (ltrim [a]).isError = false ∧ (ltrim [a, b]).isError = false)
    ∧ (rtrim [] = .error "incorrect number of arguments, 0, to LTRIM"
      ∧ rtrim (a :: b :: c :: rest) = .error (arityMsg (rest.length + 3) "LTRIM")
      ∧ (rtrim [a]).isError = false ∧ (rtrim [a, b]).isError = false)
    ∧ Evaluate goFloat64 (.ok [mkToken "IDENT" "RTRIM", mkToken "(" "(", mkToken "STRING" "a",
        mkToken "," ",", mkToken "STRING" "b", mkToken "," ",", mkToken "STRING" "c",
        mkToken ")" ")"]) [] = .error "incorrect number of arguments, 3, to LTRIM"
    ∧ Evaluate goFloat64 (.ok [mkToken "IDENT" "LTRIM", mkToken "(" "(", mkToken "STRING" "a",
        mkToken "," ",", mkToken "STRING" "b", mkToken "," ",", mkToken "STRING" "c",
        mkToken ")" ")"]) [] = .error "incorrect number of arguments, 3, to LTRIM" := by
  have hbind : ∀ (n : Node) (f : String → Res Node), (∀ s, (f s).isError = false) →
      ((argString n).bind f).isError = false := by
    intro n f hf
    unfold argString
    cases n.Args with
    | nil => rfl
    | cons x xs => cases x <;> first | exact hf _ | rfl
  have h1 : arityMsg 1 "CONCAT" = "incorrect number of arguments, 1, to CONCAT" := by decide
  refine ⟨⟨rfl, rfl⟩, ⟨rfl, rfl⟩, ⟨rfl, h1 ▸ rfl, rfl, ?_⟩, ⟨rfl, rfl, ?_, ?_⟩,
    ⟨rfl, rfl, ?_, ?_⟩, by decide!, by decide!⟩
  · simp only [concat]
    split_ifs <;> first
      | exact hbind _ _ (fun _ => rfl)
      | exact hbind _ _ (fun _ => hbind _ _ (fun _ => rfl))
  · exact hbind _ _ (fun _ => rfl)
  · simp only [ltrim]
    split_ifs <;> first | rfl | exact hbind _ _ (fun _ => hbind _ _ (fun _ => rfl))
  · exact hbind _ _ (fun _ => rfl)
  · simp only [rtrim]
    split_ifs <;> first | rfl | exact hbind _ _ (fun _ => hbind _ _ (fun _ => rfl))

/-! ### C24: the string action of the lexer -/

theorem stringLoop_no_quote (body : List Char) (hb : Char.ofNat 39 ∉ body) :
    ∀ (rest : List Char) (tc len : Nat),
      stringLoop (body ++ rest) tc len = stringLoop rest (tc + body.length) len := by
  induction body with
  | nil => intro rest tc len; rfl
  | cons c cs ih =>
    intro rest tc len
    have hc : c ≠ Char.ofNat 39 := fun h => hb (h ▸ List.mem_cons_self _ _)
    rw [List.cons_append, stringLoop, if_neg (fun h => hc h.1),
      ih (fun h => hb (List.mem_cons_of_mem _ h)), List.length_cons]
    congr 1; omega

/-- The string action on a text whose next quote is followed by another character: the STRING
token of the text before the quote. -/
theorem stringAction_closed (pre body rest : List Char) (c : Char) (m : Match)
    (hb : Char.ofNat 39 ∉ body) :
    stringAction (pre ++ body ++ Char.ofNat 39 :: c :: rest) pre.length m
      = .ok (mkToken "STRING" (String.mk body), pre.length + body.length + 1) := by
  unfold stringAction
  rw [List.append_assoc, List.drop_left, stringLoop_no_quote body hb, stringLoop]
  rw [if_pos ⟨rfl, by simp only [List.length_append, List.length_cons]; omega⟩]
  simp only [Nat.add_sub_cancel_left, List.take_left]
  rfl

/-- The string action on a text whose next quote is its last character: the error of an
unclosed string. -/
theorem stringAction_quote_last (pre body : List Char) (m : Match)
    (hb : Char.ofNat 39 ∉ body) :
    stringAction (pre ++ body ++ [Char.ofNat 39]) pre.length m
      = .error (unclosedStringMsg m) := by
  unfold stringAction
  rw [List.append_assoc, List.drop_left, stringLoop_no_quote body hb, stringLoop]
  rw [if_neg (by simp only [List.length_append, List.length_cons, List.length_nil]; omega)]
  rfl

/-- The string action on a text without a quote from the scan position on: the error of an
unclosed string. -/
theorem stringAction_open (pre body : List Char) (m : Match) (hb : Char.ofNat 39 ∉ body) :
    stringAction (pre ++ body) pre.length m = .error (unclosedStringMsg m) := by
  unfold stringAction
  have := stringLoop_no_quote body hb [] pre.length (pre ++ body).length
  rw [List.append_nil] at this
  rw [List.drop_left, this]
  rfl

/-- C24: on the text of the string literal `a` between quotes with nothing after it the string
action fails with the error of an unclosed string, although the quote that closes the literal
is there; with a blank after the closing quote it returns the STRING token `a`, and without a
closing quote it fails with the same error. -/
theorem string_closed_at_end_is_unclosed :
    stringAction [Char.ofNat 39, 'a', Char.ofNat 39] 1 ⟨0, 1, 1⟩
      = .error "unclosed string starting at 0, (1, 1)"
    ∧ stringAction [Char.ofNat 39, 'a', Char.ofNat 39, ' '] 1 ⟨0, 1, 1⟩
      = .ok (mkToken "STRING" "a", 3)
    ∧ stringAction [Char.ofNat 39, 'a'] 1 ⟨0, 1, 1⟩
      = .error "unclosed string starting at 0, (1, 1)"
    ∧ stringAction "1 = 'ab'".toList 5 ⟨4, 1, 5⟩
      = .error "unclosed string starting at 4, (1, 5)" := by
  refine ⟨by decide, by decide, by decide, by decide⟩

/-! ### C23: the folding passes on a whole expression -/

theorem foldLoop_alt (ops : List String) (rest : List (String × Node))
    (ho : ∀ q ∈ rest, ops.contains q.2.Exp = false) :
    ∀ (cur : Node) (pos : Nat) (acc : List Arg),
      foldLoop ops (pairsBuffer rest) pos (acc ++ [.node cur])
        = .ok (acc ++ altBuffer (foldAlt ops cur rest).1 (foldAlt ops cur rest).2) := by
  induction rest with
  | nil => intro cur pos acc; rfl
  | cons q rest ih =>
    intro cur pos acc
    have ih2 := ih fun x hx => ho x (List.mem_cons_of_mem _ hx)
    have hq := ho q (List.mem_cons_self _ _)
    by_cases hc : ops.contains q.1 = true
    · have h1 : ops.contains (opNode q.1).Exp = true := hc
      rw [pairsBuffer, foldLoop_fold ops _ _ _ _ _ _ h1, foldAlt, if_pos hc]
      exact ih2 _ _ _
    · have h1 : ops.contains (opNode q.1).Exp = false := by simpa using hc
      rw [pairsBuffer, foldLoop_keep ops _ _ _ _ h1, foldLoop_keep ops _ _ _ _ hq, foldAlt,
        if_neg hc]
      have h2 := ih2 q.2 (pos + 1 + 1) (acc ++ [.node cur] ++ [.node (opNode q.1)])
      simp only [List.append_assoc, List.singleton_append, altBuffer, pairsBuffer] at h2 ⊢
      exact h2

theorem foldPass_alt (ops : List String) (cur : Node) (rest : List (String × Node))
    (hc : ops.contains cur.Exp = false) (ho : ∀ q ∈ rest, ops.contains q.2.Exp = false) :
    foldPass ops (altBuffer cur rest)
      = .ok (altBuffer (foldAlt ops cur rest).1 (foldAlt ops cur rest).2) := by
  rw [foldPass, altBuffer, foldLoop_keep ops _ _ _ _ hc, foldLoop_alt ops rest ho]
  rfl

theorem inorder_atom (o : Node) (h : isOperator o.Exp = false) : o.inorder = [.node o] := by
  cases o with
  | mk e args =>
    have h1 : isOperator e = false := h
    simp only [Node.inorder, h1, Bool.false_eq_true, if_false]

theorem binaryOps_atom (o : Node) (h : isOperator o.Exp = false) : o.binaryOps = true := by
  cases o with
  | mk e args =>
    have h1 : isOperator e = false := h
    simp only [Node.binaryOps, h1, Bool.false_eq_true, if_false]

theorem inorder_folded (p : String) (l r : Node) (h : isOperator p = true) :
    (Node.mk p [.node l, .node r]).inorder = l.inorder ++ .node (opNode p) :: r.inorder := by
  simp only [Node.inorder, h, if_true, Arg.inorderList, Arg.inorder]

theorem binaryOps_folded (p : String) (l r : Node) (hl : l.binaryOps = true)
    (hr : r.binaryOps = true) : (Node.mk p [.node l, .node r]).binaryOps = true := by
  simp only [Node.binaryOps, Arg.binaryOpsList, Arg.binaryOps, hl, hr, List.length_cons,
    List.length_nil, Bool.and_self, beq_self_eq_true, ite_self]

/-- What one pass keeps: the traversal, the shape, the operators that are not of the pass, and
the tags of the operands apart from the operators of the pass. -/
theorem foldAlt_spec (ops : List String) (rest : List (String × Node))
    (hp : ∀ q ∈ rest, isOperator q.1 = true) :
    ∀ cur : Node,
      (foldAlt ops cur rest).1.inorder ++ pairsInorder (foldAlt ops cur rest).2
        = cur.inorder ++ pairsInorder rest
      ∧ (cur.binaryOps = true → (∀ q ∈ rest, q.2.binaryOps = true) →
          (foldAlt ops cur rest).1.binaryOps = true
            ∧ ∀ q ∈ (foldAlt ops cur rest).2, q.2.binaryOps = true)
      ∧ (∀ q ∈ (foldAlt ops cur rest).2, ops.contains q.1 = false ∧ ∃ x ∈ rest, x.1 = q.1)
      ∧ (∀ e, (e = (foldAlt ops cur rest).1.Exp ∨ ∃ q ∈ (foldAlt ops cur rest).2, e = q.2.Exp) →
          ops.contains e = true ∨ e = cur.Exp ∨ ∃ q ∈ rest, e = q.2.Exp) := by
  induction rest with
  | nil =>
    intro cur
    refine ⟨rfl, fun hb _ => ⟨hb, fun q hq => (by cases hq)⟩, fun q hq => (by cases hq), ?_⟩
    rintro e (he | ⟨q, hq, -⟩)
    · exact Or.inr (Or.inl he)
    · cases hq
  | cons x rest ih =>
    intro cur
    have hp2 : ∀ q ∈ rest, isOperator q.1 = true := fun q hq => hp q (List.mem_cons_of_mem _ hq)
    have hx := hp x (List.mem_cons_self _ _)
    by_cases hc : ops.contains x.1 = true
    · obtain ⟨i1, i2, i3, i4⟩ := ih hp2 (.mk x.1 [.node cur, .node x.2])
      rw [foldAlt, if_pos hc]
      refine ⟨?_, ?_, ?_, ?_⟩
      · rw [i1, inorder_folded _ _ _ hx, pairsInorder]
        simp only [List.append_assoc, List.cons_append]
      · intro hb hr
        exact i2 (binaryOps_folded _ _ _ hb (hr x (List.mem_cons_self _ _)))
          (fun q hq => hr q (List.mem_cons_of_mem _ hq))
      · intro q hq
        obtain ⟨h1, y, hy, hy2⟩ := i3 q hq
        exact ⟨h1, y, List.mem_cons_of_mem _ hy, hy2⟩
      · intro e he
        rcases i4 e he with h | h | ⟨q, hq, h⟩
        · exact Or.inl h
        · left; rw [h]; exact hc
        · exact Or.inr (Or.inr ⟨q, List.mem_cons_of_mem _ hq, h⟩)
    · obtain ⟨i1, i2, i3, i4⟩ := ih hp2 x.2
      rw [foldAlt, if_neg hc]
      refine ⟨?_, ?_, ?_, ?_⟩
      · simp only [pairsInorder]
        rw [i1]
      · intro hb hr
        have := i2 (hr x (List.mem_cons_self _ _)) (fun q hq => hr q (List.mem_cons_of_mem _ hq))
        refine ⟨hb, fun q hq => ?_⟩
        rcases List.mem_cons.mp hq with rfl | hq
        · exact this.1
        · exact this.2 q hq
      · intro q hq
        rcases List.mem_cons.mp hq with rfl | hq
        · exact ⟨by simpa using hc, x, List.mem_cons_self _ _, rfl⟩
        · obtain ⟨h1, y, hy, hy2⟩ := i3 q hq
          exact ⟨h1, y, List.mem_cons_of_mem _ hy, hy2⟩
      · rintro e (he | ⟨q, hq, he⟩)
        · exact Or.inr (Or.inl he)
        · rcases List.mem_cons.mp hq with rfl | hq
          · rcases i4 e (Or.inl he) with h | h | ⟨y, hy, h⟩
            · exact Or.inl h
            · exact Or.inr (Or.inr ⟨x, List.mem_cons_self _ _, h⟩)
            · exact Or.inr (Or.inr ⟨y, List.mem_cons_of_mem _ hy, h⟩)
          · rcases i4 e (Or.inr ⟨q, hq, he⟩) with h | h | ⟨y, hy, h⟩
            · exact Or.inl h
            · exact Or.inr (Or.inr ⟨x, List.mem_cons_self _ _, h⟩)
            · exact Or.inr (Or.inr ⟨y, List.mem_cons_of_mem _ hy, h⟩)

theorem passes_disjoint :
    passes.Pairwise (fun a b => ∀ e : String, a.contains e = true → b.contains e = false) := by
  simp only [passes, List.pairwise_cons, List.mem_cons, List.mem_singleton, List.not_mem_nil,
    List.Pairwise.nil, and_true, forall_eq_or_imp, forall_eq, IsEmpty.forall_iff, implies_true,
    or_false]
  simp only [List.contains_eq_any_beq, List.any_cons, List.any_nil, Bool.or_false,
    Bool.or_eq_true, beq_iff_eq, Bool.or_eq_false_iff, beq_eq_false_iff_ne]
  refine ⟨⟨?_, ?_, ?_, ?_, ?_, ?_⟩, ⟨?_, ?_, ?_, ?_, ?_⟩, ⟨?_, ?_, ?_, ?_⟩, ⟨?_, ?_, ?_⟩, ⟨?_, ?_⟩,
    ?_⟩ <;> (intro e he; rcases he with rfl | rfl | rfl | rfl <;> decide)

/-- The folding passes `ps` on the sequence of an operand and pairs of operator and operand,
when no operand tag is an operator of these passes and every operator is: one node, with the
traversal and the shape of the sequence. -/
theorem foldPasses_alt (ps : List (List String))
    (hd : ps.Pairwise (fun a b => ∀ e : String, a.contains e = true → b.contains e = false)) :
    ∀ (cur : Node) (rest : List (String × Node)),
      (∀ ops ∈ ps, ops.contains cur.Exp = false) →
      (∀ q ∈ rest, ∀ ops ∈ ps, ops.contains q.2.Exp = false) →
      (∀ q ∈ rest, ∃ ops ∈ ps, ops.contains q.1 = true) →
      (∀ q ∈ rest, isOperator q.1 = true) →
      cur.binaryOps = true → (∀ q ∈ rest, q.2.binaryOps = true) →
      ∃ t : Node, foldPasses ps (altBuffer cur rest) = .ok [.node t]
        ∧ t.binaryOps = true ∧ t.inorder = cur.inorder ++ pairsInorder rest := by
  induction ps with
  | nil =>
    intro cur rest _ _ hp _ hb _
    cases rest with
    | nil => exact ⟨cur, rfl, hb, by simp [pairsInorder]⟩
    | cons q rest =>
      obtain ⟨ops, hops, -⟩ := hp q (List.mem_cons_self _ _)
      cases hops
  | cons ops ps ih =>
    intro cur rest hc ho hp hop hb hbr
    obtain ⟨hd1, hd2⟩ := List.pairwise_cons.mp hd
    obtain ⟨i1, i2, i3, i4⟩ := foldAlt_spec ops rest hop cur
    obtain ⟨j1, j2⟩ := i2 hb hbr
    have htag : ∀ e, (e = (foldAlt ops cur rest).1.Exp ∨ ∃ q ∈ (foldAlt ops cur rest).2, e = q.2.Exp) →
        ∀ ops2 ∈ ps, ops2.contains e = false := by
      intro e he ops2 h2
      rcases i4 e he with h | h | ⟨q, hq, h⟩
      · exact hd1 ops2 h2 e h
      · rw [h]; exact hc ops2 (List.mem_cons_of_mem _ h2)
      · rw [h]; exact ho q hq ops2 (List.mem_cons_of_mem _ h2)
    obtain ⟨t, ht, htb, hti⟩ := ih hd2 (foldAlt ops cur rest).1 (foldAlt ops cur rest).2
      (fun ops2 h2 => htag _ (Or.inl rfl) ops2 h2)
      (fun q hq ops2 h2 => htag _ (Or.inr ⟨q, hq, rfl⟩) ops2 h2)
      (fun q hq => by
        obtain ⟨hn, x, hx, hxq⟩ := i3 q hq
        obtain ⟨ops2, h2, h3⟩ := hp x hx
        rw [hxq] at h3
        rcases List.mem_cons.mp h2 with rfl | h2
        · rw [hn] at h3; cases h3
        · exact ⟨ops2, h2, h3⟩)
      (fun q hq => by
        obtain ⟨-, x, hx, hxq⟩ := i3 q hq
        rw [← hxq]; exact hop x hx)
      j1 j2
    refine ⟨t, ?_, htb, by rw [hti, i1]⟩
    rw [foldPasses, foldPass_alt ops cur rest (hc ops (List.mem_cons_self _ _))
      (fun q hq => ho q hq ops (List.mem_cons_self _ _))]
    exact ht

theorem pairsInorder_atoms (rest : List (String × Node))
    (h : ∀ q ∈ rest, isOperator q.2.Exp = false) : pairsInorder rest = pairsBuffer rest := by
  induction rest with
  | nil => rfl
  | cons q rest ih =>
    rw [pairsInorder, pairsBuffer, inorder_atom _ (h q (List.mem_cons_self _ _)),
      ih fun x hx => h x (List.mem_cons_of_mem _ hx)]
    rfl

theorem not_contains_of_not_operator (e : String) (h : isOperator e = false) :
    ∀ ops ∈ passes, ops.contains e = false := by
  intro ops hops
  unfold isOperator at h
  rw [List.any_eq_false] at h
  simpa using h ops hops

/-- C23: for every buffer `o1 p1 o2 ... on` of operands whose tags are no operator symbols
and placeholders of binary operators between them, the seven folding passes and the final
check return exactly one node; every node of it tagged with an operator has exactly two
arguments, and its in-order traversal is the buffer. -/
theorem folding_keeps_expression (o : Node) (rest : List (String × Node))
    (ho : isOperator o.Exp = false)
    (hrest : ∀ q ∈ rest, isOperator q.1 = true ∧ isOperator q.2.Exp = false) :
    ∃ t : Node, foldAll (altBuffer o rest) = .ok [t]
      ∧ t.binaryOps = true ∧ t.inorder = altBuffer o rest := by
  obtain ⟨t, ht, htb, hti⟩ := foldPasses_alt passes passes_disjoint o rest
    (not_contains_of_not_operator _ ho)
    (fun q hq => not_contains_of_not_operator _ (hrest q hq).2)
    (fun q hq => by
      have := (hrest q hq).1
      unfold isOperator at this
      rw [List.any_eq_true] at this
      exact this)
    (fun q hq => (hrest q hq).1)
    (binaryOps_atom _ ho)
    (fun q hq => binaryOps_atom _ (hrest q hq).2)
  refine ⟨t, ?_, htb, ?_⟩
  · unfold foldAll
    rw [ht]
    rfl
  · rw [hti, inorder_atom _ ho, pairsInorder_atoms rest fun q hq => (hrest q hq).2]
    rfl

/-- C23, at the buffer `1 + 2 * 3 = 7 AND x`. -/
theorem folding_keeps_expression_witness :
    ∃ t : Node,
      foldAll (altBuffer (.mk "NUMBER" [.str "1.000000"])
        [("+", .mk "NUMBER" [.str "2.000000"]), ("*", .mk "NUMBER" [.str "3.000000"]),
         ("=", .mk "NUMBER" [.str "7.000000"]), ("AND", .mk "STRING" [.str "x"])]) = .ok [t]
      ∧ t.binaryOps = true
      ∧ t.inorder = altBuffer (.mk "NUMBER" [.str "1.000000"])
        [("+", .mk "NUMBER" [.str "2.000000"]), ("*", .mk "NUMBER" [.str "3.000000"]),
         ("=", .mk "NUMBER" [.str "7.000000"]), ("AND", .mk "STRING" [.str "x"])] :=
  folding_keeps_expression (.mk "NUMBER" [.str "1.000000"])
    [("+", .mk "NUMBER" [.str "2.000000"]), ("*", .mk "NUMBER" [.str "3.000000"]),
     ("=", .mk "NUMBER" [.str "7.000000"]), ("AND", .mk "STRING" [.str "x"])]
    (by decide) (by decide)

/-! ### Steps of the structural pass -/

theorem parenLoop_comma (L : Float64Lib) (tokens : List Token) (vars : List Variable)
    (fuel pos : Nat) (buffer : List Arg) (token : Token)
    (ht : tokens[pos]? = some token) (hty : tokenTypeName token = some ",") :
    parenLoop L tokens vars (fuel + 1) pos buffer
      = parenLoop L tokens vars fuel (pos + 1) buffer := by
  rw [parenLoop]
  simp only [ht, hty, if_true]

theorem parenLoop_close (L : Float64Lib) (tokens : List Token) (vars : List Variable)
    (fuel pos : Nat) (buffer : List Arg) (token : Token)
    (ht : tokens[pos]? = some token) (hty : tokenTypeName token = some ")") :
    parenLoop L tokens vars (fuel + 1) pos buffer = .ok (buffer, pos) := by
  rw [parenLoop]
  simp only [ht, hty]
  simp only [show (")" = ",") = False from by decide, if_false, if_true]

theorem parenLoop_open (L : Float64Lib) (tokens : List Token) (vars : List Variable)
    (fuel pos : Nat) (buffer : List Arg) (token : Token)
    (ht : tokens[pos]? = some token) (hty : tokenTypeName token = some "(") :
    parenLoop L tokens vars (fuel + 1) pos buffer
      = (finishExpression (parenLoop L tokens vars fuel (pos + 1) [])).bind fun p =>
          parenLoop L tokens vars fuel (p.2 + 1) (buffer ++ p.1.map Arg.node) := by
  rw [parenLoop]
  simp only [ht, hty]
  simp only [show ("(" = ",") = False from by decide, show ("(" = ")") = False from by decide,
    if_false, if_true]
  cases finishExpression (parenLoop L tokens vars fuel (pos + 1) []) <;> rfl

theorem parenLoop_function (L : Float64Lib) (tokens : List Token) (vars : List Variable)
    (fuel pos : Nat) (buffer : List Arg) (token next : Token)
    (ht : tokens[pos]? = some token) (hty : tokenTypeName token = some "IDENT")
    (hf : isFunction token.Value = true) (hn : tokens[pos + 1]? = some next)
    (hv : next.Value = "(") :
    parenLoop L tokens vars (fuel + 1) pos buffer
      = (finishExpression (parenLoop L tokens vars fuel (pos + 2) [])).bind fun p =>
          parenLoop L tokens vars fuel (p.2 + 1)
            (buffer ++ [.node (.mk token.Value (p.1.map Arg.node))]) := by
  rw [parenLoop]
  simp only [ht, hty, hf, hn, hv]
  simp only [show ("IDENT" = ",") = False from by decide,
    show ("IDENT" = ")") = False from by decide, show ("IDENT" = "(") = False from by decide,
    if_false, if_true]
  cases finishExpression (parenLoop L tokens vars fuel (pos + 2) []) <;> rfl

theorem parenLoop_number (L : Float64Lib) (tokens : List Token) (vars : List Variable)
    (fuel pos : Nat) (buffer : List Arg) (token : Token) (f : String)
    (ht : tokens[pos]? = some token) (hty : tokenTypeName token = some "NUMBER")
    (hf : reformatFloat L token.Value = .ok f) :
    parenLoop L tokens vars (fuel + 1) pos buffer
      = parenLoop L tokens vars fuel (pos + 1) (buffer ++ [.node (.mk "NUMBER" [.str f])]) := by
  rw [parenLoop]
  simp only [ht, hty, hf]
  simp only [show ("NUMBER" = ",") = False from by decide,
    show ("NUMBER" = ")") = False from by decide, show ("NUMBER" = "(") = False from by decide,
    show ("NUMBER" = "IDENT") = False from by decide, if_false, if_true]

theorem parenLoop_default (L : Float64Lib) (tokens : List Token) (vars : List Variable)
    (fuel pos : Nat) (buffer : List Arg) (token : Token) (ty : String)
    (ht : tokens[pos]? = some token) (hty : tokenTypeName token = some ty)
    (h1 : ty ≠ ",") (h2 : ty ≠ ")") (h3 : ty ≠ "(") (h4 : ty ≠ "IDENT") (h5 : ty ≠ "NUMBER")
    (h6 : ty ≠ "STRING") :
    parenLoop L tokens vars (fuel + 1) pos buffer
      = parenLoop L tokens vars fuel (pos + 1) (buffer ++ [.node (.mk ty [.str token.Value])]) := by
  rw [parenLoop]
  simp only [ht, hty, h1, h2, h3, h4, h5, h6, if_false]

/-- The step of the structural pass on a literal token: its leaf is appended. -/
theorem parenLoop_literal (L : Float64Lib) (tokens : List Token) (vars : List Variable)
    (fuel pos : Nat) (buffer : List Arg) (token : Token) (n : Node)
    (ht : tokens[pos]? = some token) (hl : literalLeaf L vars token = some n) :
    parenLoop L tokens vars (fuel + 1) pos buffer
        = parenLoop L tokens vars fuel (pos + 1) (buffer ++ [.node n])
      ∧ isLeafTag n.Exp = true := by
  unfold literalLeaf at hl
  split_ifs at hl with h1 h2 h3
  · cases hf : reformatFloat L token.Value with
    | ok f =>
      rw [hf] at hl
      cases hl
      exact ⟨parenLoop_number L tokens vars fuel pos buffer token f ht h1 hf, rfl⟩
    | error e => rw [hf] at hl; cases hl
    | panic p => rw [hf] at hl; cases hl
    | outOfFuel => rw [hf] at hl; cases hl
  · cases hl
    exact ⟨parenLoop_string L tokens vars fuel pos buffer token ht h2, rfl⟩
  · cases hl
    exact ⟨parenLoop_default L tokens vars fuel pos buffer token "NULL" ht h3
      (by decide) (by decide) (by decide) (by decide) (by decide) (by decide), rfl⟩

theorem isOperator_cases (op : String) (h : isOperator op = true) :
    op ∈ ["*", "/", "%", "+", "-", "||", "<", "<=", ">", ">=", "=", "<>", "!=", "^=", "AND",
      "OR"] := by
  simp only [isOperator, passes, List.any_cons, List.any_nil, Bool.or_false, Bool.or_eq_true,
    List.contains_eq_any_beq, beq_iff_eq] at h
  simp only [List.mem_cons, List.mem_nil_iff, or_false]
  tauto

theorem isOperator_not_leafTag (e : String) (h : isLeafTag e = true) : isOperator e = false := by
  simp only [isLeafTag, Bool.or_eq_true, beq_iff_eq] at h
  rcases h with (rfl | rfl) | rfl <;> decide

theorem isOperator_not_function (f : String) (h : isFunction f = true) :
    isOperator f = false := by
  by_contra hc
  have h1 := isOperator_cases f (by simpa using hc)
  simp only [List.mem_cons, List.mem_nil_iff, or_false] at h1
  rcases h1 with h1 | h1 | h1 | h1 | h1 | h1 | h1 | h1 | h1 | h1 | h1 | h1 | h1 | h1 | h1 | h1 <;>
    (rw [h1] at h; exact absurd h (by decide))

theorem tokenTypeName_operator (op : String) (h : isOperator op = true) :
    tokenTypeName (mkToken op op) = some op
      ∧ op ≠ "," ∧ op ≠ ")" ∧ op ≠ "(" ∧ op ≠ "IDENT" ∧ op ≠ "NUMBER" ∧ op ≠ "STRING" := by
  have h1 := isOperator_cases op h
  simp only [List.mem_cons, List.mem_nil_iff, or_false] at h1
  rcases h1 with h1 | h1 | h1 | h1 | h1 | h1 | h1 | h1 | h1 | h1 | h1 | h1 | h1 | h1 | h1 | h1 <;>
    (subst h1; decide)

/-- The folding passes on an operand, an operator and an operand: the node of the operator
with the two operands. -/
theorem foldAll_three (a b : Node) (op : String) (ha : isOperator a.Exp = false)
    (hb : isOperator b.Exp = false) (hop : isOperator op = true) :
    foldAll [.node a, .node (opNode op), .node b] = .ok [.mk op [.node a, .node b]] := by
  have pa := passProfile_of_not_operator _ ha
  have pb := passProfile_of_not_operator _ hb
  simp only [passProfile, passes, List.map_cons, List.map_nil, List.cons.injEq,
    and_true] at pa pb
  obtain ⟨a1, a2, a3, a4, a5, a6, a7⟩ := pa
  obtain ⟨b1, b2, b3, b4, b5, b6, b7⟩ := pb
  have hidx : ∃ i, passIndex op = some i := by
    have h1 := isOperator_cases op hop
    simp only [List.mem_cons, List.mem_nil_iff, or_false] at h1
    rcases h1 with h1 | h1 | h1 | h1 | h1 | h1 | h1 | h1 | h1 | h1 | h1 | h1 | h1 | h1 | h1
      | h1 <;> (subst h1; exact ⟨_, rfl⟩)
  obtain ⟨i, hi⟩ := hidx
  rcases passProfile_of_passIndex op i hi with ⟨-, ph⟩ | ⟨-, ph⟩ | ⟨-, ph⟩ | ⟨-, ph⟩
    | ⟨-, ph⟩ | ⟨-, ph⟩ | ⟨-, ph⟩ <;>
  (simp only [passProfile, passes, List.map_cons, List.map_nil, List.cons.injEq,
      and_true] at ph
   obtain ⟨p1, p2, p3, p4, p5, p6, p7⟩ := ph
   simp only [foldAll, foldPasses, passes, Res.bind, validateNodes, opNode, Node.Exp_mk,
     foldPass_keep3, foldPass_fold3, foldPass_keep1,
     a1, a2, a3, a4, a5, a6, a7, b1, b2, b3, b4, b5, b6, b7, p1, p2, p3, p4, p5, p6, p7,
     List.headD_cons])

/-! ### C26: the comma in an argument list -/

theorem parseTokens_of_loop (L : Float64Lib) (tokens : List Token) (vars : List Variable)
    (n : Node) (e : Nat) (hn : isOperator n.Exp = false) (he : tokens.length ≤ e + 1)
    (h : parenLoop L tokens vars tokens.length 0 [] = .ok ([.node n], e)) :
    parseTokens L tokens vars = .ok n := by
  unfold parseTokens parseExpression
  rw [h]
  simp only [finishExpression, Res.bind, foldAll_single n hn, List.length_singleton]
  rw [if_neg (by decide), if_neg (by omega)]

theorem foldLoop_atoms (ops : List String) (ns : List Node)
    (h : ∀ n ∈ ns, ops.contains n.Exp = false) :
    ∀ (pos : Nat) (acc : List Arg),
      foldLoop ops (ns.map Arg.node) pos acc = .ok (acc ++ ns.map Arg.node) := by
  induction ns with
  | nil => intro pos acc; simp [foldLoop]
  | cons n ns ih =>
    intro pos acc
    rw [List.map_cons, foldLoop_keep ops n _ pos acc (h n (List.mem_cons_self _ _)),
      ih (fun x hx => h x (List.mem_cons_of_mem _ hx)), List.append_assoc]
    rfl

theorem validateNodes_nodes (first : Arg) (ns : List Node) :
    validateNodes first (ns.map Arg.node) = .ok ns := by
  induction ns with
  | nil => rfl
  | cons n ns ih => rw [List.map_cons, validateNodes, ih]; rfl

/-- Nodes whose tags are no operator symbols go through the seven folding passes and the
final check unchanged. -/
theorem foldAll_atoms (ns : List Node) (h : ∀ n ∈ ns, isOperator n.Exp = false) :
    foldAll (ns.map Arg.node) = .ok ns := by
  have hp : ∀ ps : List (List String), (∀ ops ∈ ps, ops ∈ passes) →
      foldPasses ps (ns.map Arg.node) = .ok (ns.map Arg.node) := by
    intro ps
    induction ps with
    | nil => intro _; rfl
    | cons ops ps ih =>
      intro hps
      have h1 := foldLoop_atoms ops ns
        (fun n hn => not_contains_of_not_operator _ (h n hn) ops (hps ops (List.mem_cons_self _ _)))
        0 []
      rw [foldPasses, foldPass, h1]
      exact ih fun o ho => hps o (List.mem_cons_of_mem _ ho)
  unfold foldAll
  rw [hp passes (fun _ h => h)]
  exact validateNodes_nodes _ ns

/-- C26: for every function name `f`, binary operator `op` and literal tokens with the leaves
`na` and `nb`, the tokens of `f(a, op b)` parse to `f` with the single argument
`op(na, nb)`, and the tokens of `f(a b)` parse to the same node as those of `f(a, b)`, which
is `f(na, nb)`. -/
theorem comma_does_not_end_argument (L : Float64Lib) (vars : List Variable) (f op : String)
    (ta tb : Token) (na nb : Node) (hf : isFunction f = true) (hop : isOperator op = true)
    (ha : literalLeaf L vars ta = some na) (hb : literalLeaf L vars tb = some nb) :
    parseTokens L [mkToken "IDENT" f, mkToken "(" "(", ta, mkToken "," ",", mkToken op op, tb,
        mkToken ")" ")"] vars
      = .ok (.mk f [.node (.mk op [.node na, .node nb])])
    ∧ parseTokens L [mkToken "IDENT" f, mkToken "(" "(", ta, tb, mkToken ")" ")"] vars
      = .ok (.mk f [.node na, .node nb])
    ∧ parseTokens L [mkToken "IDENT" f, mkToken "(" "(", ta, mkToken "," ",", tb,
        mkToken ")" ")"] vars
      = .ok (.mk f [.node na, .node nb]) := by
  obtain ⟨hty, o1, o2, o3, o4, o5, o6⟩ := tokenTypeName_operator op hop
  have hfo := isOperator_not_function f hf
  have hident : tokenTypeName (mkToken "IDENT" f) = some "IDENT" := rfl
  have hcomma : tokenTypeName (mkToken "," ",") = some "," := rfl
  have hclose : tokenTypeName (mkToken ")" ")") = some ")" := rfl
  refine ⟨?_, ?_, ?_⟩
  · refine parseTokens_of_loop L _ vars (.mk f [.node (.mk op [.node na, .node nb])]) 7 hfo
      (by simp) ?_
    have hla := fun fuel buffer => parenLoop_literal L
      [mkToken "IDENT" f, mkToken "(" "(", ta, mkToken "," ",", mkToken op op, tb,
        mkToken ")" ")"] vars fuel 2 buffer ta na rfl ha
    have hlb := fun fuel buffer => parenLoop_literal L
      [mkToken "IDENT" f, mkToken "(" "(", ta, mkToken "," ",", mkToken op op, tb,
        mkToken ")" ")"] vars fuel 5 buffer tb nb rfl hb
    have hoa := isOperator_not_leafTag _ (hla 0 []).2
    have hob := isOperator_not_leafTag _ (hlb 0 []).2
    show parenLoop L _ vars 7 0 [] = _
    rw [parenLoop_function L _ vars 6 0 [] (mkToken "IDENT" f) (mkToken "(" "(") rfl hident hf
      rfl rfl]
    rw [(hla 5 []).1, parenLoop_comma L _ vars 4 3 _ (mkToken "," ",") rfl hcomma,
      parenLoop_default L _ vars 3 4 _ (mkToken op op) op rfl hty o1 o2 o3 o4 o5 o6,
      (hlb 2 _).1, parenLoop_close L _ vars 1 6 _ (mkToken ")" ")") rfl hclose]
    have hfold := foldAll_three na nb op hoa hob hop
    simp only [opNode] at hfold
    simp only [finishExpression, Res.bind, List.nil_append, List.cons_append, mkToken, hfold,
      List.map_cons, List.map_nil]
    exact parenLoop_end L _ vars 6 7 _ rfl
  · refine parseTokens_of_loop L _ vars (.mk f [.node na, .node nb]) 5 hfo (by simp) ?_
    have hla := fun fuel buffer => parenLoop_literal L
      [mkToken "IDENT" f, mkToken "(" "(", ta, tb, mkToken ")" ")"] vars fuel 2 buffer ta na
      rfl ha
    have hlb := fun fuel buffer => parenLoop_literal L
      [mkToken "IDENT" f, mkToken "(" "(", ta, tb, mkToken ")" ")"] vars fuel 3 buffer tb nb
      rfl hb
    have hoa := isOperator_not_leafTag _ (hla 0 []).2
    have hob := isOperator_not_leafTag _ (hlb 0 []).2
    show parenLoop L _ vars 5 0 [] = _
    rw [parenLoop_function L _ vars 4 0 [] (mkToken "IDENT" f) (mkToken "(" "(") rfl hident hf
      rfl rfl]
    rw [(hla 3 []).1, (hlb 2 _).1, parenLoop_close L _ vars 1 4 _ (mkToken ")" ")") rfl hclose]
    have hfold := foldAll_atoms [na, nb] (by
      intro n hn
      rcases List.mem_cons.mp hn with rfl | hn
      · exact hoa
      · rcases List.mem_cons.mp hn with rfl | hn
        · exact hob
        · cases hn)
    simp only [List.map_cons, List.map_nil] at hfold
    simp only [finishExpression, Res.bind, List.nil_append, List.cons_append, mkToken, hfold,
      List.map_cons, List.map_nil]
    exact parenLoop_end L _ vars 4 5 _ rfl
  · refine parseTokens_of_loop L _ vars (.mk f [.node na, .node nb]) 6 hfo (by simp) ?_
    have hla := fun fuel buffer => parenLoop_literal L
      [mkToken "IDENT" f, mkToken "(" "(", ta, mkToken "," ",", tb, mkToken ")" ")"] vars fuel
      2 buffer ta na rfl ha
    have hlb := fun fuel buffer => parenLoop_literal L
      [mkToken "IDENT" f, mkToken "(" "(", ta, mkToken "," ",", tb, mkToken ")" ")"] vars fuel
      4 buffer tb nb rfl hb
    have hoa := isOperator_not_leafTag _ (hla 0 []).2
    have hob := isOperator_not_leafTag _ (hlb 0 []).2
    show parenLoop L _ vars 6 0 [] = _
    rw [parenLoop_function L _ vars 5 0 [] (mkToken "IDENT" f) (mkToken "(" "(") rfl hident hf
      rfl rfl]
    rw [(hla 4 []).1, parenLoop_comma L _ vars 3 3 _ (mkToken "," ",") rfl hcomma, (hlb 2 _).1,
      parenLoop_close L _ vars 1 5 _ (mkToken ")" ")") rfl hclose]
    have hfold := foldAll_atoms [na, nb] (by
      intro n hn
      rcases List.mem_cons.mp hn with rfl | hn
      · exact hoa
      · rcases List.mem_cons.mp hn with rfl | hn
        · exact hob
        · cases hn)
    simp only [List.map_cons, List.map_nil] at hfold
    simp only [finishExpression, Res.bind, List.nil_append, List.cons_append, mkToken, hfold,
      List.map_cons, List.map_nil]
    exact parenLoop_end L _ vars 5 6 _ rfl

/-- C26, at CONCAT('a', || 'b'), CONCAT('a' 'b') and CONCAT('a', 'b'). -/
theorem comma_does_not_end_argument_witness :
    parseTokens goFloat64 [mkToken "IDENT" "CONCAT", mkToken "(" "(", mkToken "STRING" "a",
        mkToken "," ",", mkToken "||" "||", mkToken "STRING" "b", mkToken ")" ")"] []
      = .ok (.mk "CONCAT" [.node (.mk "||" [.node (.mk "STRING" [.str "a"]),
          .node (.mk "STRING" [.str "b"])])])
    ∧ parseTokens goFloat64 [mkToken "IDENT" "CONCAT", mkToken "(" "(", mkToken "STRING" "a",
        mkToken "STRING" "b", mkToken ")" ")"] []
      = .ok (.mk "CONCAT" [.node (.mk "STRING" [.str "a"]), .node (.mk "STRING" [.str "b"])])
    ∧ parseTokens goFloat64 [mkToken "IDENT" "CONCAT", mkToken "(" "(", mkToken "STRING" "a",
        mkToken "," ",", mkToken "STRING" "b", mkToken ")" ")"] []
      = .ok (.mk "CONCAT" [.node (.mk "STRING" [.str "a"]), .node (.mk "STRING" [.str "b"])]) :=
  comma_does_not_end_argument goFloat64 [] "CONCAT" "||" (mkToken "STRING" "a")
    (mkToken "STRING" "b") (.mk "STRING" [.str "a"]) (.mk "STRING" [.str "b"])
    (by decide) (by decide) (by decide) (by decide)

/-! ### Closing parentheses missing at the end of the tokens -/

theorem follows_refl {α : Type} (r : Res α) : r.follows r := by
  cases r <;> simp [Res.follows, Res.isError, Res.isPanic]

theorem follows_bind {α β : Type} (r1 r2 : Res α) (f1 f2 : α → Res β) (h : r1.follows r2)
    (hf : ∀ a, (f1 a).follows (f2 a)) : (r1.bind f1).follows (r2.bind f2) := by
  cases r1 with
  | ok a =>
    have : r2 = .ok a := h
    subst this
    exact hf a
  | error e =>
    have : r2 = .error e := h
    subst this
    rfl
  | panic p =>
    have h2 : (r2.isError || r2.isPanic) = true := h
    cases r2 <;> simp [Res.isError, Res.isPanic] at h2 <;>
      simp [Res.bind, Res.follows, Res.isError, Res.isPanic]
  | outOfFuel => trivial

theorem follows_finishExpression (r1 r2 : Res (List Arg × Nat)) (h : r1.follows r2) :
    (finishExpression r1).follows (finishExpression r2) :=
  follows_bind r1 r2 _ _ h fun _ => follows_refl _

theorem parenLoop_notype (L : Float64Lib) (tokens : List Token) (vars : List Variable)
    (fuel pos : Nat) (buffer : List Arg) (token : Token)
    (ht : tokens[pos]? = some token) (hty : tokenTypeName token = none) :
    parenLoop L tokens vars (fuel + 1) pos buffer
      = .panic (indexPanic token.TypeId Tokens.length) := by
  rw [parenLoop]
  simp only [ht, hty]

theorem parenLoop_function_last (L : Float64Lib) (tokens : List Token) (vars : List Variable)
    (fuel pos : Nat) (buffer : List Arg) (token : Token)
    (ht : tokens[pos]? = some token) (hty : tokenTypeName token = some "IDENT")
    (hf : isFunction token.Value = true) (hn : tokens[pos + 1]? = none) :
    parenLoop L tokens vars (fuel + 1) pos buffer
      = .panic (indexPanic (pos + 1) tokens.length) := by
  rw [parenLoop]
  simp only [ht, hty, hf, hn]
  simp only [show ("IDENT" = ",") = False from by decide,
    show ("IDENT" = ")") = False from by decide, show ("IDENT" = "(") = False from by decide,
    if_false, if_true]

theorem parenLoop_function_noparen (L : Float64Lib) (tokens : List Token)
    (vars : List Variable) (fuel pos : Nat) (buffer : List Arg) (token next : Token)
    (ht : tokens[pos]? = some token) (hty : tokenTypeName token = some "IDENT")
    (hf : isFunction token.Value = true) (hn : tokens[pos + 1]? = some next)
    (hv : next.Value ≠ "(") :
    parenLoop L tokens vars (fuel + 1) pos buffer
      = .error ("expected '(' after " ++ token.Value) := by
  rw [parenLoop]
  simp only [ht, hty, hf, hn, hv]
  simp only [show ("IDENT" = ",") = False from by decide,
    show ("IDENT" = ")") = False from by decide, show ("IDENT" = "(") = False from by decide,
    if_false, if_true]

theorem parenLoop_number_bind (L : Float64Lib) (tokens : List Token) (vars : List Variable)
    (fuel pos : Nat) (buffer : List Arg) (token : Token)
    (ht : tokens[pos]? = some token) (hty : tokenTypeName token = some "NUMBER") :
    parenLoop L tokens vars (fuel + 1) pos buffer
      = (reformatFloat L token.Value).bind fun f =>
          parenLoop L tokens vars fuel (pos + 1) (buffer ++ [.node (.mk "NUMBER" [.str f])]) := by
  rw [parenLoop]
  simp only [ht, hty]
  simp only [show ("NUMBER" = ",") = False from by decide,
    show ("NUMBER" = ")") = False from by decide, show ("NUMBER" = "(") = False from by decide,
    show ("NUMBER" = "IDENT") = False from by decide, if_false, if_true]
  cases reformatFloat L token.Value <;> rfl

theorem parenLoop_variable_bind (L : Float64Lib) (tokens : List Token) (vars : List Variable)
    (fuel pos : Nat) (buffer : List Arg) (token : Token)
    (ht : tokens[pos]? = some token) (hty : tokenTypeName token = some "IDENT")
    (hf : isFunction token.Value = false) :
    parenLoop L tokens vars (fuel + 1) pos buffer
      = (match lookupVariable token.Value vars with
          | none => Res.error (notFoundMsg token.Value)
          | some v => variableNode L v).bind fun node =>
            parenLoop L tokens vars fuel (pos + 1) (buffer ++ [Arg.node node]) := by
  rw [parenLoop_ident_variable L tokens vars fuel pos buffer token ht hty hf]
  cases lookupVariable token.Value vars <;> rfl

/-- The structural loop on the tokens `t` followed by `k` closing parentheses follows the
loop on `t` run with less fuel: the same buffer and end position, the same error, or a failure
where the loop on `t` panics. -/
theorem parenLoop_follows (L : Float64Lib) (t : List Token) (vars : List Variable) (k : Nat)
    (fuel : Nat) :
    ∀ (fuel2 pos : Nat) (buffer : List Arg), fuel < fuel2 →
      (parenLoop L t vars fuel pos buffer).follows
        (parenLoop L (t ++ List.replicate k (mkToken ")" ")")) vars fuel2 pos buffer) := by
  have hend : ∀ (fuel2 pos : Nat) (buffer : List Arg), 0 < fuel2 → t[pos]? = none →
      parenLoop L (t ++ List.replicate k (mkToken ")" ")")) vars fuel2 pos buffer
        = .ok (buffer, pos) := by
    intro fuel2 pos buffer hf hnone
    obtain ⟨f, rfl⟩ : ∃ f, fuel2 = f + 1 := ⟨fuel2 - 1, by omega⟩
    cases h2 : (t ++ List.replicate k (mkToken ")" ")"))[pos]? with
    | none => exact parenLoop_end L _ vars _ pos buffer h2
    | some tok =>
      have hlen : t.length ≤ pos := by
        by_contra hc
        have := List.getElem?_eq_none_iff.mp hnone
        omega
      rw [List.getElem?_append_right hlen] at h2
      have htok : tok = mkToken ")" ")" := by
        have := List.getElem?_mem h2
        exact (List.mem_replicate.mp this).2
      subst htok
      have h3 : (t ++ List.replicate k (mkToken ")" ")"))[pos]? = some (mkToken ")" ")") := by
        rw [List.getElem?_append_right hlen]; exact h2
      exact parenLoop_close L _ vars f pos buffer _ h3 rfl
  induction fuel with
  | zero =>
    intro fuel2 pos buffer hlt
    cases ht : t[pos]? with
    | none =>
      rw [parenLoop_end L t vars 0 pos buffer ht, hend fuel2 pos buffer hlt ht]
      rfl
    | some token =>
      have : parenLoop L t vars 0 pos buffer = .outOfFuel := by
        rw [parenLoop]; simp only [ht]
      rw [this]; trivial
  | succ fuel ih =>
    intro fuel2 pos buffer hlt
    obtain ⟨f2, rfl⟩ : ∃ f, fuel2 = f + 1 := ⟨fuel2 - 1, by omega⟩
    have hlt2 : fuel < f2 := by omega
    cases ht : t[pos]? with
    | none =>
      rw [parenLoop_end L t vars _ pos buffer ht, hend _ pos buffer (by omega) ht]
      rfl
    | some token =>
      have hpos : pos < t.length := by
        by_contra hc
        have := List.getElem?_eq_none (l := t) (n := pos) (by omega)
        rw [this] at ht; cases ht
      have ht2 : (t ++ List.replicate k (mkToken ")" ")"))[pos]? = some token := by
        rw [List.getElem?_append_left hpos]; exact ht
      cases hty : tokenTypeName token with
      | none =>
        rw [parenLoop_notype L t vars fuel pos buffer token ht hty,
          parenLoop_notype L _ vars f2 pos buffer token ht2 hty]
        rfl
      | some ty =>
        by_cases h1 : ty = ","
        · subst h1
          rw [parenLoop_comma L t vars fuel pos buffer token ht hty,
            parenLoop_comma L _ vars f2 pos buffer token ht2 hty]
          exact ih f2 _ _ hlt2
        by_cases h2 : ty = ")"
        · subst h2
          rw [parenLoop_close L t vars fuel pos buffer token ht hty,
            parenLoop_close L _ vars f2 pos buffer token ht2 hty]
          rfl
        by_cases h3 : ty = "("
        · subst h3
          rw [parenLoop_open L t vars fuel pos buffer token ht hty,
            parenLoop_open L _ vars f2 pos buffer token ht2 hty]
          exact follows_bind _ _ _ _ (follows_finishExpression _ _ (ih f2 _ _ hlt2))
            (fun p => ih f2 _ _ hlt2)
        by_cases h4 : ty = "IDENT"
        · subst h4
          cases hf : isFunction token.Value with
          | true =>
            cases hn : t[pos + 1]? with
            | none =>
              rw [parenLoop_function_last L t vars fuel pos buffer token ht hty hf hn]
              cases hn2 : (t ++ List.replicate k (mkToken ")" ")"))[pos + 1]? with
              | none =>
                rw [parenLoop_function_last L _ vars f2 pos buffer token ht2 hty hf hn2]
                rfl
              | some next =>
                have hlen : t.length ≤ pos + 1 := by
                  have := List.getElem?_eq_none_iff.mp hn
                  omega
                rw [List.getElem?_append_right hlen] at hn2
                have hnext : next = mkToken ")" ")" :=
                  (List.mem_replicate.mp (List.getElem?_mem hn2)).2
                have hn3 : (t ++ List.replicate k (mkToken ")" ")"))[pos + 1]? = some next := by
                  rw [List.getElem?_append_right hlen]; exact hn2
                rw [parenLoop_function_noparen L _ vars f2 pos buffer token next ht2 hty hf hn3
                  (by rw [hnext]; decide)]
                rfl
            | some next =>
              have hpos1 : pos + 1 < t.length := by
                by_contra hc
                have := List.getElem?_eq_none (l := t) (n := pos + 1) (by omega)
                rw [this] at hn; cases hn
              have hn2 : (t ++ List.replicate k (mkToken ")" ")"))[pos + 1]? = some next := by
                rw [List.getElem?_append_left hpos1]; exact hn
              by_cases hv : next.Value = "("
              · rw [parenLoop_function L t vars fuel pos buffer token next ht hty hf hn hv,
                  parenLoop_function L _ vars f2 pos buffer token next ht2 hty hf hn2 hv]
                exact follows_bind _ _ _ _ (follows_finishExpression _ _ (ih f2 _ _ hlt2))
                  (fun p => ih f2 _ _ hlt2)
              · rw [parenLoop_function_noparen L t vars fuel pos buffer token next ht hty hf hn
                    hv,
                  parenLoop_function_noparen L _ vars f2 pos buffer token next ht2 hty hf hn2 hv]
                rfl
          | false =>
            rw [parenLoop_variable_bind L t vars fuel pos buffer token ht hty hf,
              parenLoop_variable_bind L _ vars f2 pos buffer token ht2 hty hf]
            exact follows_bind _ _ _ _ (follows_refl _) (fun node => ih f2 _ _ hlt2)
        by_cases h5 : ty = "NUMBER"
        · subst h5
          rw [parenLoop_number_bind L t vars fuel pos buffer token ht hty,
            parenLoop_number_bind L _ vars f2 pos buffer token ht2 hty]
          exact follows_bind _ _ _ _ (follows_refl _) (fun f => ih f2 _ _ hlt2)
        by_cases h6 : ty = "STRING"
        · subst h6
          rw [parenLoop_string L t vars fuel pos buffer token ht hty,
            parenLoop_string L _ vars f2 pos buffer token ht2 hty]
          exact ih f2 _ _ hlt2
        · rw [parenLoop_default L t vars fuel pos buffer token ty ht hty h1 h2 h3 h4 h5 h6,
            parenLoop_default L _ vars f2 pos buffer token ty ht2 hty h1 h2 h3 h4 h5 h6]
          exact ih f2 _ _ hlt2

/-- Closing parentheses missing at the end are tolerated wherever parsing does not panic:
parsing the tokens `t` followed by `k` closing parentheses returns a node only if parsing `t`
returns that node; when the end position that `parseExpression` returns for `t` stands `k` or
more past the end of `t` (one for each function call or group still open there), both streams
have the same outcome; and an error of `parseExpression` on `t` is the error of both. -/
theorem closing_parentheses_tolerated (L : Float64Lib) (t : List Token) (vars : List Variable)
    (k : Nat) :
    (∀ n, parseTokens L (t ++ List.replicate k (mkToken ")" ")")) vars = .ok n →
        parseTokens L t vars = .ok n)
    ∧ (∀ nodes e, parseExpression L t vars t.length 0 = .ok (nodes, e) → t.length + k ≤ e →
        parseTokens L (t ++ List.replicate k (mkToken ")" ")")) vars = parseTokens L t vars)
    ∧ (∀ msg, parseExpression L t vars t.length 0 = .error msg →
        parseTokens L (t ++ List.replicate k (mkToken ")" ")")) vars = .error msg
          ∧ parseTokens L t vars = .error msg) := by
  rcases Nat.eq_zero_or_pos k with hk | hk
  · subst hk
    simp only [List.replicate_zero, List.append_nil]
    refine ⟨fun n h => h, fun _ _ _ _ => trivial, fun msg h => ?_⟩
    have : parseTokens L t vars = .error msg := by
      unfold parseTokens; rw [h]
    exact ⟨this, this⟩
  · have hlen : (t ++ List.replicate k (mkToken ")" ")")).length = t.length + k := by
      simp
    have hfol := follows_finishExpression _ _
      (parenLoop_follows L t vars k t.length (t.length + k) 0 [] (by omega))
    have hne := finishExpression_ne_outOfFuel _
      (parenLoop_fuel L t vars t.length 0 [] (by omega)).1
    refine ⟨?_, ?_, ?_⟩
    · intro n h
      unfold parseTokens parseExpression at h ⊢
      rw [hlen] at h
      cases hf1 : finishExpression (parenLoop L t vars t.length 0 []) with
      | ok p =>
        obtain ⟨nodes, e⟩ := p
        rw [hf1] at hfol
        have hf2 : finishExpression (parenLoop L (t ++ List.replicate k (mkToken ")" ")")) vars
            (t.length + k) 0 []) = .ok (nodes, e) := hfol
        rw [hf2] at h
        dsimp only at h ⊢
        split_ifs at h with c1 c2
        rw [if_neg c1, if_neg (by push_cast at c2 ⊢; omega)]
        exact h
      | error msg =>
        rw [hf1] at hfol
        have hf2 : finishExpression (parenLoop L (t ++ List.replicate k (mkToken ")" ")")) vars
            (t.length + k) 0 []) = .error msg := hfol
        rw [hf2] at h
        cases h
      | panic msg =>
        rw [hf1] at hfol
        have hf2 : ((finishExpression (parenLoop L (t ++ List.replicate k (mkToken ")" ")")) vars
            (t.length + k) 0 [])).isError || (finishExpression (parenLoop L
            (t ++ List.replicate k (mkToken ")" ")")) vars (t.length + k) 0 [])).isPanic)
            = true := hfol
        cases hf3 : finishExpression (parenLoop L (t ++ List.replicate k (mkToken ")" ")")) vars
            (t.length + k) 0 []) <;> rw [hf3] at hf2 h <;>
          first | cases h | (simp [Res.isError, Res.isPanic] at hf2)
      | outOfFuel => exact absurd hf1 hne
    · intro nodes e hpe hke
      unfold parseExpression at hpe
      rw [hpe] at hfol
      have hf2 : finishExpression (parenLoop L (t ++ List.replicate k (mkToken ")" ")")) vars
          (t.length + k) 0 []) = .ok (nodes, e) := hfol
      unfold parseTokens parseExpression
      rw [hlen, hf2, hpe]
      dsimp only
      by_cases c1 : nodes.length > 1
      · rw [if_pos c1, if_pos c1]
      · rw [if_neg c1, if_neg c1, if_neg (by push_cast; omega), if_neg (by omega)]
    · intro msg hpe
      have h1 : parseTokens L t vars = .error msg := by
        unfold parseTokens; rw [hpe]
      unfold parseExpression at hpe
      rw [hpe] at hfol
      have hf2 : finishExpression (parenLoop L (t ++ List.replicate k (mkToken ")" ")")) vars
          (t.length + k) 0 []) = .error msg := hfol
      refine ⟨?_, h1⟩
      unfold parseTokens parseExpression
      rw [hlen, hf2]

/-! ### C25: a function name before a missing closing parenthesis -/

/-- C25: the tokens `( ABS` leave one group open. Parsing them panics at the index past the
function name, and parsing them followed by the closing parenthesis returns the error of a
function name without parenthesis, so the two outcomes are not an error in both cases. The
test input `LTRIM(RTRIM(' a ')` with both or one of its closing parentheses missing parses to
LTRIM(RTRIM(STRING(" a "))), as with both parentheses, and evaluates to `a`. -/
theorem open_group_function_name_panics (L : Float64Lib) (vars : List Variable) :
    parseTokens L [mkToken "(" "(", mkToken "IDENT" "ABS"] vars
      = .panic "index out of range [2] with length 2"
    ∧ parseTokens L ([mkToken "(" "(", mkToken "IDENT" "ABS"]
        ++ List.replicate 1 (mkToken ")" ")")) vars
      = .error "expected '(' after ABS"
    ∧ parseExpression L [mkToken "(" "(", mkToken "IDENT" "ABS"] vars 2 0
      = .panic "index out of range [2] with length 2"
    ∧ parseTokens goFloat64 [mkToken "IDENT" "LTRIM", mkToken "(" "(", mkToken "IDENT" "RTRIM",
        mkToken "(" "(", mkToken "STRING" " a "] []
      = .ok (.mk "LTRIM" [.node (.mk "RTRIM" [.node (.mk "STRING" [.str " a "])])])
    ∧ parseExpression goFloat64 [mkToken "IDENT" "LTRIM", mkToken "(" "(",
        mkToken "IDENT" "RTRIM", mkToken "(" "(", mkToken "STRING" " a "] [] 5 0
      = .ok ([.mk "LTRIM" [.node (.mk "RTRIM" [.node (.mk "STRING" [.str " a "])])]], 7)
    ∧ parseTokens goFloat64 ([mkToken "IDENT" "LTRIM", mkToken "(" "(", mkToken "IDENT" "RTRIM",
        mkToken "(" "(", mkToken "STRING" " a "] ++ List.replicate 2 (mkToken ")" ")")) []
      = .ok (.mk "LTRIM" [.node (.mk "RTRIM" [.node (.mk "STRING" [.str " a "])])])
    ∧ Evaluate goFloat64 (.ok [mkToken "IDENT" "LTRIM", mkToken "(" "(",
        mkToken "IDENT" "RTRIM", mkToken "(" "(", mkToken "STRING" " a "]) [] = .ok "a"
    ∧ Evaluate goFloat64 (.ok [mkToken "IDENT" "LTRIM", mkToken "(" "(",
        mkToken "IDENT" "RTRIM", mkToken "(" "(", mkToken "STRING" " a ", mkToken ")" ")"]) []
      = .ok "a" := by
  have h5 : parseExpression goFloat64 [mkToken "IDENT" "LTRIM", mkToken "(" "(",
      mkToken "IDENT" "RTRIM", mkToken "(" "(", mkToken "STRING" " a "] [] 5 0
      = .ok ([.mk "LTRIM" [.node (.mk "RTRIM" [.node (.mk "STRING" [.str " a "])])]], 7) := by
    decide!
  have h4 : parseTokens goFloat64 [mkToken "IDENT" "LTRIM", mkToken "(" "(",
      mkToken "IDENT" "RTRIM", mkToken "(" "(", mkToken "STRING" " a "] []
      = .ok (.mk "LTRIM" [.node (.mk "RTRIM" [.node (.mk "STRING" [.str " a "])])]) := by
    decide!
  refine ⟨rfl, rfl, rfl, h4, h5, ?_, by decide!, by decide!⟩
  rw [(closing_parentheses_tolerated goFloat64 _ [] 2).2.1 _ 7 h5 (by decide), h4]

end Expression
